import Mathlib

/-!
# Object identifier codec of `library/oid.c`

A shallow embedding of the two codec entry points of `library/oid.c`,
`mbedtls_oid_get_numeric_string` (binary OID to dotted-decimal text) and
`mbedtls_oid_from_numeric_string` (dotted-decimal text to binary OID), with
their static helpers, followed by theorems about them.

Conventions of the embedding:

* a byte of a binary OID is a `Nat` (well-formed when `< 256`), a binary OID
  `oid->p[0 .. oid->len)` is a `List Nat`;
* a `char` of a text is a `Char`; a text `(oid_str, size)` is the `List Char`
  of its `size` characters, and may contain NUL characters;
* `unsigned int` is 32 bits wide: arithmetic that can leave the range is
  written with an explicit `% 2 ^ 32`;
* a moving read pointer (`str_ptr`, `oid->p + i`) is the list of the elements
  not yet read; a moving write pointer is the list of elements written so far
  together with the room that is left.
-/

namespace Oid

/-! ## Constants taken from headers -/

/-- Modelled from the spec: `UINT_MAX` of `<limits.h>` for a 32-bit `unsigned int`
(the header is not part of the sources). -/
def UINT_MAX : Nat := 4294967295

/-- Modelled from the spec: `INT_MAX` of `<limits.h>` for a 32-bit `int`. -/
def INT_MAX : Nat := 2147483647

/-- Modelled from the spec: `SIZE_MAX` of `<stdint.h>` for a 64-bit `size_t`. -/
def SIZE_MAX : Nat := 18446744073709551615

/-- Modelled from the spec: error code "out of data" (`TruncatedInput`), declared in
`mbedtls/asn1.h`, which is not part of the sources. -/
def MBEDTLS_ERR_ASN1_OUT_OF_DATA : Int := -0x0060

/-- Modelled from the spec: error code "invalid data" (`InvalidEncoding`), declared in
`mbedtls/asn1.h`. -/
def MBEDTLS_ERR_ASN1_INVALID_DATA : Int := -0x0068

/-- Modelled from the spec: error code "allocation failed" (`AllocationFailure`),
declared in `mbedtls/asn1.h`. -/
def MBEDTLS_ERR_ASN1_ALLOC_FAILED : Int := -0x006A

/-- Modelled from the spec: error code "buffer too small" (`BufferTooSmall`), declared in
`mbedtls/oid.h`. -/
def MBEDTLS_ERR_OID_BUF_TOO_SMALL : Int := -0x000B

/-- Modelled from the spec: the ASN.1 tag of an object identifier, declared in
`mbedtls/asn1.h`. -/
def MBEDTLS_ASN1_OID : Nat := 0x06

/-- The NUL character that ends a C string. -/
def NUL : Char := Char.ofNat 0

/-! ## Library functions used by the codec -/

/-- Modelled from the spec: the `%u` conversion of `mbedtls_snprintf` (C library, not part
of the sources): the decimal digits of an unsigned value, most significant first,
without leading zero, and `0` for zero. -/
def fmt_u (value : Nat) : List Char := Nat.toDigits 10 value

/-- Modelled from the spec: the effect of `mbedtls_snprintf(p, n, ...)` (C library) on the
caller's buffer. `buf` is the text held by the buffer before the call (`none` when
nothing has been stored yet), `out` the characters in front of `p`, `n` the room
from `p` on, `s` the formatted text. With `n = 0` nothing is stored; otherwise the
first `n - 1` characters of `s` are stored, followed by a NUL. The value returned by
`snprintf` is `s.length`. -/
def mbedtls_snprintf (buf : Option (List Char)) (out : List Char) (n : Nat)
    (s : List Char) : Option (List Char) :=
  if n = 0 then buf else some (out ++ s.take (n - 1))

/-- The conversion `(int) x` of a `size_t` value to a 32-bit `int`. -/
def int_of_size_t (x : Nat) : Int :=
  if x % 2 ^ 32 < 2 ^ 31 then ((x % 2 ^ 32 : Nat) : Int) else ((x % 2 ^ 32 : Nat) : Int) - 2 ^ 32

/-! ## `mbedtls_oid_get_numeric_string` -/

/-- What a call of `mbedtls_oid_get_numeric_string` leaves behind: the value it
returns and the text held by the caller's buffer, `none` when the buffer was never
stored to, `some s` when it holds the characters of `s` followed by a NUL. -/
structure numeric_string_result where
  ret : Int
  buf : Option (List Char)
deriving DecidableEq, Repr

/-- The `while` loop of `mbedtls_oid_get_numeric_string` that reads the first
subidentifier, with the two statements that follow it. The second argument is
`oid->p[i .. oid->len)`. Returns the error code, or `value` and the bytes from the
new `i` on. -/
def first_subidentifier : Nat → List Nat → Except Int (Nat × List Nat)
  | _, [] => .error MBEDTLS_ERR_ASN1_OUT_OF_DATA
  | value, b :: bs =>
    if b &&& 0x80 ≠ 0 then
      if value > UINT_MAX >>> 7 then .error MBEDTLS_ERR_ASN1_INVALID_DATA
      else first_subidentifier (((value ||| (b &&& 0x7F)) <<< 7) % 2 ^ 32) bs
    else .ok (value ||| (b &&& 0x7F), bs)

/-- The `for` loop of `mbedtls_oid_get_numeric_string` over the later
subidentifiers, with the final `return`. `out` is the text in front of `p`, `n`
the room left, the last argument `oid->p[i .. oid->len)`. -/
def later_subidentifiers (size : Nat) :
    Nat → List Char → Nat → List Nat → numeric_string_result
  | _, out, n, [] => ⟨int_of_size_t (size - n), some out⟩
  | value, out, n, b :: bs =>
    if value > UINT_MAX >>> 7 then ⟨MBEDTLS_ERR_ASN1_INVALID_DATA, some out⟩
    else if value = 0 ∧ b = 0x80 then ⟨MBEDTLS_ERR_ASN1_INVALID_DATA, some out⟩
    else
      let value := ((value <<< 7) % 2 ^ 32) ||| (b &&& 0x7F)
      if b &&& 0x80 = 0 then
        let s := '.' :: fmt_u value
        if s.length ≥ n then
          ⟨MBEDTLS_ERR_OID_BUF_TOO_SMALL, mbedtls_snprintf (some out) out n s⟩
        else later_subidentifiers size 0 (out ++ s) (n - s.length) bs
      else later_subidentifiers size value out n bs

/-- The function `mbedtls_oid_get_numeric_string(buf, size, oid)`; `oid` is the
list of the bytes `oid->p[0 .. oid->len)`, which must not be empty. For an empty
`oid` the C code tests `oid->p[0] == 0x80` before any test of `oid->len`: it reads
outside the buffer, and what it does then is not defined (it returns
`MBEDTLS_ERR_ASN1_INVALID_DATA` when the byte it finds is `0x80`, and faults on a null
`oid->p`). The value of this definition at `[]` follows the case where a byte other
than `0x80` is found and says nothing of the code; the properties of the function on
every input (C12, C22) are stated for `oid ≠ []`. -/
def mbedtls_oid_get_numeric_string (size : Nat) (oid : List Nat) : numeric_string_result :=
  if oid.head? = some 0x80 then ⟨MBEDTLS_ERR_ASN1_INVALID_DATA, none⟩
  else
    match first_subidentifier 0 oid with
    | .error e => ⟨e, none⟩
    | .ok (value, rest) =>
      let component1 := if value / 40 > 2 then 2 else value / 40
      let component2 := (value + 2 ^ 32 - 40 * component1) % 2 ^ 32
      let s := fmt_u component1 ++ '.' :: fmt_u component2
      if s.length ≥ size then
        ⟨MBEDTLS_ERR_OID_BUF_TOO_SMALL, mbedtls_snprintf none [] size s⟩
      else later_subidentifiers size 0 s (size - s.length) rest

/-! ## `mbedtls_oid_from_numeric_string` and its helpers -/

/-- The loop of `oid_parse_number`: `ret` and `*num` so far, and the text from
`*p` up to `bound`. Returns `ret`, `*num` and the text from the final `*p` on. -/
def oid_parse_number_loop : Int → Nat → List Char → Int × Nat × List Char
  | ret, num, [] => (ret, num, [])
  | ret, num, c :: cs =>
    if '0' ≤ c ∧ c ≤ '9' then
      if num > INT_MAX / 10 then (MBEDTLS_ERR_ASN1_INVALID_DATA, num, c :: cs)
      else oid_parse_number_loop 0 ((num * 10 % 2 ^ 32 + (c.toNat - '0'.toNat)) % 2 ^ 32) cs
    else (ret, num, c :: cs)

/-- The function `oid_parse_number(num, p, bound)`. -/
def oid_parse_number (p : List Char) : Int × Nat × List Char :=
  oid_parse_number_loop MBEDTLS_ERR_ASN1_INVALID_DATA 0 p

/-- The `while` loop of `oid_subidentifier_num_bytes`; the first argument bounds
the number of iterations. -/
def num_bytes_loop : Nat → Nat → Nat → Nat
  | 0, _, num_bytes => num_bytes
  | fuel + 1, value, num_bytes =>
    if value ≠ 0 then num_bytes_loop fuel (value >>> 7) (num_bytes + 1) else num_bytes

/-- The function `oid_subidentifier_num_bytes(value)`. The loop runs at most
`value` times, as every iteration makes a non-zero `value` smaller. -/
def oid_subidentifier_num_bytes (value : Nat) : Nat :=
  num_bytes_loop value (value >>> 7) 1

/-- The `for` loop of `oid_subidentifier_encode_into`: `count` bytes are still to
be stored, each in front of the bytes stored before. -/
def encode_into_loop : Nat → Nat → List Nat → List Nat
  | 0, _, stored => stored
  | count + 1, value, stored =>
    encode_into_loop count (value >>> 7) ((0x80 ||| (value &&& 0x7f)) :: stored)

/-- The function `oid_subidentifier_encode_into(p, bound, value)`: `written` are
the bytes in front of `*p`, `room` is `bound - *p`. Returns the code, the bytes in
front of the new `*p` and the new room. -/
def oid_subidentifier_encode_into (written : List Nat) (room : Nat) (value : Nat) :
    Int × List Nat × Nat :=
  let num_bytes := oid_subidentifier_num_bytes value
  if room < num_bytes then (MBEDTLS_ERR_OID_BUF_TOO_SMALL, written, room)
  else
    (0, written ++ encode_into_loop (num_bytes - 1) (value >>> 7) [value &&& 0x7f],
      room - num_bytes)

/-- The statement `if (str_ptr < str_bound && *str_ptr != 0) { if (*str_ptr == '.')
str_ptr++; else return INVALID_DATA; }` of the first pass: the new `str_ptr`, or
`none` for the `return`. -/
def skip_separator : List Char → Option (List Char)
  | [] => some []
  | c :: cs => if c ≠ NUL then (if c = '.' then some cs else none) else some (c :: cs)

/-- The statement `if (str_ptr < str_bound && *str_ptr == '.') str_ptr++;` of the
second pass: the new `str_ptr`. -/
def skip_dot : List Char → List Char
  | [] => []
  | d :: ds => if d = '.' then ds else d :: ds

/-- The `while` loop of the first pass of `mbedtls_oid_from_numeric_string`, which
sizes the buffer: `ret` as left by the last assignment to it, `encoded_len`, and
the text from `str_ptr` on. The first argument bounds the number of iterations. -/
def sizing_loop : Nat → Int → Nat → List Char → Except Int Nat
  | 0, _, encoded_len, _ => .ok encoded_len
  | _ + 1, _, encoded_len, [] => .ok encoded_len
  | fuel + 1, ret, encoded_len, c :: cs =>
    if c = NUL then .ok encoded_len
    else
      let (_, val, str_ptr) := oid_parse_number (c :: cs)
      if ret ≠ 0 then .error ret
      else
        match skip_separator str_ptr with
        | none => .error MBEDTLS_ERR_ASN1_INVALID_DATA
        | some str_ptr =>
          let num_bytes := oid_subidentifier_num_bytes val
          if SIZE_MAX - encoded_len ≤ num_bytes then .error MBEDTLS_ERR_ASN1_INVALID_DATA
          else sizing_loop fuel ret (encoded_len + num_bytes) str_ptr

/-- The `while` loop of the second pass of `mbedtls_oid_from_numeric_string`,
which stores the later subidentifiers: the bytes in front of `out_ptr`, the room
`out_bound - out_ptr`, and the text from `str_ptr` on. The first argument bounds
the number of iterations. -/
def encoding_loop : Nat → List Nat → Nat → List Char → Int × List Nat × Nat
  | 0, written, room, _ => (0, written, room)
  | _ + 1, written, room, [] => (0, written, room)
  | fuel + 1, written, room, c :: cs =>
    if c = NUL then (0, written, room)
    else
      let (_, val, str_ptr) := oid_parse_number (c :: cs)
      let str_ptr := skip_dot str_ptr
      let (ret, written, room) := oid_subidentifier_encode_into written room val
      if ret ≠ 0 then (ret, written, room)
      else encoding_loop fuel written room str_ptr

/-- The C structure `mbedtls_asn1_buf`; `p = none` is the null pointer, `p = some
bytes` a buffer holding `bytes`. -/
structure mbedtls_asn1_buf where
  tag : Nat
  len : Nat
  p : Option (List Nat)
deriving DecidableEq, Repr

/-- The first pass of `mbedtls_oid_from_numeric_string`, up to the call of
`mbedtls_calloc`: the code returned, or `encoded_len`. -/
def first_pass (oid_str : List Char) : Except Int Nat :=
  let (ret, component1, str_ptr) := oid_parse_number oid_str
  if ret ≠ 0 then .error ret
  else if component1 > 2 then .error MBEDTLS_ERR_ASN1_INVALID_DATA
  else
    match str_ptr with
    | [] => .error MBEDTLS_ERR_ASN1_INVALID_DATA
    | c :: str_ptr =>
      if c ≠ '.' then .error MBEDTLS_ERR_ASN1_INVALID_DATA
      else
        let (ret, component2, str_ptr) := oid_parse_number str_ptr
        if ret ≠ 0 then .error ret
        else if component1 < 2 ∧ component2 > 39 then .error MBEDTLS_ERR_ASN1_INVALID_DATA
        else
          match skip_separator str_ptr with
          | none => .error MBEDTLS_ERR_ASN1_INVALID_DATA
          | some str_ptr =>
            if UINT_MAX - component2 ≤ component1 * 40 % 2 ^ 32 then
              .error MBEDTLS_ERR_ASN1_INVALID_DATA
            else
              let encoded_len :=
                oid_subidentifier_num_bytes ((component1 * 40 % 2 ^ 32 + component2) % 2 ^ 32)
              sizing_loop (str_ptr.length + 1) ret encoded_len str_ptr

/-- The second pass of `mbedtls_oid_from_numeric_string`, from the comment "go
back to the start and encode" to the last loop: the code, the bytes stored and the
room left in a buffer of `encoded_len` bytes. -/
def second_pass (oid_str : List Char) (encoded_len : Nat) : Int × List Nat × Nat :=
  let (_, component1, str_ptr) := oid_parse_number oid_str
  let str_ptr := str_ptr.drop 1
  let (_, component2, str_ptr) := oid_parse_number str_ptr
  let str_ptr := str_ptr.drop 1
  let (ret, written, room) :=
    oid_subidentifier_encode_into [] encoded_len
      ((component1 * 40 % 2 ^ 32 + component2) % 2 ^ 32)
  if ret ≠ 0 then (ret, written, room)
  else encoding_loop (str_ptr.length + room + 1) written room str_ptr

/-- The function `mbedtls_oid_from_numeric_string(oid, oid_str, size)`: `oid` is
the caller's structure before the call, `oid_str` the `size` characters of the
text, `calloc_ok` tells whether `mbedtls_calloc` returns a buffer. Returns the code
and the caller's structure after the call. A buffer that was allocated and not
freed holds the bytes stored in it, followed by the zero bytes `mbedtls_calloc`
left in the room not written to. -/
def mbedtls_oid_from_numeric_string (oid : mbedtls_asn1_buf) (oid_str : List Char)
    (calloc_ok : Bool) : Int × mbedtls_asn1_buf :=
  match first_pass oid_str with
  | .error ret => (ret, oid)
  | .ok encoded_len =>
    if calloc_ok = false then (MBEDTLS_ERR_ASN1_ALLOC_FAILED, { oid with p := none })
    else
      let (ret, written, room) := second_pass oid_str encoded_len
      if ret ≠ 0 then (ret, { oid with p := none, len := 0 })
      else (0, { tag := MBEDTLS_ASN1_OID, len := encoded_len,
                 p := some (written ++ List.replicate room 0) })


/-! ## Notions used to state the properties -/

/-- The minimal base-128 encoding of a subidentifier value: its base-128 digits, most
significant first and without leading zero digit, the continuation bit `0x80` set on
every byte but the last. -/
def base128 (v : Nat) : List Nat :=
  (Nat.digits 128 (v / 128)).reverse.map (· + 128) ++ [v % 128]

/-- The concatenation of the minimal encodings of a list of subidentifier values. -/
def encoding : List Nat → List Nat
  | [] => []
  | v :: vs => base128 v ++ encoding vs

/-- The text `.v` for each value `v` of a list, in order. -/
def dotted_tail : List Nat → List Char
  | [] => []
  | v :: vs => '.' :: fmt_u v ++ dotted_tail vs

/-- The dotted-decimal text of the components `c1`, `c2` and `rest`: each component
in decimal without leading zero, separated by dots. -/
def dotted (c1 c2 : Nat) (rest : List Nat) : List Char :=
  fmt_u c1 ++ '.' :: fmt_u c2 ++ dotted_tail rest

/-- The first component held by the first subidentifier value `v`. -/
def first_component (v : Nat) : Nat := min (v / 40) 2

/-- The second component held by the first subidentifier value `v`. -/
def second_component (v : Nat) : Nat := v - 40 * first_component v

/-- The character is a decimal digit. -/
def is_digit (c : Char) : Prop := '0' ≤ c ∧ c ≤ '9'

instance (c : Char) : Decidable (is_digit c) := by unfold is_digit; infer_instance

/-- The text does not start with a decimal digit. -/
def no_leading_digit (str : List Char) : Prop :=
  ∀ c ∈ str.head?, ¬ is_digit c

/-- The value of a run of decimal digits, read from the left. -/
def decimal_value (digits : List Char) : Nat :=
  digits.foldl (fun value c => value * 10 + (c.toNat - '0'.toNat)) 0

/-- The values that the loop of the first pass of `mbedtls_oid_from_numeric_string`
reads with `oid_parse_number`, in order, from the text at `str_ptr`. The first
argument bounds the number of iterations. -/
def later_components : Nat → List Char → List Nat
  | 0, _ => []
  | _ + 1, [] => []
  | fuel + 1, c :: cs =>
    if c = NUL then []
    else
      let (_, val, str_ptr) := oid_parse_number (c :: cs)
      match skip_separator str_ptr with
      | none => []
      | some str_ptr => val :: later_components fuel str_ptr

/-- The components that the first pass of `mbedtls_oid_from_numeric_string` reads
with `oid_parse_number` from a text: the first, the second, and the later ones. -/
def parsed_components (oid_str : List Char) : Nat × Nat × List Nat :=
  let (_, component1, str_ptr) := oid_parse_number oid_str
  let (_, component2, str_ptr) := oid_parse_number (str_ptr.drop 1)
  match skip_separator str_ptr with
  | none => (component1, component2, [])
  | some str_ptr => (component1, component2, later_components (str_ptr.length + 1) str_ptr)

/-! ## The descriptor tables and their lookup functions -/

/-- Modelled from the spec: error code "not found" (`NotFound`), declared in
`mbedtls/oid.h`, which is not part of the sources. -/
def MBEDTLS_ERR_OID_NOT_FOUND : Int := -0x002E

/-- The C structure `mbedtls_oid_descriptor_t` (declared in `mbedtls/oid.h`), as the
macros `OID_DESCRIPTOR` and `NULL_OID_DESCRIPTOR` of `oid.c` fill it, without
`MBEDTLS_X509_REMOVE_INFO`. The pointer `asn1` with the length `asn1_len`, which
`ADD_LEN` computes from the same literal, is the list of the `asn1_len` bytes;
`none` is the null pointer. -/
structure mbedtls_oid_descriptor_t where
  asn1 : Option (List Nat)
  name : Option String
  description : Option String
deriving DecidableEq, Repr

/-- The field `asn1_len` of a descriptor: `MBEDTLS_OID_SIZE(s)` for `OID_DESCRIPTOR(s,
...)`, and 0 for `NULL_OID_DESCRIPTOR`. -/
def mbedtls_oid_descriptor_t.asn1_len (d : mbedtls_oid_descriptor_t) : Nat :=
  match d.asn1 with
  | none => 0
  | some s => s.length

/-- The macro `OID_DESCRIPTOR(s, name, description)`. -/
def OID_DESCRIPTOR (s : List Nat) (name description : String) : mbedtls_oid_descriptor_t :=
  { asn1 := some s, name := some name, description := some description }

/-- The macro `NULL_OID_DESCRIPTOR`. -/
def NULL_OID_DESCRIPTOR : mbedtls_oid_descriptor_t :=
  { asn1 := none, name := none, description := none }

/-- Modelled from the spec: `memcmp` of the C library, on the first `n` bytes of two
buffers: 0 when they are equal, and a non-zero value (here 1, the sign is not
modelled) when they differ. -/
def memcmp (a b : List Nat) (n : Nat) : Int :=
  if a.take n = b.take n then 0 else 1

/-- The function `oid_NAME_from_asn1(oid)` that the macro
`FN_OID_TYPED_FROM_ASN1(TYPE_T, NAME, LIST)` generates. `descriptor` reads the
descriptor that starts a record of `TYPE_T`, `LIST` is the array, sentinel included,
from `p` on; `oid` is `none` for a null pointer and the bytes `oid->p[0 .. oid->len)`
otherwise. Returns the record `p` points to, or `none` for `NULL`. An array without
sentinel is read to its end. -/
def FN_OID_TYPED_FROM_ASN1 {T : Type} (descriptor : T → mbedtls_oid_descriptor_t) :
    List T → Option (List Nat) → Option T
  | _, none => none
  | [], some _ => none
  | p :: LIST, some oid =>
    match (descriptor p).asn1 with
    | none => none
    | some asn1 =>
      if (descriptor p).asn1_len = oid.length ∧ memcmp asn1 oid oid.length = 0 then some p
      else FN_OID_TYPED_FROM_ASN1 descriptor LIST (some oid)

/-- The function that the macro `FN_OID_GET_ATTR1(FN_NAME, TYPE_T, TYPE_NAME,
ATTR1_TYPE, ATTR1)` generates: the code returned and the value stored to `*ATTR1`,
`none` when nothing is stored. -/
def FN_OID_GET_ATTR1 {T A : Type} (descriptor : T → mbedtls_oid_descriptor_t)
    (LIST : List T) (ATTR1 : T → A) (oid : Option (List Nat)) : Int × Option A :=
  match FN_OID_TYPED_FROM_ASN1 descriptor LIST oid with
  | none => (MBEDTLS_ERR_OID_NOT_FOUND, none)
  | some data => (0, some (ATTR1 data))

/-- The function that the macro `FN_OID_GET_ATTR2` generates: the code returned and
the values stored to `*ATTR1` and `*ATTR2`. -/
def FN_OID_GET_ATTR2 {T A B : Type} (descriptor : T → mbedtls_oid_descriptor_t)
    (LIST : List T) (ATTR1 : T → A) (ATTR2 : T → B) (oid : Option (List Nat)) :
    Int × Option (A × B) :=
  match FN_OID_TYPED_FROM_ASN1 descriptor LIST oid with
  | none => (MBEDTLS_ERR_OID_NOT_FOUND, none)
  | some data => (0, some (ATTR1 data, ATTR2 data))

/-- The function that the macro `FN_OID_GET_OID_BY_ATTR1(FN_NAME, TYPE_T, LIST,
ATTR1_TYPE, ATTR1)` generates; the first list argument is the array from `cur` on.
Returns the code and the values stored to `*oid` (the bytes it points to) and
`*olen`, `none` when nothing is stored. -/
def FN_OID_GET_OID_BY_ATTR1 {T A : Type} [DecidableEq A]
    (descriptor : T → mbedtls_oid_descriptor_t) (ATTR1 : T → A) :
    List T → A → Int × Option (List Nat × Nat)
  | [], _ => (MBEDTLS_ERR_OID_NOT_FOUND, none)
  | cur :: LIST, attr1 =>
    match (descriptor cur).asn1 with
    | none => (MBEDTLS_ERR_OID_NOT_FOUND, none)
    | some asn1 =>
      if ATTR1 cur = attr1 then (0, some (asn1, (descriptor cur).asn1_len))
      else FN_OID_GET_OID_BY_ATTR1 descriptor ATTR1 LIST attr1

/-- The function that the macro `FN_OID_GET_OID_BY_ATTR2` generates. -/
def FN_OID_GET_OID_BY_ATTR2 {T A B : Type} [DecidableEq A] [DecidableEq B]
    (descriptor : T → mbedtls_oid_descriptor_t) (ATTR1 : T → A) (ATTR2 : T → B) :
    List T → A → B → Int × Option (List Nat × Nat)
  | [], _, _ => (MBEDTLS_ERR_OID_NOT_FOUND, none)
  | cur :: LIST, attr1, attr2 =>
    match (descriptor cur).asn1 with
    | none => (MBEDTLS_ERR_OID_NOT_FOUND, none)
    | some asn1 =>
      if ATTR1 cur = attr1 ∧ ATTR2 cur = attr2 then
        (0, some (asn1, (descriptor cur).asn1_len))
      else FN_OID_GET_OID_BY_ATTR2 descriptor ATTR1 ATTR2 LIST attr1 attr2

/-- Modelled from the spec: the enumeration `mbedtls_md_type_t` of digest kinds,
declared in `mbedtls/md.h`, which is not part of the sources. -/
inductive mbedtls_md_type_t where
  | MBEDTLS_MD_NONE
  | MBEDTLS_MD_MD5
  | MBEDTLS_MD_SHA1
  | MBEDTLS_MD_SHA224
  | MBEDTLS_MD_SHA256
  | MBEDTLS_MD_SHA384
  | MBEDTLS_MD_SHA512
  | MBEDTLS_MD_RIPEMD160
deriving DecidableEq, Repr

/-- Modelled from the spec: the enumeration `mbedtls_pk_type_t` of public-key kinds,
declared in `mbedtls/pk.h`, which is not part of the sources. -/
inductive mbedtls_pk_type_t where
  | MBEDTLS_PK_NONE
  | MBEDTLS_PK_RSA
  | MBEDTLS_PK_ECKEY
  | MBEDTLS_PK_ECKEY_DH
  | MBEDTLS_PK_ECDSA
  | MBEDTLS_PK_RSA_ALT
  | MBEDTLS_PK_RSASSA_PSS
  | MBEDTLS_PK_OPAQUE
deriving DecidableEq, Repr

open mbedtls_md_type_t mbedtls_pk_type_t

/-- The C structure `oid_sig_alg_t`. -/
structure oid_sig_alg_t where
  descriptor : mbedtls_oid_descriptor_t
  md_alg : mbedtls_md_type_t
  pk_alg : mbedtls_pk_type_t
deriving DecidableEq, Repr

/-- The preprocessor symbols that select the records of `oid_sig_alg`; the field
`HAS_ALG_X` stands for `MBEDTLS_HAS_ALG_X_VIA_LOWLEVEL_OR_PSA`. -/
structure sig_alg_config where
  MBEDTLS_RSA_C : Bool
  MBEDTLS_PK_CAN_ECDSA_SOME : Bool
  HAS_ALG_MD5 : Bool
  HAS_ALG_SHA_1 : Bool
  HAS_ALG_SHA_224 : Bool
  HAS_ALG_SHA_256 : Bool
  HAS_ALG_SHA_384 : Bool
  HAS_ALG_SHA_512 : Bool
deriving DecidableEq, Repr

/-- The byte strings of the OID macros used in `oid_sig_alg`; the macros are defined in
`mbedtls/oid.h`, which is not part of the sources, and are parameters here. -/
structure sig_alg_oids where
  MBEDTLS_OID_PKCS1_MD5 : List Nat
  MBEDTLS_OID_PKCS1_SHA1 : List Nat
  MBEDTLS_OID_PKCS1_SHA224 : List Nat
  MBEDTLS_OID_PKCS1_SHA256 : List Nat
  MBEDTLS_OID_PKCS1_SHA384 : List Nat
  MBEDTLS_OID_PKCS1_SHA512 : List Nat
  MBEDTLS_OID_RSA_SHA_OBS : List Nat
  MBEDTLS_OID_ECDSA_SHA1 : List Nat
  MBEDTLS_OID_ECDSA_SHA224 : List Nat
  MBEDTLS_OID_ECDSA_SHA256 : List Nat
  MBEDTLS_OID_ECDSA_SHA384 : List Nat
  MBEDTLS_OID_ECDSA_SHA512 : List Nat
  MBEDTLS_OID_RSASSA_PSS : List Nat
deriving DecidableEq, Repr

/-- The records of `oid_sig_alg` that a preprocessor condition guards. -/
def guarded (condition : Bool) (records : List oid_sig_alg_t) : List oid_sig_alg_t :=
  if condition then records else []

/-- The records of the array `oid_sig_alg` in front of its last one, for a choice of
the preprocessor symbols and of the OID macros. -/
def oid_sig_alg_records (cfg : sig_alg_config) (o : sig_alg_oids) : List oid_sig_alg_t :=
  guarded cfg.MBEDTLS_RSA_C
    (guarded cfg.HAS_ALG_MD5
        [⟨OID_DESCRIPTOR o.MBEDTLS_OID_PKCS1_MD5 "md5WithRSAEncryption" "RSA with MD5",
          MBEDTLS_MD_MD5, MBEDTLS_PK_RSA⟩]
      ++ guarded cfg.HAS_ALG_SHA_1
        [⟨OID_DESCRIPTOR o.MBEDTLS_OID_PKCS1_SHA1 "sha-1WithRSAEncryption" "RSA with SHA1",
          MBEDTLS_MD_SHA1, MBEDTLS_PK_RSA⟩]
      ++ guarded cfg.HAS_ALG_SHA_224
        [⟨OID_DESCRIPTOR o.MBEDTLS_OID_PKCS1_SHA224 "sha224WithRSAEncryption"
            "RSA with SHA-224", MBEDTLS_MD_SHA224, MBEDTLS_PK_RSA⟩]
      ++ guarded cfg.HAS_ALG_SHA_256
        [⟨OID_DESCRIPTOR o.MBEDTLS_OID_PKCS1_SHA256 "sha256WithRSAEncryption"
            "RSA with SHA-256", MBEDTLS_MD_SHA256, MBEDTLS_PK_RSA⟩]
      ++ guarded cfg.HAS_ALG_SHA_384
        [⟨OID_DESCRIPTOR o.MBEDTLS_OID_PKCS1_SHA384 "sha384WithRSAEncryption"
            "RSA with SHA-384", MBEDTLS_MD_SHA384, MBEDTLS_PK_RSA⟩]
      ++ guarded cfg.HAS_ALG_SHA_512
        [⟨OID_DESCRIPTOR o.MBEDTLS_OID_PKCS1_SHA512 "sha512WithRSAEncryption"
            "RSA with SHA-512", MBEDTLS_MD_SHA512, MBEDTLS_PK_RSA⟩]
      ++ guarded cfg.HAS_ALG_SHA_1
        [⟨OID_DESCRIPTOR o.MBEDTLS_OID_RSA_SHA_OBS "sha-1WithRSAEncryption" "RSA with SHA1",
          MBEDTLS_MD_SHA1, MBEDTLS_PK_RSA⟩])
  ++ guarded cfg.MBEDTLS_PK_CAN_ECDSA_SOME
    (guarded cfg.HAS_ALG_SHA_1
        [⟨OID_DESCRIPTOR o.MBEDTLS_OID_ECDSA_SHA1 "ecdsa-with-SHA1" "ECDSA with SHA1",
          MBEDTLS_MD_SHA1, MBEDTLS_PK_ECDSA⟩]
      ++ guarded cfg.HAS_ALG_SHA_224
        [⟨OID_DESCRIPTOR o.MBEDTLS_OID_ECDSA_SHA224 "ecdsa-with-SHA224" "ECDSA with SHA224",
          MBEDTLS_MD_SHA224, MBEDTLS_PK_ECDSA⟩]
      ++ guarded cfg.HAS_ALG_SHA_256
        [⟨OID_DESCRIPTOR o.MBEDTLS_OID_ECDSA_SHA256 "ecdsa-with-SHA256" "ECDSA with SHA256",
          MBEDTLS_MD_SHA256, MBEDTLS_PK_ECDSA⟩]
      ++ guarded cfg.HAS_ALG_SHA_384
        [⟨OID_DESCRIPTOR o.MBEDTLS_OID_ECDSA_SHA384 "ecdsa-with-SHA384" "ECDSA with SHA384",
          MBEDTLS_MD_SHA384, MBEDTLS_PK_ECDSA⟩]
      ++ guarded cfg.HAS_ALG_SHA_512
        [⟨OID_DESCRIPTOR o.MBEDTLS_OID_ECDSA_SHA512 "ecdsa-with-SHA512" "ECDSA with SHA512",
          MBEDTLS_MD_SHA512, MBEDTLS_PK_ECDSA⟩])
  ++ guarded cfg.MBEDTLS_RSA_C
    [⟨OID_DESCRIPTOR o.MBEDTLS_OID_RSASSA_PSS "RSASSA-PSS" "RSASSA-PSS",
      MBEDTLS_MD_NONE, MBEDTLS_PK_RSASSA_PSS⟩]

/-- The array `oid_sig_alg`: the records the preprocessor keeps, and the sentinel. -/
def oid_sig_alg (cfg : sig_alg_config) (o : sig_alg_oids) : List oid_sig_alg_t :=
  oid_sig_alg_records cfg o ++ [⟨NULL_OID_DESCRIPTOR, MBEDTLS_MD_NONE, MBEDTLS_PK_NONE⟩]

/-- The function `oid_sig_alg_from_asn1`, generated by
`FN_OID_TYPED_FROM_ASN1(oid_sig_alg_t, sig_alg, oid_sig_alg)`. -/
def oid_sig_alg_from_asn1 (cfg : sig_alg_config) (o : sig_alg_oids)
    (oid : Option (List Nat)) : Option oid_sig_alg_t :=
  FN_OID_TYPED_FROM_ASN1 oid_sig_alg_t.descriptor (oid_sig_alg cfg o) oid

/-- The function `mbedtls_oid_get_sig_alg`, generated by `FN_OID_GET_ATTR2`. -/
def mbedtls_oid_get_sig_alg (cfg : sig_alg_config) (o : sig_alg_oids)
    (oid : Option (List Nat)) : Int × Option (mbedtls_md_type_t × mbedtls_pk_type_t) :=
  FN_OID_GET_ATTR2 oid_sig_alg_t.descriptor (oid_sig_alg cfg o) oid_sig_alg_t.md_alg
    oid_sig_alg_t.pk_alg oid

/-- The function `mbedtls_oid_get_oid_by_sig_alg`, generated by
`FN_OID_GET_OID_BY_ATTR2`. -/
def mbedtls_oid_get_oid_by_sig_alg (cfg : sig_alg_config) (o : sig_alg_oids)
    (pk_alg : mbedtls_pk_type_t) (md_alg : mbedtls_md_type_t) :
    Int × Option (List Nat × Nat) :=
  FN_OID_GET_OID_BY_ATTR2 oid_sig_alg_t.descriptor oid_sig_alg_t.pk_alg
    oid_sig_alg_t.md_alg (oid_sig_alg cfg o) pk_alg md_alg

/-- The records of an array in front of its sentinel. -/
def before_sentinel {T : Type} (descriptor : T → mbedtls_oid_descriptor_t)
    (LIST : List T) : List T :=
  LIST.takeWhile (fun r => (descriptor r).asn1.isSome)

/-- Every preprocessor symbol of `oid_sig_alg` defined. -/
def all_enabled : sig_alg_config :=
  { MBEDTLS_RSA_C := true, MBEDTLS_PK_CAN_ECDSA_SOME := true, HAS_ALG_MD5 := true,
    HAS_ALG_SHA_1 := true, HAS_ALG_SHA_224 := true, HAS_ALG_SHA_256 := true,
    HAS_ALG_SHA_384 := true, HAS_ALG_SHA_512 := true }

/-- Modelled from the spec: the byte strings that `mbedtls/oid.h` (not part of the
sources) gives to the OID macros of `oid_sig_alg`. -/
def header_oids : sig_alg_oids :=
  { MBEDTLS_OID_PKCS1_MD5 := [0x2A, 0x86, 0x48, 0x86, 0xF7, 0x0D, 0x01, 0x01, 0x04],
    MBEDTLS_OID_PKCS1_SHA1 := [0x2A, 0x86, 0x48, 0x86, 0xF7, 0x0D, 0x01, 0x01, 0x05],
    MBEDTLS_OID_PKCS1_SHA224 := [0x2A, 0x86, 0x48, 0x86, 0xF7, 0x0D, 0x01, 0x01, 0x0E],
    MBEDTLS_OID_PKCS1_SHA256 := [0x2A, 0x86, 0x48, 0x86, 0xF7, 0x0D, 0x01, 0x01, 0x0B],
    MBEDTLS_OID_PKCS1_SHA384 := [0x2A, 0x86, 0x48, 0x86, 0xF7, 0x0D, 0x01, 0x01, 0x0C],
    MBEDTLS_OID_PKCS1_SHA512 := [0x2A, 0x86, 0x48, 0x86, 0xF7, 0x0D, 0x01, 0x01, 0x0D],
    MBEDTLS_OID_RSA_SHA_OBS := [0x2B, 0x0E, 0x03, 0x02, 0x1D],
    MBEDTLS_OID_ECDSA_SHA1 := [0x2A, 0x86, 0x48, 0xCE, 0x3D, 0x04, 0x01],
    MBEDTLS_OID_ECDSA_SHA224 := [0x2A, 0x86, 0x48, 0xCE, 0x3D, 0x04, 0x03, 0x01],
    MBEDTLS_OID_ECDSA_SHA256 := [0x2A, 0x86, 0x48, 0xCE, 0x3D, 0x04, 0x03, 0x02],
    MBEDTLS_OID_ECDSA_SHA384 := [0x2A, 0x86, 0x48, 0xCE, 0x3D, 0x04, 0x03, 0x03],
    MBEDTLS_OID_ECDSA_SHA512 := [0x2A, 0x86, 0x48, 0xCE, 0x3D, 0x04, 0x03, 0x04],
    MBEDTLS_OID_RSASSA_PSS := [0x2A, 0x86, 0x48, 0x86, 0xF7, 0x0D, 0x01, 0x01, 0x0A] }

/-! ## Texts with leading zeros -/

/-- The decimal text of `v` with `zeros` characters `0` written in front of it. -/
def zero_padded (zeros v : Nat) : List Char :=
  List.replicate zeros '0' ++ fmt_u v

/-- The text `.v` for each component of a list, in order, each component given with
the number of zeros written in front of it. -/
def padded_tail : List (Nat × Nat) → List Char
  | [] => []
  | (zeros, v) :: vs => '.' :: zero_padded zeros v ++ padded_tail vs

/-- The dotted-decimal text of the components `c1`, `c2` and `rest`, each written with
the given number of leading zeros. -/
def padded (z1 c1 z2 c2 : Nat) (rest : List (Nat × Nat)) : List Char :=
  zero_padded z1 c1 ++ '.' :: zero_padded z2 c2 ++ padded_tail rest

/-! ## Subidentifiers given by their bytes -/

/-- The bytes of a subidentifier with the base-128 digits `digits` and then `last`,
most significant first: every byte but the last has the continuation bit set. -/
def subidentifier_bytes (digits : List Nat) (last : Nat) : List Nat :=
  digits.map (· + 128) ++ [last]

/-- The value that the bytes `subidentifier_bytes digits last` stand for. -/
def subidentifier_value (digits : List Nat) (last : Nat) : Nat :=
  digits.foldl (fun a d => a * 128 + d) 0 * 128 + last

/-! ## Notions used to state the properties of `oid_parse_number` -/

/-- The loop of `oid_parse_number` computed over the unbounded naturals: the same
steps as `oid_parse_number_loop`, with `*num * 10 + digit` not reduced to 32 bits. It
is what the loop of the code computes if its accumulator never wraps. -/
def oid_parse_number_unbounded_loop : Int → Nat → List Char → Int × Nat × List Char
  | ret, num, [] => (ret, num, [])
  | ret, num, c :: cs =>
    if '0' ≤ c ∧ c ≤ '9' then
      if num > INT_MAX / 10 then (MBEDTLS_ERR_ASN1_INVALID_DATA, num, c :: cs)
      else oid_parse_number_unbounded_loop 0 (num * 10 + (c.toNat - '0'.toNat)) cs
    else (ret, num, c :: cs)

/-- The function `oid_parse_number` computed over the unbounded naturals. -/
def oid_parse_number_unbounded (p : List Char) : Int × Nat × List Char :=
  oid_parse_number_unbounded_loop MBEDTLS_ERR_ASN1_INVALID_DATA 0 p

/-- The maximal run of decimal digits at the start of a text. -/
def leading_digits (str : List Char) : List Char :=
  str.takeWhile (fun c => decide (is_digit c))

/-- The text after its maximal run of leading decimal digits. -/
def after_leading_digits (str : List Char) : List Char :=
  str.dropWhile (fun c => decide (is_digit c))

end Oid

open Oid

/-! ## Bit operations on bytes -/

theorem and_7f_eq_mod (x : Nat) : x &&& 0x7F = x % 128 :=
  Nat.and_pow_two_sub_one_eq_mod x 7

theorem and_80_of_lt {x : Nat} (h : x < 128) : x &&& 0x80 = 0 := by
  have h1 := Nat.and_two_pow x 7
  have h2 : x.testBit 7 = false := Nat.testBit_lt_two_pow (by simpa using h)
  rw [h2] at h1
  simpa using h1

theorem and_80_of_add {x : Nat} (h : x < 128) : (x + 128) &&& 0x80 = 128 := by
  have h1 := Nat.and_two_pow (x + 128) 7
  have h2 : (x + 128).testBit 7 = true := by
    have h3 := Nat.testBit_two_pow_add_eq x 7
    have h4 : x.testBit 7 = false := Nat.testBit_lt_two_pow (by simpa using h)
    rw [h4] at h3
    have h5 : 2 ^ 7 + x = x + 128 := by norm_num; omega
    rw [h5] at h3
    simpa using h3
  rw [h2] at h1
  simpa using h1

theorem shl7_or {a b : Nat} (h : b < 128) : (a <<< 7) ||| b = a * 128 + b := by
  have h1 := Nat.mul_add_lt_is_or (i := 7) (b := b) (by simpa using h) a
  rw [Nat.shiftLeft_eq, Nat.mul_comm a (2 ^ 7), ← h1, Nat.mul_comm]

theorem mul128_or {a b : Nat} (h : b < 128) : (a * 128) ||| b = a * 128 + b := by
  have h1 := Nat.mul_add_lt_is_or (i := 7) (b := b) (by simpa using h) a
  rw [Nat.mul_comm a 128]
  norm_num at h1
  omega

theorem or_80_low (x : Nat) : 0x80 ||| (x &&& 0x7f) = 128 + x % 128 := by
  have h := mul128_or (a := 1) (b := x % 128) (Nat.mod_lt _ (by norm_num))
  rw [and_7f_eq_mod]
  simpa using h

/-! ## Base-128 digits -/

/-- Reading base-128 digits, most significant first, into an accumulator. -/
theorem horner_ge (ds : List Nat) (acc : Nat) :
    acc ≤ ds.foldl (fun a d => a * 128 + d) acc := by
  induction ds generalizing acc with
  | nil => simp
  | cons d ds ih =>
    simp only [List.foldl_cons]
    exact le_trans (by omega) (ih (acc * 128 + d))

theorem horner_digits (w : Nat) :
    (Nat.digits 128 w).reverse.foldl (fun a d => a * 128 + d) 0 = w := by
  rw [List.foldl_reverse]
  have h : ∀ L : List Nat, L.foldr (fun d a => a * 128 + d) 0 = Nat.ofDigits 128 L := by
    intro L
    induction L with
    | nil => simp
    | cons d L ih => simp only [List.foldr_cons, ih, Nat.ofDigits_cons]; omega
  rw [h, Nat.ofDigits_digits]

theorem digits_reverse_lt (w : Nat) : ∀ d ∈ (Nat.digits 128 w).reverse, d < 128 := by
  intro d hd
  exact Nat.digits_lt_base (by norm_num) (List.mem_reverse.mp hd)

theorem digits_reverse_head (w : Nat) : (Nat.digits 128 w).reverse.head? ≠ some 0 := by
  by_cases hw : w = 0
  · subst hw; simp
  · have h := Nat.getLast_digit_ne_zero 128 hw
    rw [List.head?_reverse]
    intro h0
    rw [List.getLast?_eq_getLast _ (Nat.digits_ne_nil_iff_ne_zero.mpr hw)] at h0
    exact h (Option.some.inj h0)

/-! ## Decoding a minimal encoding -/

theorem first_subidentifier_digits (lo : Nat) (rest : List Nat) (hlo : lo < 128) :
    ∀ (ds : List Nat) (acc : Nat), (∀ d ∈ ds, d < 128) →
      ds.foldl (fun a d => a * 128 + d) acc * 128 + lo < 2 ^ 32 →
      first_subidentifier (acc * 128) (ds.map (· + 128) ++ lo :: rest)
        = .ok (ds.foldl (fun a d => a * 128 + d) acc * 128 + lo, rest) := by
  intro ds
  induction ds with
  | nil =>
    intro acc _ _
    simp only [List.map_nil, List.nil_append, first_subidentifier, List.foldl_nil]
    rw [and_80_of_lt hlo, and_7f_eq_mod, Nat.mod_eq_of_lt hlo, mul128_or hlo]
    simp
  | cons d ds ih =>
    intro acc hds hbound
    have hd : d < 128 := hds d (List.mem_cons_self _ _)
    have hge := horner_ge ds (acc * 128 + d)
    simp only [List.foldl_cons] at hbound ⊢
    simp only [List.map_cons, List.cons_append, first_subidentifier]
    rw [and_80_of_add hd, and_7f_eq_mod]
    have h1 : (d + 128) % 128 = d := by omega
    have h2 : ¬ acc * 128 > UINT_MAX >>> 7 := by
      have : UINT_MAX >>> 7 = 33554431 := by decide
      rw [this]; omega
    have h3 : ((acc * 128 ||| d) <<< 7) % 2 ^ 32 = (acc * 128 + d) * 128 := by
      rw [mul128_or hd, Nat.shiftLeft_eq]
      exact Nat.mod_eq_of_lt (by omega)
    rw [h1, h3]
    simp only [h2, if_false]
    simpa using ih (acc * 128 + d) (fun x hx => hds x (List.mem_cons_of_mem _ hx)) hbound

theorem first_subidentifier_base128 (v : Nat) (rest : List Nat) (hv : v < 2 ^ 32) :
    first_subidentifier 0 (base128 v ++ rest) = .ok (v, rest) := by
  have h := first_subidentifier_digits (v % 128) rest (Nat.mod_lt _ (by norm_num))
    (Nat.digits 128 (v / 128)).reverse 0 (digits_reverse_lt _)
  rw [horner_digits] at h
  have hv2 : v / 128 * 128 + v % 128 = v := by omega
  rw [hv2] at h
  simpa [base128] using h hv

theorem base128_head (v : Nat) (rest : List Nat) :
    (base128 v ++ rest).head? ≠ some 0x80 := by
  unfold base128
  have h0 := digits_reverse_head (v / 128)
  have h1 := digits_reverse_lt (v / 128)
  cases hds : (Nat.digits 128 (v / 128)).reverse with
  | nil =>
    simp only [List.map_nil, List.nil_append, List.cons_append, List.head?_cons]
    intro h
    have := Option.some.inj h
    omega
  | cons d ds =>
    rw [hds] at h0
    simp only [List.map_cons, List.cons_append, List.head?_cons]
    intro h
    have := Option.some.inj h
    apply h0
    simp only [List.head?_cons]
    congr 1
    omega

theorem later_subidentifiers_digits (size lo : Nat) (rest : List Nat) (out : List Char)
    (n : Nat) (hlo : lo < 128) :
    ∀ (ds : List Nat) (acc : Nat), (∀ d ∈ ds, d < 128) →
      (acc ≠ 0 ∨ ds.head? ≠ some 0) →
      ds.foldl (fun a d => a * 128 + d) acc * 128 + lo < 2 ^ 32 →
      ('.' :: fmt_u (ds.foldl (fun a d => a * 128 + d) acc * 128 + lo)).length < n →
      later_subidentifiers size acc out n (ds.map (· + 128) ++ lo :: rest)
        = later_subidentifiers size 0
            (out ++ '.' :: fmt_u (ds.foldl (fun a d => a * 128 + d) acc * 128 + lo))
            (n - ('.' :: fmt_u (ds.foldl (fun a d => a * 128 + d) acc * 128 + lo)).length)
            rest := by
  have hmax : UINT_MAX >>> 7 = 33554431 := by decide
  intro ds
  induction ds with
  | nil =>
    intro acc _ _ hbound hn
    simp only [List.foldl_nil] at hbound hn ⊢
    simp only [List.map_nil, List.nil_append, later_subidentifiers]
    have h1 : ¬ acc > UINT_MAX >>> 7 := by rw [hmax]; omega
    have h2 : ¬ (acc = 0 ∧ lo = 0x80) := by omega
    have h3 : ((acc <<< 7) % 2 ^ 32) ||| (lo &&& 0x7F) = acc * 128 + lo := by
      rw [and_7f_eq_mod, Nat.mod_eq_of_lt hlo, Nat.shiftLeft_eq,
        Nat.mod_eq_of_lt (by omega)]
      exact mul128_or hlo
    rw [h3, and_80_of_lt hlo]
    simp only [h1, h2, if_false, if_true]
    have h4 : ¬ ('.' :: fmt_u (acc * 128 + lo)).length ≥ n := by omega
    simp only [h4, if_false]
  | cons d ds ih =>
    intro acc hds hnz hbound hn
    have hd : d < 128 := hds d (List.mem_cons_self _ _)
    have hge := horner_ge ds (acc * 128 + d)
    simp only [List.foldl_cons] at hbound hn ⊢
    simp only [List.map_cons, List.cons_append, later_subidentifiers]
    have h1 : ¬ acc > UINT_MAX >>> 7 := by rw [hmax]; omega
    have h2 : ¬ (acc = 0 ∧ d + 128 = 0x80) := by
      rintro ⟨ha, hd0⟩
      rcases hnz with h | h
      · exact h ha
      · apply h
        have : d = 0 := by omega
        simp [this]
    have h3 : ((acc <<< 7) % 2 ^ 32) ||| ((d + 128) &&& 0x7F) = acc * 128 + d := by
      rw [and_7f_eq_mod, Nat.shiftLeft_eq, Nat.mod_eq_of_lt (by omega)]
      have : (d + 128) % 128 = d := by omega
      rw [this]
      exact mul128_or hd
    rw [h3, and_80_of_add hd]
    simp only [h1, h2, if_false]
    have h5 : acc * 128 + d ≠ 0 := by
      rcases hnz with h | h
      · omega
      · have : d ≠ 0 := by
          intro h0; apply h; simp [h0]
        omega
    simpa using ih (acc * 128 + d) (fun x hx => hds x (List.mem_cons_of_mem _ hx))
      (Or.inl h5) hbound hn

theorem later_subidentifiers_base128 (size v : Nat) (rest : List Nat) (out : List Char)
    (n : Nat) (hv : v < 2 ^ 32) (hn : ('.' :: fmt_u v).length < n) :
    later_subidentifiers size 0 out n (base128 v ++ rest)
      = later_subidentifiers size 0 (out ++ '.' :: fmt_u v)
          (n - ('.' :: fmt_u v).length) rest := by
  have h := later_subidentifiers_digits size (v % 128) rest out n (Nat.mod_lt _ (by norm_num))
    (Nat.digits 128 (v / 128)).reverse 0 (digits_reverse_lt _)
    (Or.inr (digits_reverse_head _))
  rw [horner_digits] at h
  have hv2 : v / 128 * 128 + v % 128 = v := by omega
  rw [hv2] at h
  simpa [base128] using h hv hn

theorem later_subidentifiers_encoding (size : Nat) :
    ∀ (vs : List Nat) (out : List Char) (n : Nat), (∀ v ∈ vs, v < 2 ^ 32) →
      (dotted_tail vs).length < n →
      later_subidentifiers size 0 out n (encoding vs)
        = ⟨int_of_size_t (size - (n - (dotted_tail vs).length)),
            some (out ++ dotted_tail vs)⟩ := by
  intro vs
  induction vs with
  | nil =>
    intro out n _ _
    simp [encoding, dotted_tail, later_subidentifiers]
  | cons v vs ih =>
    intro out n hvs hn
    have hv : v < 2 ^ 32 := hvs v (List.mem_cons_self _ _)
    simp only [dotted_tail, List.length_cons, List.length_append] at hn
    rw [encoding, later_subidentifiers_base128 size v (encoding vs) out n hv
      (by simp only [List.length_cons]; omega)]
    rw [ih _ _ (fun x hx => hvs x (List.mem_cons_of_mem _ hx))
      (by simp only [List.length_cons]; omega)]
    simp only [dotted_tail, List.length_cons, List.length_append, List.append_assoc,
      List.cons_append]
    congr 2
    omega

/-! ## Decoding: the whole function on a minimal encoding -/

theorem first_component_mul_le (v : Nat) : 40 * first_component v ≤ v := by
  unfold first_component; omega

theorem components_add (v : Nat) : 40 * first_component v + second_component v = v := by
  unfold second_component; unfold first_component; omega

theorem get_numeric_string_encoding (size v : Nat) (rest : List Nat) (hv : v < 2 ^ 32)
    (hrest : ∀ x ∈ rest, x < 2 ^ 32)
    (hsize : (dotted (first_component v) (second_component v) rest).length < size) :
    mbedtls_oid_get_numeric_string size (encoding (v :: rest))
      = ⟨int_of_size_t (dotted (first_component v) (second_component v) rest).length,
          some (dotted (first_component v) (second_component v) rest)⟩ := by
  have hc1 : (if v / 40 > 2 then 2 else v / 40) = first_component v := by
    unfold first_component; split <;> omega
  have hc2 : (v + 2 ^ 32 - 40 * first_component v) % 2 ^ 32 = second_component v := by
    have := first_component_mul_le v
    unfold second_component
    omega
  simp only [dotted, List.length_append, List.length_cons] at hsize
  have hlen : ¬ (fmt_u (first_component v) ++ '.' :: fmt_u (second_component v)).length
      ≥ size := by
    simp only [List.length_append, List.length_cons]; omega
  unfold mbedtls_oid_get_numeric_string
  rw [encoding]
  simp only [base128_head, if_false, first_subidentifier_base128 v _ hv, hc1, hc2, hlen]
  rw [later_subidentifiers_encoding size rest _ _ hrest
    (by simp only [List.length_append, List.length_cons]; omega)]
  simp only [dotted, List.length_append, List.length_cons, List.append_assoc,
    List.cons_append]
  congr 2
  omega

/-! ## Decimal digits -/

theorem toDigitsCore_append (fuel : Nat) :
    ∀ (n : Nat) (acc : List Char),
      Nat.toDigitsCore 10 fuel n acc = Nat.toDigitsCore 10 fuel n [] ++ acc := by
  induction fuel with
  | zero => intro n acc; simp [Nat.toDigitsCore]
  | succ fuel ih =>
    intro n acc
    simp only [Nat.toDigitsCore]
    by_cases h : n / 10 = 0
    · simp [h]
    · simp only [h, if_false]
      rw [ih (n / 10) (Nat.digitChar (n % 10) :: acc), ih (n / 10) [Nat.digitChar (n % 10)]]
      simp

theorem toDigitsCore_fuel (fuel : Nat) :
    ∀ (gas n : Nat) (acc : List Char), n < fuel → n < gas →
      Nat.toDigitsCore 10 fuel n acc = Nat.toDigitsCore 10 gas n acc := by
  induction fuel with
  | zero => intro gas n acc h; omega
  | succ fuel ih =>
    intro gas n acc hf hg
    cases gas with
    | zero => omega
    | succ gas =>
      simp only [Nat.toDigitsCore]
      by_cases h : n / 10 = 0
      · simp [h]
      · simp only [h, if_false]
        exact ih gas (n / 10) _ (by omega) (by omega)

theorem fmt_u_lt {v : Nat} (h : v < 10) : fmt_u v = [Nat.digitChar v] := by
  have h1 : v / 10 = 0 := by omega
  have h2 : v % 10 = v := by omega
  simp [fmt_u, Nat.toDigits, Nat.toDigitsCore, h1, h2]

theorem fmt_u_ge {v : Nat} (h : 10 ≤ v) :
    fmt_u v = fmt_u (v / 10) ++ [Nat.digitChar (v % 10)] := by
  have h1 : v / 10 ≠ 0 := by omega
  unfold fmt_u Nat.toDigits
  rw [Nat.toDigitsCore]
  simp only [h1, if_false]
  rw [toDigitsCore_append, toDigitsCore_fuel v (v / 10 + 1) (v / 10) [] (by omega) (by omega)]

theorem digitChar_digit {d : Nat} (h : d < 10) :
    '0' ≤ Nat.digitChar d ∧ Nat.digitChar d ≤ '9' ∧
      (Nat.digitChar d).toNat - '0'.toNat = d := by
  have hd : d = 0 ∨ d = 1 ∨ d = 2 ∨ d = 3 ∨ d = 4 ∨ d = 5 ∨ d = 6 ∨ d = 7 ∨ d = 8 ∨ d = 9 := by
    omega
  rcases hd with h | h | h | h | h | h | h | h | h | h <;> subst h <;> decide

theorem fmt_u_ne_nil (v : Nat) : fmt_u v ≠ [] := by
  by_cases h : v < 10
  · rw [fmt_u_lt h]; simp
  · rw [fmt_u_ge (by omega)]; simp

theorem fmt_u_length_pos (v : Nat) : 0 < (fmt_u v).length :=
  List.length_pos.mpr (fmt_u_ne_nil v)

theorem fmt_u_lt_pow (v : Nat) : v < 10 ^ (fmt_u v).length := by
  induction v using Nat.strongRecOn with
  | _ v ih =>
    by_cases h : v < 10
    · rw [fmt_u_lt h]; simpa using h
    · rw [fmt_u_ge (by omega)]
      have := ih (v / 10) (by omega)
      simp only [List.length_append, List.length_singleton]
      rw [pow_succ]
      omega

/-! ## The helpers of the encoder -/

theorem num_bytes_loop_digits (fuel : Nat) :
    ∀ (w num_bytes : Nat), w ≤ fuel →
      num_bytes_loop fuel w num_bytes = num_bytes + (Nat.digits 128 w).length := by
  induction fuel with
  | zero =>
    intro w num_bytes hw
    have : w = 0 := by omega
    subst this
    simp [num_bytes_loop]
  | succ fuel ih =>
    intro w num_bytes hw
    by_cases h0 : w = 0
    · subst h0; simp [num_bytes_loop]
    · simp only [num_bytes_loop, h0, ne_eq, not_false_eq_true, if_true]
      rw [Nat.shiftRight_eq_div_pow, ih _ _ (by norm_num; omega),
        Nat.digits_def' (by norm_num) (Nat.pos_of_ne_zero h0)]
      simp only [List.length_cons]
      norm_num
      omega

theorem num_bytes_eq (v : Nat) :
    oid_subidentifier_num_bytes v = (Nat.digits 128 (v / 128)).length + 1 := by
  unfold oid_subidentifier_num_bytes
  rw [Nat.shiftRight_eq_div_pow, num_bytes_loop_digits _ _ _ (by norm_num; omega)]
  norm_num
  omega

theorem num_bytes_eq_length (v : Nat) :
    oid_subidentifier_num_bytes v = (base128 v).length := by
  rw [num_bytes_eq]; simp [base128]

theorem num_bytes_pos (v : Nat) : 0 < oid_subidentifier_num_bytes v := by
  rw [num_bytes_eq]; omega

theorem encode_into_loop_digits (count : Nat) :
    ∀ (w : Nat) (stored : List Nat), count = (Nat.digits 128 w).length →
      encode_into_loop count w stored
        = (Nat.digits 128 w).reverse.map (· + 128) ++ stored := by
  induction count with
  | zero =>
    intro w stored h
    have : Nat.digits 128 w = [] := List.length_eq_zero.mp h.symm
    simp [encode_into_loop, this]
  | succ count ih =>
    intro w stored h
    have hw : w ≠ 0 := by
      intro h0; subst h0; simp at h
    have hd := Nat.digits_def' (b := 128) (by norm_num) (Nat.pos_of_ne_zero hw)
    rw [hd] at h ⊢
    simp only [List.length_cons, Nat.add_right_cancel_iff] at h
    simp only [encode_into_loop]
    rw [Nat.shiftRight_eq_div_pow, or_80_low]
    have h7 : w / 2 ^ 7 = w / 128 := by norm_num
    rw [h7, ih _ _ h]
    simp only [List.reverse_cons, List.map_append, List.map_cons, List.map_nil,
      List.append_assoc, List.singleton_append]
    congr 2
    omega

theorem encode_into_ok (written : List Nat) (room v : Nat)
    (h : oid_subidentifier_num_bytes v ≤ room) :
    oid_subidentifier_encode_into written room v
      = (0, written ++ base128 v, room - oid_subidentifier_num_bytes v) := by
  unfold oid_subidentifier_encode_into
  have h1 : ¬ room < oid_subidentifier_num_bytes v := by omega
  simp only [h1, if_false]
  have h2 : oid_subidentifier_num_bytes v - 1 = (Nat.digits 128 (v / 128)).length := by
    rw [num_bytes_eq]; omega
  have h7 : v >>> 7 = v / 128 := by rw [Nat.shiftRight_eq_div_pow]
  rw [h7, encode_into_loop_digits _ _ _ h2, and_7f_eq_mod]
  simp [base128]

theorem encode_into_full (written : List Nat) (v : Nat) :
    oid_subidentifier_encode_into written 0 v = (MBEDTLS_ERR_OID_BUF_TOO_SMALL, written, 0) := by
  unfold oid_subidentifier_encode_into
  have := num_bytes_pos v
  simp [this]

/-! ## The number parser -/

theorem int_max_div : INT_MAX / 10 = 214748364 := by decide

theorem parse_loop_stop (ret : Int) (num : Nat) (str : List Char)
    (h : no_leading_digit str) :
    oid_parse_number_loop ret num str = (ret, num, str) := by
  cases str with
  | nil => simp [oid_parse_number_loop]
  | cons c cs =>
    have hc : ¬ ('0' ≤ c ∧ c ≤ '9') := h c (by simp)
    simp [oid_parse_number_loop, hc]

theorem parse_loop_digit (ret : Int) (num d : Nat) (str : List Char) (hd : d < 10)
    (hnum : num ≤ 214748364) :
    oid_parse_number_loop ret num (Nat.digitChar d :: str)
      = oid_parse_number_loop 0 (num * 10 + d) str := by
  obtain ⟨h1, h2, h3⟩ := digitChar_digit hd
  have h4 : ¬ num > INT_MAX / 10 := by rw [int_max_div]; omega
  simp only [oid_parse_number_loop, h1, h2, and_self, if_true, h4, if_false, h3]
  congr 1
  omega

theorem parse_loop_fmt_u (v : Nat) :
    ∀ (ret : Int) (str : List Char), v / 10 ≤ 214748364 →
      oid_parse_number_loop ret 0 (fmt_u v ++ str) = oid_parse_number_loop 0 v str := by
  induction v using Nat.strongRecOn with
  | _ v ih =>
    intro ret str hv
    by_cases h : v < 10
    · rw [fmt_u_lt h, List.singleton_append, parse_loop_digit ret 0 v str h (by omega)]
      simp
    · rw [fmt_u_ge (by omega), List.append_assoc, List.singleton_append,
        ih (v / 10) (by omega) ret _ (by omega),
        parse_loop_digit 0 (v / 10) (v % 10) str (Nat.mod_lt _ (by norm_num)) hv]
      congr 1
      omega

theorem parse_number_fmt_u (v : Nat) (str : List Char) (hv : v ≤ 2147483649)
    (hstr : no_leading_digit str) :
    oid_parse_number (fmt_u v ++ str) = (0, v, str) := by
  unfold oid_parse_number
  rw [parse_loop_fmt_u v _ _ (by omega), parse_loop_stop _ _ _ hstr]

/-! ## The two passes of the encoder read the same text -/

theorem parse_loop_length :
    ∀ (str : List Char) (ret : Int) (num : Nat),
      (oid_parse_number_loop ret num str).2.2 = str ∨
        (oid_parse_number_loop ret num str).2.2.length < str.length := by
  intro str
  induction str with
  | nil => intro ret num; simp [oid_parse_number_loop]
  | cons c cs ih =>
    intro ret num
    simp only [oid_parse_number_loop]
    split
    · split
      · exact Or.inl rfl
      · right
        rcases ih 0 ((num * 10 % 2 ^ 32 + (c.toNat - '0'.toNat)) % 2 ^ 32) with h | h
        · rw [h]; simp
        · simp only [List.length_cons]; omega
    · exact Or.inl rfl

theorem nul_ne_dot : NUL ≠ '.' := by decide

theorem skip_separator_length {s t : List Char} (h : skip_separator s = some t) :
    t.length ≤ s.length := by
  cases s with
  | nil => simp [skip_separator] at h; subst h; simp
  | cons c cs =>
    simp only [skip_separator] at h
    split at h
    · split at h
      · simp at h; subst h; simp
      · simp at h
    · simp at h; subst h; simp

theorem skip_separator_eq {s t : List Char} (h : skip_separator s = some t) :
    skip_dot s = t := by
  cases s with
  | nil => simp [skip_separator] at h; subst h; rfl
  | cons c cs =>
    simp only [skip_separator] at h
    split at h
    · split at h
      · rename_i hc; simp at h; subst h; simp [skip_dot, hc]
      · simp at h
    · rename_i hc
      simp at hc h
      subst h
      subst hc
      simp [skip_dot, nul_ne_dot]

theorem iteration_consumes {c : Char} {cs s1 s2 : List Char} {ret : Int} {val : Nat}
    (hc : c ≠ NUL) (hp : oid_parse_number (c :: cs) = (ret, val, s1))
    (hs : skip_separator s1 = some s2) : s2.length < (c :: cs).length := by
  have h1 := parse_loop_length (c :: cs) MBEDTLS_ERR_ASN1_INVALID_DATA 0
  unfold oid_parse_number at hp
  rw [hp] at h1
  simp only at h1
  rcases h1 with h | h
  · subst h
    simp only [skip_separator, hc, ne_eq, not_false_eq_true, if_true] at hs
    split at hs
    · simp at hs; subst hs; simp
    · simp at hs
  · have := skip_separator_length hs
    omega

theorem sizing_loop_encoding (fuel : Nat) :
    ∀ (gas : Nat) (str : List Char) (encoded_len n : Nat) (written : List Nat),
      sizing_loop fuel 0 encoded_len str = .ok n → str.length < fuel → str.length < gas →
      n = encoded_len + (encoding (later_components fuel str)).length ∧
        encoding_loop gas written (n - encoded_len) str
          = (0, written ++ encoding (later_components fuel str), 0) := by
  induction fuel with
  | zero => intro gas str el n written _ h; omega
  | succ fuel ih =>
    intro gas str el n written hs hf hg
    cases gas with
    | zero => omega
    | succ gas =>
      cases str with
      | nil =>
        simp only [sizing_loop, Except.ok.injEq] at hs
        subst hs
        simp [encoding_loop, later_components, encoding]
      | cons c cs =>
        by_cases hc : c = NUL
        · simp only [sizing_loop, hc, if_true, Except.ok.injEq] at hs
          subst hs
          simp [encoding_loop, later_components, encoding, hc]
        · rcases hp : oid_parse_number (c :: cs) with ⟨r, val, s1⟩
          simp only [sizing_loop, hc, if_false, hp, ne_eq, not_true_eq_false] at hs
          cases hk : skip_separator s1 with
          | none => simp [hk] at hs
          | some s2 =>
            simp only [hk] at hs
            split at hs
            · simp at hs
            · have hlen := iteration_consumes hc hp hk
              simp only [List.length_cons] at hlen hf hg
              obtain ⟨hle, henc⟩ := ih gas s2 (el + oid_subidentifier_num_bytes val) n
                (written ++ base128 val) hs (by omega) (by omega)
              have hnb := num_bytes_eq_length val
              refine ⟨by simp only [later_components, hc, if_false, hp, hk, encoding,
                List.length_append]; omega, ?_⟩
              simp only [encoding_loop, hc, if_false, hp, skip_separator_eq hk,
                later_components, hk, encoding]
              rw [encode_into_ok written (n - el) val (by omega)]
              simp only [ne_eq, not_true_eq_false, if_false]
              rw [Nat.sub_sub, henc, List.append_assoc]

/-! ## The iteration bounds of the two loops are never reached -/

theorem skip_dot_length (s : List Char) : (skip_dot s).length ≤ s.length := by
  cases s with
  | nil => simp [skip_dot]
  | cons d ds =>
    simp only [skip_dot]
    split <;> simp

theorem parse_number_length (str : List Char) :
    (oid_parse_number str).2.2 = str ∨ (oid_parse_number str).2.2.length < str.length :=
  parse_loop_length str _ 0

theorem sizing_loop_fuel (fuel : Nat) :
    ∀ (gas : Nat) (str : List Char) (ret : Int) (encoded_len : Nat),
      str.length < fuel → str.length < gas →
      sizing_loop fuel ret encoded_len str = sizing_loop gas ret encoded_len str := by
  induction fuel with
  | zero => intro gas str ret el h; omega
  | succ fuel ih =>
    intro gas str ret el hf hg
    cases gas with
    | zero => omega
    | succ gas =>
      cases str with
      | nil => simp [sizing_loop]
      | cons c cs =>
        by_cases hc : c = NUL
        · simp [sizing_loop, hc]
        · rcases hp : oid_parse_number (c :: cs) with ⟨r, val, s1⟩
          simp only [sizing_loop, hc, if_false, hp]
          split
          · rfl
          · cases hk : skip_separator s1 with
            | none => rfl
            | some s2 =>
              have hlen := iteration_consumes hc hp hk
              simp only [List.length_cons] at hlen hf hg
              simp only
              split
              · rfl
              · exact ih gas s2 ret _ (by omega) (by omega)

theorem encoding_loop_fuel (fuel : Nat) :
    ∀ (gas : Nat) (written : List Nat) (room : Nat) (str : List Char),
      str.length + room < fuel → str.length + room < gas →
      encoding_loop fuel written room str = encoding_loop gas written room str := by
  induction fuel with
  | zero => intro gas written room str h; omega
  | succ fuel ih =>
    intro gas written room str hf hg
    cases gas with
    | zero => omega
    | succ gas =>
      cases str with
      | nil => simp [encoding_loop]
      | cons c cs =>
        by_cases hc : c = NUL
        · simp [encoding_loop, hc]
        · rcases hp : oid_parse_number (c :: cs) with ⟨r, val, s1⟩
          have hne : MBEDTLS_ERR_OID_BUF_TOO_SMALL ≠ 0 := by decide
          have hnb := num_bytes_pos val
          simp only [encoding_loop, hc, if_false, hp]
          by_cases hroom : room < oid_subidentifier_num_bytes val
          · simp [oid_subidentifier_encode_into, hroom, hne]
          · rw [encode_into_ok written room val (by omega)]
            simp only [ne_eq, not_true_eq_false, if_false]
            have h1 := parse_number_length (c :: cs)
            rw [hp] at h1
            simp only [List.length_cons] at h1 hf hg
            have h2 := skip_dot_length s1
            have h3 : (skip_dot s1).length ≤ cs.length + 1 := by
              rcases h1 with h | h
              · rw [h] at h2 ⊢; simpa using h2
              · omega
            exact ih gas _ _ _ (by omega) (by omega)

theorem encoding_loop_full (gas : Nat) (written : List Nat) (str : List Char) :
    (encoding_loop gas written 0 str).1 = 0 →
      encoding_loop gas written 0 str = (0, written, 0) := by
  cases gas with
  | zero => intro _; simp [encoding_loop]
  | succ gas =>
    cases str with
    | nil => intro _; simp [encoding_loop]
    | cons c cs =>
      by_cases hc : c = NUL
      · intro _; simp [encoding_loop, hc]
      · rcases hp : oid_parse_number (c :: cs) with ⟨r, val, s1⟩
        have hne : MBEDTLS_ERR_OID_BUF_TOO_SMALL ≠ 0 := by decide
        simp only [encoding_loop, hc, if_false, hp, encode_into_full, hne, ne_eq,
          not_false_eq_true, if_true]
        intro h
        exact h.elim

theorem first_pass_ok {s : List Char} {el : Nat} (h : first_pass s = .ok el) :
    ∃ c1 c2 s1 s2 s3, oid_parse_number s = (0, c1, '.' :: s1) ∧ c1 ≤ 2 ∧
      oid_parse_number s1 = (0, c2, s2) ∧ (c1 < 2 → c2 ≤ 39) ∧
      skip_separator s2 = some s3 ∧ c1 * 40 + c2 < 2 ^ 32 ∧
      sizing_loop (s3.length + 1) 0 (oid_subidentifier_num_bytes (c1 * 40 + c2)) s3
        = .ok el := by
  unfold first_pass at h
  rcases hp1 : oid_parse_number s with ⟨r1, c1, t1⟩
  simp only [hp1] at h
  split at h
  · simp at h
  rename_i hr1
  split at h
  · simp at h
  rename_i hc1
  cases t1 with
  | nil => simp at h
  | cons d s1 =>
    simp only at h
    split at h
    · simp at h
    rename_i hd
    rcases hp2 : oid_parse_number s1 with ⟨r2, c2, s2⟩
    simp only [hp2] at h
    split at h
    · simp at h
    rename_i hr2
    split at h
    · simp at h
    rename_i hc2
    cases hk : skip_separator s2 with
    | none => simp [hk] at h
    | some s3 =>
      simp only [hk] at h
      split at h
      · simp at h
      rename_i hg
      simp only [ne_eq, Decidable.not_not] at hr1 hr2 hd
      subst hr1 hr2 hd
      have hw : c1 * 40 + c2 < 2 ^ 32 := by
        unfold UINT_MAX at hg; omega
      have hm : (c1 * 40 % 2 ^ 32 + c2) % 2 ^ 32 = c1 * 40 + c2 := by omega
      rw [hm] at h
      exact ⟨c1, c2, s1, s2, s3, rfl, by omega, hp2, by omega, hk, hw, h⟩

theorem second_pass_eq {s s1 s2 s3 : List Char} {c1 c2 el : Nat}
    (hp1 : oid_parse_number s = (0, c1, '.' :: s1))
    (hp2 : oid_parse_number s1 = (0, c2, s2))
    (hdrop : s2.drop 1 = s3) (hw : c1 * 40 + c2 < 2 ^ 32)
    (hsz : sizing_loop (s3.length + 1) 0 (oid_subidentifier_num_bytes (c1 * 40 + c2)) s3
      = .ok el) :
    second_pass s el
        = (0, encoding ((c1 * 40 + c2) :: later_components (s3.length + 1) s3), 0) ∧
      el = (encoding ((c1 * 40 + c2) :: later_components (s3.length + 1) s3)).length := by
  have hm : (c1 * 40 % 2 ^ 32 + c2) % 2 ^ 32 = c1 * 40 + c2 := by omega
  obtain ⟨hlen, henc⟩ := sizing_loop_encoding (s3.length + 1)
    (s3.length + (el - oid_subidentifier_num_bytes (c1 * 40 + c2)) + 1) s3 _ el
    (base128 (c1 * 40 + c2)) hsz (by omega) (by omega)
  have hnb := num_bytes_eq_length (c1 * 40 + c2)
  constructor
  · unfold second_pass
    simp only [hp1, List.drop_succ_cons, List.drop_zero, hp2, hdrop, hm]
    rw [encode_into_ok [] el _ (by omega)]
    simp only [ne_eq, not_true_eq_false, if_false, List.nil_append, henc, encoding]
  · simp only [encoding, List.length_append]
    omega

theorem second_pass_nul {s s1 t : List Char} {c1 c2 el : Nat}
    (hp1 : oid_parse_number s = (0, c1, '.' :: s1))
    (hp2 : oid_parse_number s1 = (0, c2, NUL :: t))
    (hw : c1 * 40 + c2 < 2 ^ 32)
    (hsz : sizing_loop ((NUL :: t).length + 1) 0
      (oid_subidentifier_num_bytes (c1 * 40 + c2)) (NUL :: t) = .ok el)
    (hret : (second_pass s el).1 = 0) :
    second_pass s el = (0, encoding [c1 * 40 + c2], 0) ∧
      el = (encoding [c1 * 40 + c2]).length := by
  have hm : (c1 * 40 % 2 ^ 32 + c2) % 2 ^ 32 = c1 * 40 + c2 := by omega
  simp only [sizing_loop, if_true, Except.ok.injEq] at hsz
  have hnb := num_bytes_eq_length (c1 * 40 + c2)
  subst hsz
  unfold second_pass at hret ⊢
  simp only [hp1, List.drop_succ_cons, List.drop_zero, hp2, hm] at hret ⊢
  rw [encode_into_ok [] _ _ (le_refl _)] at hret ⊢
  simp only [ne_eq, not_true_eq_false, if_false, List.nil_append, Nat.sub_self] at hret ⊢
  rw [encoding_loop_full _ _ _ hret]
  simp [encoding, hnb]

/-! ## The codes returned by the first pass -/

theorem parse_loop_ret :
    ∀ (str : List Char) (ret : Int) (num : Nat),
      (oid_parse_number_loop ret num str).1 = ret ∨
        (oid_parse_number_loop ret num str).1 = 0 ∨
        (oid_parse_number_loop ret num str).1 = MBEDTLS_ERR_ASN1_INVALID_DATA := by
  intro str
  induction str with
  | nil => intro ret num; simp [oid_parse_number_loop]
  | cons c cs ih =>
    intro ret num
    simp only [oid_parse_number_loop]
    split
    · split
      · exact Or.inr (Or.inr rfl)
      · rcases ih 0 ((num * 10 % 2 ^ 32 + (c.toNat - '0'.toNat)) % 2 ^ 32) with h | h | h
        · exact Or.inr (Or.inl h)
        · exact Or.inr (Or.inl h)
        · exact Or.inr (Or.inr h)
    · exact Or.inl rfl

theorem parse_number_ret (str : List Char) :
    (oid_parse_number str).1 = 0 ∨
      (oid_parse_number str).1 = MBEDTLS_ERR_ASN1_INVALID_DATA := by
  unfold oid_parse_number
  rcases parse_loop_ret str MBEDTLS_ERR_ASN1_INVALID_DATA 0 with h | h | h
  · exact Or.inr h
  · exact Or.inl h
  · exact Or.inr h

theorem sizing_loop_error (fuel : Nat) :
    ∀ (str : List Char) (encoded_len : Nat) (e : Int),
      sizing_loop fuel 0 encoded_len str = .error e → e = MBEDTLS_ERR_ASN1_INVALID_DATA := by
  induction fuel with
  | zero => intro str el e h; simp [sizing_loop] at h
  | succ fuel ih =>
    intro str el e h
    cases str with
    | nil => simp [sizing_loop] at h
    | cons c cs =>
      simp only [sizing_loop] at h
      split at h
      · simp at h
      · rcases hp : oid_parse_number (c :: cs) with ⟨r, val, s1⟩
        simp only [hp, ne_eq, not_true_eq_false, if_false] at h
        cases hk : skip_separator s1 with
        | none => simp only [hk, Except.error.injEq] at h; exact h.symm
        | some s2 =>
          simp only [hk] at h
          split at h
          · simp only [Except.error.injEq] at h; exact h.symm
          · exact ih _ _ _ h

theorem first_pass_error {s : List Char} {e : Int} (h : first_pass s = .error e) :
    e = MBEDTLS_ERR_ASN1_INVALID_DATA := by
  unfold first_pass at h
  rcases hp1 : oid_parse_number s with ⟨r1, c1, t1⟩
  have hr1 := parse_number_ret s
  simp only [hp1] at h hr1
  split at h
  · rename_i hne
    simp only [Except.error.injEq] at h
    rcases hr1 with h0 | h0
    · exact absurd h0 hne
    · rw [← h, h0]
  split at h
  · simp only [Except.error.injEq] at h; exact h.symm
  cases t1 with
  | nil => simp only [Except.error.injEq] at h; exact h.symm
  | cons d s1 =>
    simp only at h
    split at h
    · simp only [Except.error.injEq] at h; exact h.symm
    rcases hp2 : oid_parse_number s1 with ⟨r2, c2, s2⟩
    have hr2 := parse_number_ret s1
    simp only [hp2] at h hr2
    split at h
    · rename_i hne
      simp only [Except.error.injEq] at h
      rcases hr2 with h0 | h0
      · exact absurd h0 hne
      · rw [← h, h0]
    rename_i hr2z
    split at h
    · simp only [Except.error.injEq] at h; exact h.symm
    cases hk : skip_separator s2 with
    | none => simp only [hk, Except.error.injEq] at h; exact h.symm
    | some s3 =>
      simp only [hk] at h
      split at h
      · simp only [Except.error.injEq] at h; exact h.symm
      simp only [ne_eq, Decidable.not_not] at hr2z
      subst hr2z
      exact sizing_loop_error _ _ _ _ h

theorem first_pass_intro {s s1 s2 s3 : List Char} {c1 c2 el : Nat}
    (hp1 : oid_parse_number s = (0, c1, '.' :: s1)) (hc1 : c1 ≤ 2)
    (hp2 : oid_parse_number s1 = (0, c2, s2)) (hc2 : c1 < 2 → c2 ≤ 39)
    (hk : skip_separator s2 = some s3) (hw : c1 * 40 + c2 < UINT_MAX)
    (hsz : sizing_loop (s3.length + 1) 0 (oid_subidentifier_num_bytes (c1 * 40 + c2)) s3
      = .ok el) :
    first_pass s = .ok el := by
  have hm : (c1 * 40 % 2 ^ 32 + c2) % 2 ^ 32 = c1 * 40 + c2 := by
    unfold UINT_MAX at hw; omega
  have h1 : ¬ c1 > 2 := by omega
  have h2 : ¬ (c1 < 2 ∧ c2 > 39) := by omega
  have h3 : ¬ UINT_MAX - c2 ≤ c1 * 40 % 2 ^ 32 := by unfold UINT_MAX at hw ⊢; omega
  unfold first_pass
  simp only [hp1, ne_eq, not_true_eq_false, if_false, h1, hp2, h2, hk, h3, hm, hsz]

/-! ## The whole encoder -/

theorem parsed_components_eq {s s1 s2 s3 : List Char} {c1 c2 : Nat}
    (hp1 : oid_parse_number s = (0, c1, '.' :: s1))
    (hp2 : oid_parse_number s1 = (0, c2, s2)) (hk : skip_separator s2 = some s3) :
    parsed_components s = (c1, c2, later_components (s3.length + 1) s3) := by
  unfold parsed_components
  simp only [hp1, List.drop_succ_cons, List.drop_zero, hp2, hk]

theorem later_components_nul (fuel : Nat) (t : List Char) :
    later_components fuel (NUL :: t) = [] := by
  cases fuel <;> simp [later_components]

theorem from_numeric_string_zero (oid : mbedtls_asn1_buf) (s : List Char) (calloc_ok : Bool)
    (h : (mbedtls_oid_from_numeric_string oid s calloc_ok).1 = 0) :
    mbedtls_oid_from_numeric_string oid s calloc_ok
      = (0, { tag := MBEDTLS_ASN1_OID,
              len := (encoding (((parsed_components s).1 * 40 + (parsed_components s).2.1)
                :: (parsed_components s).2.2)).length,
              p := some (encoding (((parsed_components s).1 * 40 + (parsed_components s).2.1)
                :: (parsed_components s).2.2)) }) := by
  unfold mbedtls_oid_from_numeric_string at h ⊢
  cases hfp : first_pass s with
  | error e =>
    have he := first_pass_error hfp
    simp only [hfp] at h
    rw [he] at h
    exact absurd h (by decide)
  | ok el =>
    simp only [hfp] at h ⊢
    cases calloc_ok with
    | false => simp at h; exact absurd h (by decide)
    | true =>
      simp only [Bool.true_eq_false, if_false] at h ⊢
      obtain ⟨c1, c2, s1, s2, s3, hp1, hc1, hp2, hc2, hk, hw, hsz⟩ := first_pass_ok hfp
      rw [parsed_components_eq hp1 hp2 hk]
      have hret : (second_pass s el).1 = 0 := by
        rcases hsp : second_pass s el with ⟨r, w, room⟩
        rw [hsp] at h
        simp only at h
        by_cases hr : r = 0
        · exact hr
        · simp [hr] at h
      have key : second_pass s el
          = (0, encoding ((c1 * 40 + c2) :: later_components (s3.length + 1) s3), 0) ∧
          el = (encoding ((c1 * 40 + c2) :: later_components (s3.length + 1) s3)).length := by
        by_cases hnul : ∃ t, s2 = NUL :: t
        · obtain ⟨t, ht⟩ := hnul
          subst ht
          have hs3 : s3 = NUL :: t := by
            simp [skip_separator] at hk; exact hk.symm
          subst hs3
          rw [later_components_nul]
          exact second_pass_nul hp1 hp2 hw hsz hret
        · have hdrop : s2.drop 1 = s3 := by
            cases s2 with
            | nil => simp [skip_separator] at hk; subst hk; rfl
            | cons d ds =>
              have hd : d ≠ NUL := by
                intro hd; exact hnul ⟨ds, by rw [hd]⟩
              simp only [skip_separator, hd, ne_eq, not_false_eq_true, if_true] at hk
              split at hk
              · simp at hk; subst hk; rfl
              · simp at hk
          exact second_pass_eq hp1 hp2 hdrop hw hsz
      obtain ⟨hsp, hel⟩ := key
      rw [hsp]
      simp only [ne_eq, not_true_eq_false, if_false, List.replicate_zero, List.append_nil]
      rw [← hel]

/-! ## Encoding a dotted-decimal text -/

theorem fmt_u_head (v : Nat) : ∃ c cs, fmt_u v = c :: cs ∧ is_digit c := by
  induction v using Nat.strongRecOn with
  | _ v ih =>
    by_cases h : v < 10
    · obtain ⟨h1, h2, _⟩ := digitChar_digit h
      exact ⟨Nat.digitChar v, [], fmt_u_lt h, h1, h2⟩
    · obtain ⟨c, cs, hc, hd⟩ := ih (v / 10) (by omega)
      refine ⟨c, cs ++ [Nat.digitChar (v % 10)], ?_, hd⟩
      rw [fmt_u_ge (by omega), hc]
      rfl

theorem is_digit_ne_nul {c : Char} (h : is_digit c) : c ≠ NUL := by
  intro h0
  subst h0
  exact absurd h (by decide)

theorem no_leading_digit_nil : no_leading_digit [] := by
  intro c hc
  simp at hc

theorem no_leading_digit_dot (str : List Char) : no_leading_digit ('.' :: str) := by
  intro c hc
  simp only [List.head?_cons, Option.mem_def, Option.some.injEq] at hc
  subst hc
  decide

theorem no_leading_digit_tail (vs : List Nat) : no_leading_digit (dotted_tail vs) := by
  cases vs with
  | nil => exact no_leading_digit_nil
  | cons v vs => exact no_leading_digit_dot _

theorem digits_length_le (k : Nat) :
    ∀ w : Nat, w < 128 ^ k → (Nat.digits 128 w).length ≤ k := by
  induction k with
  | zero =>
    intro w hw
    have : w = 0 := by simpa using hw
    subst this
    simp
  | succ k ih =>
    intro w hw
    by_cases h0 : w = 0
    · subst h0; simp
    · rw [Nat.digits_def' (by norm_num) (Nat.pos_of_ne_zero h0)]
      simp only [List.length_cons, Nat.add_le_add_iff_right]
      apply ih
      rw [pow_succ] at hw
      omega

theorem num_bytes_le_of_lt {v k : Nat} (h : v < 128 ^ (k + 1)) :
    oid_subidentifier_num_bytes v ≤ k + 1 := by
  rw [num_bytes_eq]
  have := digits_length_le k (v / 128) (by rw [pow_succ] at h; omega)
  omega

theorem num_bytes_le_fmt_u (v : Nat) : oid_subidentifier_num_bytes v ≤ (fmt_u v).length := by
  have h1 := fmt_u_lt_pow v
  have h2 := fmt_u_length_pos v
  obtain ⟨k, hk⟩ : ∃ k, (fmt_u v).length = k + 1 := ⟨(fmt_u v).length - 1, by omega⟩
  rw [hk] at h1 ⊢
  have h3 : 10 ^ (k + 1) ≤ 128 ^ (k + 1) := Nat.pow_le_pow_left (by norm_num) _
  exact num_bytes_le_of_lt (by omega)

theorem num_bytes_first_le (c1 c2 : Nat) (hc1 : c1 ≤ 2) :
    oid_subidentifier_num_bytes (c1 * 40 + c2) ≤ (fmt_u c2).length + 1 := by
  have h1 := fmt_u_lt_pow c2
  have h3 : 10 ^ (fmt_u c2).length ≤ 128 ^ (fmt_u c2).length :=
    Nat.pow_le_pow_left (by norm_num) _
  have h4 : 0 < 128 ^ (fmt_u c2).length := Nat.pow_pos (by norm_num)
  apply num_bytes_le_of_lt
  rw [pow_succ]
  omega

theorem sizing_loop_dotted :
    ∀ (vs : List Nat) (v fuel encoded_len : Nat), v ≤ 2147483649 →
      (∀ x ∈ vs, x ≤ 2147483649) → (fmt_u v ++ dotted_tail vs).length < fuel →
      encoded_len + (fmt_u v ++ dotted_tail vs).length < SIZE_MAX →
      ∃ n, sizing_loop fuel 0 encoded_len (fmt_u v ++ dotted_tail vs) = .ok n ∧
        later_components fuel (fmt_u v ++ dotted_tail vs) = v :: vs := by
  intro vs
  induction vs with
  | nil =>
    intro v fuel el hv _ hf hsz
    obtain ⟨c, cs, hcs, hd⟩ := fmt_u_head v
    have hc := is_digit_ne_nul hd
    have hp := parse_number_fmt_u v [] hv no_leading_digit_nil
    have hnb := num_bytes_le_fmt_u v
    simp only [dotted_tail, List.append_nil] at hf hsz hp ⊢
    cases fuel with
    | zero => omega
    | succ fuel =>
      rw [hcs] at hp ⊢
      have hg : ¬ SIZE_MAX - el ≤ oid_subidentifier_num_bytes v := by
        rw [hcs] at hnb hsz; omega
      refine ⟨el + oid_subidentifier_num_bytes v, ?_, ?_⟩
      · simp only [sizing_loop, hc, if_false, hp, ne_eq, not_true_eq_false, skip_separator, hg]
        cases fuel <;> simp [sizing_loop]
      · simp only [later_components, hc, if_false, hp, skip_separator]
        cases fuel <;> simp [later_components]
  | cons w ws ih =>
    intro v fuel el hv hvs hf hsz
    obtain ⟨c, cs, hcs, hd⟩ := fmt_u_head v
    have hc := is_digit_ne_nul hd
    have hp := parse_number_fmt_u v (dotted_tail (w :: ws)) hv (no_leading_digit_tail _)
    have hnb := num_bytes_le_fmt_u v
    have hk : skip_separator (dotted_tail (w :: ws)) = some (fmt_u w ++ dotted_tail ws) := by
      have : '.' ≠ NUL := by decide
      simp [dotted_tail, skip_separator, this]
    simp only [dotted_tail, List.length_append, List.length_cons] at hf hsz
    cases fuel with
    | zero => omega
    | succ fuel =>
      have hg : ¬ SIZE_MAX - el ≤ oid_subidentifier_num_bytes v := by omega
      obtain ⟨n, hn, hl⟩ := ih w fuel (el + oid_subidentifier_num_bytes v)
        (hvs w (List.mem_cons_self _ _)) (fun x hx => hvs x (List.mem_cons_of_mem _ hx))
        (by simp only [List.length_append]; omega)
        (by simp only [List.length_append]; omega)
      rw [hcs, List.cons_append] at hp ⊢
      refine ⟨n, ?_, ?_⟩
      · simp only [sizing_loop, hc, if_false, hp, ne_eq, not_true_eq_false, hk, hg, hn]
      · simp only [later_components, hc, if_false, hp, hk, hl]

theorem from_numeric_string_dotted (oid : mbedtls_asn1_buf) (c1 c2 : Nat) (rest : List Nat)
    (hc1 : c1 ≤ 2) (hc2 : c1 < 2 → c2 ≤ 39) (hc2r : c2 ≤ 2147483649)
    (hrest : ∀ x ∈ rest, x ≤ 2147483649) (hlen : (dotted c1 c2 rest).length ≤ SIZE_MAX) :
    mbedtls_oid_from_numeric_string oid (dotted c1 c2 rest) true
      = (0, { tag := MBEDTLS_ASN1_OID,
              len := (encoding ((40 * c1 + c2) :: rest)).length,
              p := some (encoding ((40 * c1 + c2) :: rest)) }) := by
  have hd : dotted c1 c2 rest = fmt_u c1 ++ '.' :: (fmt_u c2 ++ dotted_tail rest) := by
    simp [dotted]
  have hp1 : oid_parse_number (dotted c1 c2 rest)
      = (0, c1, '.' :: (fmt_u c2 ++ dotted_tail rest)) := by
    rw [hd]; exact parse_number_fmt_u c1 _ (by omega) (no_leading_digit_dot _)
  have hp2 : oid_parse_number (fmt_u c2 ++ dotted_tail rest) = (0, c2, dotted_tail rest) :=
    parse_number_fmt_u c2 _ hc2r (no_leading_digit_tail _)
  have hw : c1 * 40 + c2 < UINT_MAX := by unfold UINT_MAX; omega
  have hl1 := fmt_u_length_pos c1
  have hnb := num_bytes_first_le c1 c2 hc1
  rw [hd] at hlen
  simp only [List.length_append, List.length_cons] at hlen
  have comps : ∃ s3 el, skip_separator (dotted_tail rest) = some s3 ∧
      (dotted_tail rest).drop 1 = s3 ∧
      sizing_loop (s3.length + 1) 0 (oid_subidentifier_num_bytes (c1 * 40 + c2)) s3 = .ok el ∧
      later_components (s3.length + 1) s3 = rest := by
    cases rest with
    | nil =>
      exact ⟨[], oid_subidentifier_num_bytes (c1 * 40 + c2),
        by simp [dotted_tail, skip_separator], by simp [dotted_tail],
        by simp [sizing_loop], by simp [later_components]⟩
    | cons v vs =>
      have hne : '.' ≠ NUL := by decide
      simp only [dotted_tail, List.length_append, List.length_cons] at hlen
      obtain ⟨n, hn, hl⟩ := sizing_loop_dotted vs v ((fmt_u v ++ dotted_tail vs).length + 1)
        (oid_subidentifier_num_bytes (c1 * 40 + c2)) (hrest v (List.mem_cons_self _ _))
        (fun x hx => hrest x (List.mem_cons_of_mem _ hx)) (by omega)
        (by simp only [List.length_append]; omega)
      exact ⟨fmt_u v ++ dotted_tail vs, n, by simp [dotted_tail, skip_separator, hne],
        by simp [dotted_tail], hn, hl⟩
  obtain ⟨s3, el, hk, hdrop, hsz, hl⟩ := comps
  have hfp := first_pass_intro hp1 hc1 hp2 hc2 hk hw hsz
  obtain ⟨hsp, hel⟩ := second_pass_eq hp1 hp2 hdrop (by unfold UINT_MAX at hw; omega) hsz
  rw [hl] at hsp hel
  have hcomm : c1 * 40 + c2 = 40 * c1 + c2 := by omega
  rw [hcomm] at hsp hel
  unfold mbedtls_oid_from_numeric_string
  simp only [hfp, hsp, Bool.true_eq_false, if_false, ne_eq, not_true_eq_false,
    List.replicate_zero, List.append_nil]
  rw [← hel]

theorem parsed_components_dotted (c1 c2 : Nat) (rest : List Nat) (hc1 : c1 ≤ 2147483649)
    (hc2 : c2 ≤ 2147483649) (hrest : ∀ x ∈ rest, x ≤ 2147483649)
    (hlen : (dotted c1 c2 rest).length ≤ SIZE_MAX) :
    parsed_components (dotted c1 c2 rest) = (c1, c2, rest) := by
  have hd : dotted c1 c2 rest = fmt_u c1 ++ '.' :: (fmt_u c2 ++ dotted_tail rest) := by
    simp [dotted]
  have hp1 : oid_parse_number (dotted c1 c2 rest)
      = (0, c1, '.' :: (fmt_u c2 ++ dotted_tail rest)) := by
    rw [hd]; exact parse_number_fmt_u c1 _ hc1 (no_leading_digit_dot _)
  have hp2 : oid_parse_number (fmt_u c2 ++ dotted_tail rest) = (0, c2, dotted_tail rest) :=
    parse_number_fmt_u c2 _ hc2 (no_leading_digit_tail _)
  rw [hd] at hlen
  simp only [List.length_append, List.length_cons] at hlen
  cases rest with
  | nil =>
    have hk : skip_separator (dotted_tail ([] : List Nat)) = some [] := by
      simp [dotted_tail, skip_separator]
    rw [parsed_components_eq hp1 hp2 hk]
    simp [later_components]
  | cons v vs =>
    have hne : '.' ≠ NUL := by decide
    simp only [dotted_tail, List.length_append, List.length_cons] at hlen
    obtain ⟨n, _, hl⟩ := sizing_loop_dotted vs v ((fmt_u v ++ dotted_tail vs).length + 1) 0
      (hrest v (List.mem_cons_self _ _))
      (fun x hx => hrest x (List.mem_cons_of_mem _ hx)) (by omega)
      (by simp only [List.length_append]; omega)
    have hk : skip_separator (dotted_tail (v :: vs)) = some (fmt_u v ++ dotted_tail vs) := by
      simp [dotted_tail, skip_separator, hne]
    rw [parsed_components_eq hp1 hp2 hk, hl]

/-! ## Runs of digits, with or without leading zeros -/

theorem is_digit_value {c : Char} (h : is_digit c) : c.toNat - '0'.toNat ≤ 9 := by
  obtain ⟨_, h2⟩ := h
  have h3 : c.toNat ≤ '9'.toNat := h2
  have h4 : '9'.toNat = 57 := by decide
  have h5 : '0'.toNat = 48 := by decide
  omega

theorem parse_loop_digits (str : List Char) (hstr : no_leading_digit str) :
    ∀ (digits : List Char) (ret : Int) (num : Nat), digits ≠ [] →
      (∀ c ∈ digits, is_digit c) →
      (oid_parse_number_loop ret num (digits ++ str)).1 = MBEDTLS_ERR_ASN1_INVALID_DATA ∨
        oid_parse_number_loop ret num (digits ++ str)
          = (0, digits.foldl (fun value c => value * 10 + (c.toNat - '0'.toNat)) num, str) := by
  intro digits
  induction digits with
  | nil => intro ret num h; exact absurd rfl h
  | cons c cs ih =>
    intro ret num _ hds
    have hc : is_digit c := hds c (List.mem_cons_self _ _)
    have hv := is_digit_value hc
    have hc2 : '0' ≤ c ∧ c ≤ '9' := hc
    simp only [List.cons_append, oid_parse_number_loop, hc2, and_self, if_true,
      List.foldl_cons]
    by_cases hg : num > INT_MAX / 10
    · left; simp [hg]
    · simp only [hg, if_false]
      rw [int_max_div] at hg
      have hm : (num * 10 % 2 ^ 32 + (c.toNat - '0'.toNat)) % 2 ^ 32
          = num * 10 + (c.toNat - '0'.toNat) := by omega
      rw [hm]
      by_cases hcs : cs = []
      · subst hcs
        right
        simp only [List.nil_append, List.foldl_nil]
        exact parse_loop_stop _ _ _ hstr
      · exact ih 0 _ hcs (fun x hx => hds x (List.mem_cons_of_mem _ hx))

theorem parse_number_digits (digits str : List Char) (hne : digits ≠ [])
    (hds : ∀ c ∈ digits, is_digit c) (hstr : no_leading_digit str) :
    (oid_parse_number (digits ++ str)).1 = MBEDTLS_ERR_ASN1_INVALID_DATA ∨
      oid_parse_number (digits ++ str) = (0, decimal_value digits, str) :=
  parse_loop_digits str hstr digits _ 0 hne hds

theorem first_pass_first_component (digits str : List Char) (hne : digits ≠ [])
    (hds : ∀ c ∈ digits, is_digit c) (hstr : no_leading_digit str)
    (hv : decimal_value digits > 2) :
    first_pass (digits ++ str) = .error MBEDTLS_ERR_ASN1_INVALID_DATA := by
  have hinv : MBEDTLS_ERR_ASN1_INVALID_DATA ≠ 0 := by decide
  unfold first_pass
  rcases parse_number_digits digits str hne hds hstr with h | h
  · rcases hp : oid_parse_number (digits ++ str) with ⟨r, c1, t⟩
    rw [hp] at h
    simp only at h
    subst h
    simp [hinv]
  · simp [h, hv]

theorem first_pass_second_component (d1 d2 str : List Char) (hne1 : d1 ≠ [])
    (hds1 : ∀ c ∈ d1, is_digit c) (hne2 : d2 ≠ []) (hds2 : ∀ c ∈ d2, is_digit c)
    (hstr : no_leading_digit str) (hv1 : decimal_value d1 < 2)
    (hv2 : decimal_value d2 > 39) :
    first_pass (d1 ++ '.' :: (d2 ++ str)) = .error MBEDTLS_ERR_ASN1_INVALID_DATA := by
  have hinv : MBEDTLS_ERR_ASN1_INVALID_DATA ≠ 0 := by decide
  unfold first_pass
  rcases parse_number_digits d1 ('.' :: (d2 ++ str)) hne1 hds1 (no_leading_digit_dot _)
    with h | h
  · rcases hp : oid_parse_number (d1 ++ '.' :: (d2 ++ str)) with ⟨r, c1, t⟩
    rw [hp] at h
    simp only at h
    subst h
    simp [hinv]
  · have h1 : ¬ decimal_value d1 > 2 := by omega
    simp only [h, ne_eq, not_true_eq_false, if_false, h1]
    rcases parse_number_digits d2 str hne2 hds2 hstr with h' | h'
    · rcases hp : oid_parse_number (d2 ++ str) with ⟨r, c2, t⟩
      rw [hp] at h'
      simp only at h'
      subst h'
      simp [hinv]
    · simp [h', hv1, hv2]

/-! ## Continuation bits of a minimal encoding -/

theorem base128_continuation (v : Nat) :
    (∀ b ∈ (base128 v).dropLast, b &&& 0x80 = 0x80) ∧
      ∃ b, (base128 v).getLast? = some b ∧ b &&& 0x80 = 0 := by
  unfold base128
  constructor
  · intro b hb
    rw [List.dropLast_concat] at hb
    obtain ⟨d, hd, rfl⟩ := List.mem_map.mp hb
    exact and_80_of_add (digits_reverse_lt _ d hd)
  · exact ⟨v % 128, by simp, and_80_of_lt (Nat.mod_lt _ (by norm_num))⟩

/-! ## The claims -/

/-- C1, as stated, fails: the texts `2` (a single component) and `1.2.4294967295` (a
component beyond the range of `oid_parse_number`) are of the form `N(.N)*` without
leading zeros, with a first component in `{0,1,2}` and a second component at most 39,
and `mbedtls_oid_from_numeric_string` returns `MBEDTLS_ERR_ASN1_INVALID_DATA` on both. -/
theorem round_trip_text_counterexample :
    "2".toList = fmt_u 2 ∧
    (mbedtls_oid_from_numeric_string ⟨0, 0, none⟩ "2".toList true).1
      = MBEDTLS_ERR_ASN1_INVALID_DATA ∧
    "1.2.4294967295".toList = dotted 1 2 [4294967295] ∧
    (mbedtls_oid_from_numeric_string ⟨0, 0, none⟩ "1.2.4294967295".toList true).1
      = MBEDTLS_ERR_ASN1_INVALID_DATA := by
  decide

/-- C1, as amended: for every dotted-decimal text with at least two components, each
written in decimal without leading zero and of value at most 2147483649 (the largest
value `oid_parse_number` accepts), whose first component is at most 2 and whose second
component is at most 39 when the first is 0 or 1, of a length that fits `size_t`, and
when the allocation succeeds, `mbedtls_oid_from_numeric_string` returns 0, and
`mbedtls_oid_get_numeric_string` on the bytes it produced, with a buffer larger than
the text, writes exactly that text. -/
theorem round_trip_text_binary_text (oid : mbedtls_asn1_buf) (c1 c2 : Nat)
    (rest : List Nat) (size : Nat) (hc1 : c1 ≤ 2) (hc2 : c1 < 2 → c2 ≤ 39)
    (hc2r : c2 ≤ 2147483649) (hrest : ∀ x ∈ rest, x ≤ 2147483649)
    (hlen : (dotted c1 c2 rest).length ≤ SIZE_MAX)
    (hsize : (dotted c1 c2 rest).length < size) :
    ∃ bytes : List Nat,
      mbedtls_oid_from_numeric_string oid (dotted c1 c2 rest) true
        = (0, { tag := MBEDTLS_ASN1_OID, len := bytes.length, p := some bytes }) ∧
      mbedtls_oid_get_numeric_string size bytes
        = ⟨int_of_size_t (dotted c1 c2 rest).length, some (dotted c1 c2 rest)⟩ := by
  have h1 : first_component (40 * c1 + c2) = c1 := by
    unfold first_component
    by_cases h : c1 < 2
    · have := hc2 h; omega
    · omega
  have h2 : second_component (40 * c1 + c2) = c2 := by
    unfold second_component; rw [h1]; omega
  refine ⟨encoding ((40 * c1 + c2) :: rest),
    from_numeric_string_dotted oid c1 c2 rest hc1 hc2 hc2r hrest hlen, ?_⟩
  have h := get_numeric_string_encoding size (40 * c1 + c2) rest (by omega)
    (fun x hx => by have := hrest x hx; omega) (by rw [h1, h2]; exact hsize)
  rw [h1, h2] at h
  exact h

/-- Witness of C1 as amended, on the text `1.2.840` with a buffer of 8 characters. -/
theorem round_trip_text_binary_text_witness :
    (1 ≤ 2) ∧ (dotted 1 2 [840]).length < 8 ∧
    ∃ bytes : List Nat,
      mbedtls_oid_from_numeric_string ⟨0, 0, none⟩ (dotted 1 2 [840]) true
        = (0, { tag := MBEDTLS_ASN1_OID, len := bytes.length, p := some bytes }) ∧
      mbedtls_oid_get_numeric_string 8 bytes
        = ⟨int_of_size_t (dotted 1 2 [840]).length, some (dotted 1 2 [840])⟩ :=
  ⟨by decide, by decide,
    round_trip_text_binary_text ⟨0, 0, none⟩ 1 2 [840] 8 (by decide) (by decide) (by decide)
      (by decide) (by decide) (by decide)⟩

/-- C3 fails on the code: on the two bytes `2A 86`, whose last byte has its
continuation bit set and whose later subidentifier is the unterminated one,
`mbedtls_oid_get_numeric_string` with a buffer of 16 characters returns 3 and writes
`1.2`, not `MBEDTLS_ERR_ASN1_OUT_OF_DATA`; on the single byte `86`, where the first
subidentifier is the unterminated one, it does return that code. -/
theorem unterminated_later_subidentifier_accepted :
    0x86 &&& 0x80 ≠ 0 ∧
    mbedtls_oid_get_numeric_string 16 [0x2A, 0x86] = ⟨3, some "1.2".toList⟩ ∧
    mbedtls_oid_get_numeric_string 16 [0x86] = ⟨MBEDTLS_ERR_ASN1_OUT_OF_DATA, none⟩ := by
  decide

/-- C4: on every binary OID whose first byte is `0x80`, whatever the other bytes and
the size of the buffer, `mbedtls_oid_get_numeric_string` returns
`MBEDTLS_ERR_ASN1_INVALID_DATA` (and stores nothing). -/
theorem leading_0x80_rejected (size : Nat) (rest : List Nat) :
    mbedtls_oid_get_numeric_string size (0x80 :: rest)
      = ⟨MBEDTLS_ERR_ASN1_INVALID_DATA, none⟩ := by
  simp [mbedtls_oid_get_numeric_string]

/-- C5: on the nine bytes `2A 86 48 86 F7 0D 01 01 0B` and a buffer of at least 22
characters, `mbedtls_oid_get_numeric_string` writes `1.2.840.113549.1.1.11` and
returns 21; on that text (the allocation succeeding)
`mbedtls_oid_from_numeric_string` returns 0 with `len = 9` and exactly those bytes. -/
theorem literal_vector (size : Nat) (oid : mbedtls_asn1_buf) (hsize : 22 ≤ size) :
    mbedtls_oid_get_numeric_string size [0x2A, 0x86, 0x48, 0x86, 0xF7, 0x0D, 0x01, 0x01, 0x0B]
        = ⟨21, some "1.2.840.113549.1.1.11".toList⟩ ∧
      mbedtls_oid_from_numeric_string oid "1.2.840.113549.1.1.11".toList true
        = (0, { tag := MBEDTLS_ASN1_OID, len := 9,
                p := some [0x2A, 0x86, 0x48, 0x86, 0xF7, 0x0D, 0x01, 0x01, 0x0B] }) := by
  have hb : [0x2A, 0x86, 0x48, 0x86, 0xF7, 0x0D, 0x01, 0x01, 0x0B]
      = encoding (42 :: [840, 113549, 1, 1, 11]) := by
    norm_num [encoding, base128]
  have hb2 : encoding ((40 * 1 + 2) :: [840, 113549, 1, 1, 11])
      = [0x2A, 0x86, 0x48, 0x86, 0xF7, 0x0D, 0x01, 0x01, 0x0B] := by
    norm_num [encoding, base128]
  have hs : "1.2.840.113549.1.1.11".toList = dotted 1 2 [840, 113549, 1, 1, 11] := by decide
  have h1 : first_component 42 = 1 := by decide
  have h2 : second_component 42 = 2 := by decide
  have hl : (dotted 1 2 [840, 113549, 1, 1, 11]).length = 21 := by decide
  constructor
  · have h := get_numeric_string_encoding size 42 [840, 113549, 1, 1, 11] (by norm_num)
      (by decide) (by rw [h1, h2, hl]; omega)
    rw [h1, h2, hl] at h
    rw [hb, h, hs]
    rfl
  · have h := from_numeric_string_dotted oid 1 2 [840, 113549, 1, 1, 11] (by decide)
      (by decide) (by decide) (by decide) (by rw [hl]; decide)
    rw [hb2] at h
    rw [hs, h]
    rfl

/-- Witness of C5 with a buffer of exactly 22 characters. -/
theorem literal_vector_witness :
    22 ≤ 22 ∧
    mbedtls_oid_get_numeric_string 22 [0x2A, 0x86, 0x48, 0x86, 0xF7, 0x0D, 0x01, 0x01, 0x0B]
        = ⟨21, some "1.2.840.113549.1.1.11".toList⟩ ∧
      mbedtls_oid_from_numeric_string ⟨0, 0, none⟩ "1.2.840.113549.1.1.11".toList true
        = (0, { tag := MBEDTLS_ASN1_OID, len := 9,
                p := some [0x2A, 0x86, 0x48, 0x86, 0xF7, 0x0D, 0x01, 0x01, 0x0B] }) :=
  ⟨by decide, literal_vector 22 ⟨0, 0, none⟩ (by decide)⟩

/-- C6: on the concatenation of the minimal base-128 encodings of values `v`, `rest`
(each below `2 ^ 32`) and with a buffer larger than the result,
`mbedtls_oid_get_numeric_string` writes `c1.c2` followed by `.x` (decimal, no leading
zero) for each `x` of `rest` in order, where `c1 = min (v / 40) 2` and
`c2 = v - 40 * c1`, and returns the length of that text; with `rest = []` (a buffer
holding only the first subidentifier) it writes just `c1.c2`. -/
theorem decode_postcondition (size v : Nat) (rest : List Nat) (hv : v < 2 ^ 32)
    (hrest : ∀ x ∈ rest, x < 2 ^ 32)
    (hsize : (dotted (min (v / 40) 2) (v - 40 * min (v / 40) 2) rest).length < size) :
    mbedtls_oid_get_numeric_string size (encoding (v :: rest))
        = ⟨int_of_size_t (dotted (min (v / 40) 2) (v - 40 * min (v / 40) 2) rest).length,
            some (fmt_u (min (v / 40) 2) ++ '.' :: fmt_u (v - 40 * min (v / 40) 2)
              ++ dotted_tail rest)⟩ ∧
      dotted_tail [] = [] ∧
      ∀ (x : Nat) (xs : List Nat), dotted_tail (x :: xs) = '.' :: fmt_u x ++ dotted_tail xs :=
  ⟨get_numeric_string_encoding size v rest hv hrest hsize, rfl, fun _ _ => rfl⟩

/-- Witness of C6 on the single subidentifier 88 (one byte `58`), which gives `2.8`. -/
theorem decode_postcondition_witness :
    (88 < 2 ^ 32) ∧ encoding [88] = [0x58] ∧
    mbedtls_oid_get_numeric_string 4 (encoding [88]) = ⟨3, some "2.8".toList⟩ := by
  have h := (decode_postcondition 4 88 [] (by decide) (by decide) (by decide)).1
  have h1 : encoding [88] = [0x58] := by norm_num [encoding, base128]
  refine ⟨by decide, h1, ?_⟩
  rw [h]
  decide

/-- C7: whenever `mbedtls_oid_from_numeric_string` returns 0, the bytes it hands back
are exactly the concatenation of the base-128 big-endian encodings of `40 * c1 + c2`
and of the later components, in order, where `c1`, `c2` and the later components are
the numbers its parser read from the text, and `len` is their number; in each
encoding every byte but the last has the continuation bit `0x80` set, and the last
has it clear. -/
theorem encode_postcondition (oid : mbedtls_asn1_buf) (s : List Char) (calloc_ok : Bool)
    (h : (mbedtls_oid_from_numeric_string oid s calloc_ok).1 = 0) :
    (mbedtls_oid_from_numeric_string oid s calloc_ok).2.p
        = some (encoding ((40 * (parsed_components s).1 + (parsed_components s).2.1)
            :: (parsed_components s).2.2)) ∧
      (mbedtls_oid_from_numeric_string oid s calloc_ok).2.len
        = (encoding ((40 * (parsed_components s).1 + (parsed_components s).2.1)
            :: (parsed_components s).2.2)).length ∧
      ∀ v : Nat, (∀ b ∈ (base128 v).dropLast, b &&& 0x80 = 0x80) ∧
        ∃ b, (base128 v).getLast? = some b ∧ b &&& 0x80 = 0 := by
  have hz := from_numeric_string_zero oid s calloc_ok h
  rw [Nat.mul_comm] at hz
  rw [hz]
  exact ⟨rfl, rfl, base128_continuation⟩

/-- Witness of C7 on the text `1.2.840`, whose parsed components are 1, 2 and 840. -/
theorem encode_postcondition_witness :
    (mbedtls_oid_from_numeric_string ⟨0, 0, none⟩ "1.2.840".toList true).1 = 0 ∧
    parsed_components "1.2.840".toList = (1, 2, [840]) ∧
    (mbedtls_oid_from_numeric_string ⟨0, 0, none⟩ "1.2.840".toList true).2.p
      = some (encoding ((40 * (parsed_components "1.2.840".toList).1
            + (parsed_components "1.2.840".toList).2.1)
          :: (parsed_components "1.2.840".toList).2.2)) :=
  ⟨by decide, by decide,
    (encode_postcondition ⟨0, 0, none⟩ "1.2.840".toList true (by decide)).1⟩

/-- C8: on every text that starts with a run of decimal digits whose value is greater
than 2 (the first component), whatever follows the run,
`mbedtls_oid_from_numeric_string` returns `MBEDTLS_ERR_ASN1_INVALID_DATA` and leaves
the caller's structure as it was. -/
theorem first_component_above_two_rejected (oid : mbedtls_asn1_buf)
    (digits str : List Char) (calloc_ok : Bool) (hne : digits ≠ [])
    (hds : ∀ c ∈ digits, is_digit c) (hstr : no_leading_digit str)
    (hv : decimal_value digits > 2) :
    mbedtls_oid_from_numeric_string oid (digits ++ str) calloc_ok
      = (MBEDTLS_ERR_ASN1_INVALID_DATA, oid) := by
  unfold mbedtls_oid_from_numeric_string
  rw [first_pass_first_component digits str hne hds hstr hv]

/-- Witness of C8 on the text `3.1`. -/
theorem first_component_above_two_rejected_witness :
    decimal_value ['3'] > 2 ∧ ['3'] ++ ".1".toList = "3.1".toList ∧
    mbedtls_oid_from_numeric_string ⟨0, 0, none⟩ (['3'] ++ ".1".toList) true
      = (MBEDTLS_ERR_ASN1_INVALID_DATA, ⟨0, 0, none⟩) :=
  ⟨by decide, by decide,
    first_component_above_two_rejected ⟨0, 0, none⟩ ['3'] ".1".toList true (by decide)
      (by decide) (no_leading_digit_dot _) (by decide)⟩

theorem fmt_u_length_le (v : Nat) (hv : v ≤ 2147483649) : (fmt_u v).length ≤ 10 :=
  Nat.toDigitsCore_length 10 (by norm_num) (v + 1) v 10 (by omega) (by norm_num)

/-- C9: on every text whose first component (a run of digits) has the value 0 or 1 and
whose second component has a value greater than 39,
`mbedtls_oid_from_numeric_string` returns `MBEDTLS_ERR_ASN1_INVALID_DATA`; with the
first component 2, a second component greater than 39 (and in the range of the
parser) is accepted: the function returns 0 on the text `2.c2`. -/
theorem second_component_above_39 (oid : mbedtls_asn1_buf) (d1 d2 str : List Char)
    (calloc_ok : Bool) (hne1 : d1 ≠ []) (hds1 : ∀ c ∈ d1, is_digit c) (hne2 : d2 ≠ [])
    (hds2 : ∀ c ∈ d2, is_digit c) (hstr : no_leading_digit str)
    (hv1 : decimal_value d1 < 2) (hv2 : decimal_value d2 > 39) :
    mbedtls_oid_from_numeric_string oid (d1 ++ '.' :: (d2 ++ str)) calloc_ok
        = (MBEDTLS_ERR_ASN1_INVALID_DATA, oid) ∧
      ∀ c2 : Nat, 39 < c2 → c2 ≤ 2147483649 →
        mbedtls_oid_from_numeric_string oid (fmt_u 2 ++ '.' :: fmt_u c2) true
          = (0, { tag := MBEDTLS_ASN1_OID, len := (base128 (80 + c2)).length,
                  p := some (base128 (80 + c2)) }) := by
  constructor
  · unfold mbedtls_oid_from_numeric_string
    rw [first_pass_second_component d1 d2 str hne1 hds1 hne2 hds2 hstr hv1 hv2]
  · intro c2 _ hc2
    have hl := fmt_u_length_le c2 hc2
    have hl2 : (fmt_u 2).length = 1 := by decide
    have h := from_numeric_string_dotted oid 2 c2 [] (by decide) (by omega) hc2
      (by simp) (by simp only [dotted, dotted_tail, List.length_append, List.length_cons,
        List.length_nil, hl2]; unfold SIZE_MAX; omega)
    simpa [dotted, dotted_tail, encoding] using h

/-- Witness of C9 on the texts `1.40` (rejected) and `2.999` (accepted). -/
theorem second_component_above_39_witness :
    decimal_value ['1'] < 2 ∧ decimal_value ['4', '0'] > 39 ∧
    ['1'] ++ '.' :: (['4', '0'] ++ []) = "1.40".toList ∧
    fmt_u 2 ++ '.' :: fmt_u 999 = "2.999".toList ∧
    (mbedtls_oid_from_numeric_string ⟨0, 0, none⟩ (['1'] ++ '.' :: (['4', '0'] ++ [])) true
        = (MBEDTLS_ERR_ASN1_INVALID_DATA, ⟨0, 0, none⟩) ∧
      ∀ c2 : Nat, 39 < c2 → c2 ≤ 2147483649 →
        mbedtls_oid_from_numeric_string ⟨0, 0, none⟩ (fmt_u 2 ++ '.' :: fmt_u c2) true
          = (0, { tag := MBEDTLS_ASN1_OID, len := (base128 (80 + c2)).length,
                  p := some (base128 (80 + c2)) })) :=
  ⟨by decide, by decide, by decide, by decide,
    second_component_above_39 ⟨0, 0, none⟩ ['1'] ['4', '0'] [] true (by decide) (by decide)
      (by decide) (by decide) no_leading_digit_nil (by decide) (by decide)⟩

/-- C10 fails on the code: the text `1.2..3`, whose third numeric field is empty, is
not rejected: `mbedtls_oid_from_numeric_string` returns 0 and hands back the three
bytes `2A 00 03`, the encoding of `1.2.0.3`; the text `1.2.`, whose last field is
empty, is accepted as `1.2`. An empty first field (`.1.2`) is rejected. -/
theorem empty_field_accepted :
    mbedtls_oid_from_numeric_string ⟨0, 0, none⟩ "1.2..3".toList true
        = (0, { tag := MBEDTLS_ASN1_OID, len := 3, p := some [0x2A, 0x00, 0x03] }) ∧
      mbedtls_oid_from_numeric_string ⟨0, 0, none⟩ "1.2.".toList true
        = (0, { tag := MBEDTLS_ASN1_OID, len := 1, p := some [0x2A] }) ∧
      mbedtls_oid_from_numeric_string ⟨0, 0, none⟩ ".1.2".toList true
        = (MBEDTLS_ERR_ASN1_INVALID_DATA, ⟨0, 0, none⟩) := by
  decide

/-! ## The lookup functions -/

theorem memcmp_eq_zero {a b : List Nat} (h : a.length = b.length) :
    memcmp a b b.length = 0 ↔ a = b := by
  unfold memcmp
  have h1 : a.take b.length = a := by rw [← h]; exact List.take_length a
  have h2 : b.take b.length = b := List.take_length b
  rw [h1, h2]
  by_cases hab : a = b
  · simp [hab]
  · simp [hab]

theorem typed_from_asn1_eq_find {T : Type} (descriptor : T → mbedtls_oid_descriptor_t)
    (oid : List Nat) :
    ∀ LIST : List T,
      FN_OID_TYPED_FROM_ASN1 descriptor LIST (some oid)
        = (before_sentinel descriptor LIST).find?
            (fun r => decide ((descriptor r).asn1 = some oid)) := by
  intro LIST
  induction LIST with
  | nil => simp [FN_OID_TYPED_FROM_ASN1, before_sentinel]
  | cons p LIST ih =>
    unfold before_sentinel at ih ⊢
    cases h : (descriptor p).asn1 with
    | none => simp [FN_OID_TYPED_FROM_ASN1, List.takeWhile, h]
    | some a =>
      simp only [FN_OID_TYPED_FROM_ASN1, h, mbedtls_oid_descriptor_t.asn1_len,
        List.takeWhile, Option.isSome_some, List.find?_cons, Option.some.injEq]
      by_cases hao : a = oid
      · subst hao
        simp [memcmp]
      · have hne : ¬ (a.length = oid.length ∧ memcmp a oid oid.length = 0) := by
          rintro ⟨hl, hm⟩
          exact hao ((memcmp_eq_zero hl).mp hm)
        simp only [hne, if_false, hao, decide_False]
        exact ih

theorem by_attr1_eq_find {T A : Type} [DecidableEq A]
    (descriptor : T → mbedtls_oid_descriptor_t) (ATTR1 : T → A) (attr1 : A) :
    ∀ LIST : List T,
      FN_OID_GET_OID_BY_ATTR1 descriptor ATTR1 LIST attr1
        = match (before_sentinel descriptor LIST).find? (fun r => decide (ATTR1 r = attr1)) with
          | none => (MBEDTLS_ERR_OID_NOT_FOUND, none)
          | some r => (0, (descriptor r).asn1.map (fun a => (a, (descriptor r).asn1_len))) := by
  intro LIST
  induction LIST with
  | nil => simp [FN_OID_GET_OID_BY_ATTR1, before_sentinel]
  | cons p LIST ih =>
    unfold before_sentinel at ih ⊢
    cases h : (descriptor p).asn1 with
    | none => simp [FN_OID_GET_OID_BY_ATTR1, List.takeWhile, h]
    | some a =>
      simp only [FN_OID_GET_OID_BY_ATTR1, h, List.takeWhile, Option.isSome_some,
        List.find?_cons]
      by_cases hattr : ATTR1 p = attr1
      · simp [hattr, h]
      · simp only [hattr, if_false, decide_False]
        exact ih

theorem by_attr2_eq_find {T A B : Type} [DecidableEq A] [DecidableEq B]
    (descriptor : T → mbedtls_oid_descriptor_t) (ATTR1 : T → A) (ATTR2 : T → B)
    (attr1 : A) (attr2 : B) :
    ∀ LIST : List T,
      FN_OID_GET_OID_BY_ATTR2 descriptor ATTR1 ATTR2 LIST attr1 attr2
        = match (before_sentinel descriptor LIST).find?
              (fun r => decide (ATTR1 r = attr1 ∧ ATTR2 r = attr2)) with
          | none => (MBEDTLS_ERR_OID_NOT_FOUND, none)
          | some r => (0, (descriptor r).asn1.map (fun a => (a, (descriptor r).asn1_len))) := by
  intro LIST
  induction LIST with
  | nil => simp [FN_OID_GET_OID_BY_ATTR2, before_sentinel]
  | cons p LIST ih =>
    unfold before_sentinel at ih ⊢
    cases h : (descriptor p).asn1 with
    | none => simp [FN_OID_GET_OID_BY_ATTR2, List.takeWhile, h]
    | some a =>
      simp only [FN_OID_GET_OID_BY_ATTR2, h, List.takeWhile, Option.isSome_some,
        List.find?_cons]
      by_cases hattr : ATTR1 p = attr1 ∧ ATTR2 p = attr2
      · simp [hattr, h]
      · simp only [hattr, if_false, decide_False]
        exact ih

theorem not_found_ne_zero : MBEDTLS_ERR_OID_NOT_FOUND ≠ 0 := by decide

theorem before_sentinel_asn1 {T : Type} (descriptor : T → mbedtls_oid_descriptor_t)
    (LIST : List T) (r : T) (h : r ∈ before_sentinel descriptor LIST) :
    ∃ a, (descriptor r).asn1 = some a := by
  have h1 := List.mem_takeWhile_imp h
  exact Option.isSome_iff_exists.mp h1

/-- C13: on every array and every query OID, the function generated by
`FN_OID_TYPED_FROM_ASN1` returns the first record, in the order of the array and in
front of the sentinel, whose `asn1_len` is the length of the query and whose `asn1`
bytes are the bytes of the query; it returns `NULL` exactly when there is no such
record in front of the sentinel, and always for a null query pointer. -/
theorem lookup_by_oid {T : Type} (descriptor : T → mbedtls_oid_descriptor_t)
    (LIST : List T) (oid : List Nat) :
    FN_OID_TYPED_FROM_ASN1 descriptor LIST (some oid)
        = (before_sentinel descriptor LIST).find?
            (fun r => decide ((descriptor r).asn1_len = oid.length ∧
              (descriptor r).asn1 = some oid)) ∧
      (FN_OID_TYPED_FROM_ASN1 descriptor LIST (some oid) = none ↔
        ∀ r ∈ before_sentinel descriptor LIST,
          ¬ ((descriptor r).asn1_len = oid.length ∧ (descriptor r).asn1 = some oid)) ∧
      FN_OID_TYPED_FROM_ASN1 descriptor LIST none = none := by
  have hp : (fun r : T => decide ((descriptor r).asn1_len = oid.length ∧
      (descriptor r).asn1 = some oid))
      = (fun r : T => decide ((descriptor r).asn1 = some oid)) := by
    funext r
    by_cases h : (descriptor r).asn1 = some oid
    · simp [h, mbedtls_oid_descriptor_t.asn1_len]
    · simp [h]
  have hfind := typed_from_asn1_eq_find descriptor oid LIST
  refine ⟨by rw [hp]; exact hfind, ?_, by cases LIST <;> rfl⟩
  rw [hfind, List.find?_eq_none]
  constructor
  · intro h r hr hm
    exact absurd (h r hr) (by simp [hm.2])
  · intro h r hr
    have := h r hr
    by_cases h' : (descriptor r).asn1 = some oid
    · exact absurd ⟨by simp [h', mbedtls_oid_descriptor_t.asn1_len], h'⟩ this
    · simp [h']

/-- C14, as stated, fails: on an array whose first record has an empty OID
(`OID_DESCRIPTOR` of an empty literal, `asn1` not null and `asn1_len = 0`), a query of
length 0 is matched: `oid_NAME_from_asn1` returns that record and the public getter
returns 0. -/
theorem empty_query_counterexample :
    FN_OID_TYPED_FROM_ASN1 oid_sig_alg_t.descriptor
        [⟨OID_DESCRIPTOR [] "empty" "empty", .MBEDTLS_MD_MD5, .MBEDTLS_PK_RSA⟩,
          ⟨NULL_OID_DESCRIPTOR, .MBEDTLS_MD_NONE, .MBEDTLS_PK_NONE⟩] (some [])
        = some ⟨OID_DESCRIPTOR [] "empty" "empty", .MBEDTLS_MD_MD5, .MBEDTLS_PK_RSA⟩ ∧
      FN_OID_GET_ATTR1 oid_sig_alg_t.descriptor
        [⟨OID_DESCRIPTOR [] "empty" "empty", .MBEDTLS_MD_MD5, .MBEDTLS_PK_RSA⟩,
          ⟨NULL_OID_DESCRIPTOR, .MBEDTLS_MD_NONE, .MBEDTLS_PK_NONE⟩]
        oid_sig_alg_t.md_alg (some [])
        = (0, some .MBEDTLS_MD_MD5) := by
  decide

/-- C14, as amended: on an array that starts with the sentinel record every query is
answered not-found, and on an array none of whose records in front of the sentinel
has an empty OID (`asn1_len = 0`) a query of length 0 is answered not-found: `NULL`
from `oid_NAME_from_asn1`, `MBEDTLS_ERR_OID_NOT_FOUND` from the public getter. -/
theorem empty_table_or_query_not_found {T A : Type}
    (descriptor : T → mbedtls_oid_descriptor_t) (ATTR1 : T → A) (LIST : List T)
    (hlen : ∀ r ∈ before_sentinel descriptor LIST, (descriptor r).asn1_len ≠ 0) :
    FN_OID_TYPED_FROM_ASN1 descriptor LIST (some []) = none ∧
      FN_OID_GET_ATTR1 descriptor LIST ATTR1 (some []) = (MBEDTLS_ERR_OID_NOT_FOUND, none) ∧
      ∀ (sentinel : T) (others : List T) (oid : Option (List Nat)),
        (descriptor sentinel).asn1 = none →
        FN_OID_TYPED_FROM_ASN1 descriptor (sentinel :: others) oid = none ∧
          FN_OID_GET_ATTR1 descriptor (sentinel :: others) ATTR1 oid
            = (MBEDTLS_ERR_OID_NOT_FOUND, none) := by
  have h1 : FN_OID_TYPED_FROM_ASN1 descriptor LIST (some []) = none := by
    rw [typed_from_asn1_eq_find, List.find?_eq_none]
    intro r hr
    have := hlen r hr
    by_cases h : (descriptor r).asn1 = some []
    · exact absurd (by simp [mbedtls_oid_descriptor_t.asn1_len, h]) this
    · simp [h]
  refine ⟨h1, by simp [FN_OID_GET_ATTR1, h1], ?_⟩
  intro sentinel others oid hs
  have h2 : FN_OID_TYPED_FROM_ASN1 descriptor (sentinel :: others) oid = none := by
    cases oid with
    | none => rfl
    | some q => simp [FN_OID_TYPED_FROM_ASN1, hs]
  exact ⟨h2, by simp [FN_OID_GET_ATTR1, h2]⟩

/-- Witness of C14 as amended, on `oid_sig_alg` with every symbol defined and the OID
bytes of the header. -/
theorem empty_table_or_query_not_found_witness :
    (∀ r ∈ before_sentinel oid_sig_alg_t.descriptor (oid_sig_alg all_enabled header_oids),
      r.descriptor.asn1_len ≠ 0) ∧
    FN_OID_TYPED_FROM_ASN1 oid_sig_alg_t.descriptor (oid_sig_alg all_enabled header_oids)
      (some []) = none :=
  ⟨by decide,
    (empty_table_or_query_not_found oid_sig_alg_t.descriptor oid_sig_alg_t.md_alg
      (oid_sig_alg all_enabled header_oids) (by decide)).1⟩

/-- C15: on every array and every queried value, the function generated by
`FN_OID_GET_OID_BY_ATTR1` returns 0 and stores the `asn1` bytes and the `asn1_len` of
the first record in front of the sentinel whose attribute equals the query, and the
function generated by `FN_OID_GET_OID_BY_ATTR2` does so for the first record whose two
attributes equal the two queried values; each returns `MBEDTLS_ERR_OID_NOT_FOUND`
exactly when no record in front of the sentinel matches. -/
theorem lookup_by_attribute {T A B : Type} [DecidableEq A] [DecidableEq B]
    (descriptor : T → mbedtls_oid_descriptor_t) (ATTR1 : T → A) (ATTR2 : T → B)
    (LIST : List T) (attr1 : A) (attr2 : B) :
    (FN_OID_GET_OID_BY_ATTR1 descriptor ATTR1 LIST attr1
        = match (before_sentinel descriptor LIST).find? (fun r => decide (ATTR1 r = attr1)) with
          | none => (MBEDTLS_ERR_OID_NOT_FOUND, none)
          | some r => (0, (descriptor r).asn1.map (fun a => (a, (descriptor r).asn1_len)))) ∧
      ((FN_OID_GET_OID_BY_ATTR1 descriptor ATTR1 LIST attr1).1 = MBEDTLS_ERR_OID_NOT_FOUND ↔
        ∀ r ∈ before_sentinel descriptor LIST, ATTR1 r ≠ attr1) ∧
      (FN_OID_GET_OID_BY_ATTR2 descriptor ATTR1 ATTR2 LIST attr1 attr2
        = match (before_sentinel descriptor LIST).find?
              (fun r => decide (ATTR1 r = attr1 ∧ ATTR2 r = attr2)) with
          | none => (MBEDTLS_ERR_OID_NOT_FOUND, none)
          | some r => (0, (descriptor r).asn1.map (fun a => (a, (descriptor r).asn1_len)))) ∧
      ((FN_OID_GET_OID_BY_ATTR2 descriptor ATTR1 ATTR2 LIST attr1 attr2).1
          = MBEDTLS_ERR_OID_NOT_FOUND ↔
        ∀ r ∈ before_sentinel descriptor LIST, ¬ (ATTR1 r = attr1 ∧ ATTR2 r = attr2)) ∧
      ∀ r ∈ before_sentinel descriptor LIST, ∃ a, (descriptor r).asn1 = some a := by
  have e1 := by_attr1_eq_find descriptor ATTR1 attr1 LIST
  have e2 := by_attr2_eq_find descriptor ATTR1 ATTR2 attr1 attr2 LIST
  refine ⟨e1, ?_, e2, ?_, before_sentinel_asn1 descriptor LIST⟩
  · rw [e1]
    cases hf : (before_sentinel descriptor LIST).find? (fun r => decide (ATTR1 r = attr1)) with
    | none =>
      simp only [true_iff]
      intro r hr
      have := List.find?_eq_none.mp hf r hr
      simpa using this
    | some r =>
      have hr := List.find?_some hf
      have hm := List.mem_of_find?_eq_some hf
      simp only [decide_eq_true_eq] at hr
      constructor
      · intro h
        exact absurd h.symm not_found_ne_zero
      · intro h
        exact absurd hr (h r hm)
  · rw [e2]
    cases hf : (before_sentinel descriptor LIST).find?
        (fun r => decide (ATTR1 r = attr1 ∧ ATTR2 r = attr2)) with
    | none =>
      simp only [true_iff]
      intro r hr
      have := List.find?_eq_none.mp hf r hr
      simpa using this
    | some r =>
      have hr := List.find?_some hf
      have hm := List.mem_of_find?_eq_some hf
      simp only [decide_eq_true_eq] at hr
      constructor
      · intro h
        exact absurd h.symm not_found_ne_zero
      · intro h
        exact absurd hr (h r hm)

/-- C16, as stated, fails: on an array in which two records have the same OID and
different attributes, the by-attribute lookup for the attributes of the second record
succeeds and returns that OID, and the by-OID lookup with it returns the first
record, whose attributes are not the queried ones. -/
theorem attribute_round_trip_counterexample :
    FN_OID_GET_OID_BY_ATTR2 oid_sig_alg_t.descriptor oid_sig_alg_t.pk_alg
        oid_sig_alg_t.md_alg
        [⟨OID_DESCRIPTOR [0x2A] "first" "first", .MBEDTLS_MD_MD5, .MBEDTLS_PK_RSA⟩,
          ⟨OID_DESCRIPTOR [0x2A] "second" "second", .MBEDTLS_MD_SHA1, .MBEDTLS_PK_RSA⟩,
          ⟨NULL_OID_DESCRIPTOR, .MBEDTLS_MD_NONE, .MBEDTLS_PK_NONE⟩]
        .MBEDTLS_PK_RSA .MBEDTLS_MD_SHA1
        = (0, some ([0x2A], 1)) ∧
      FN_OID_GET_ATTR2 oid_sig_alg_t.descriptor
        [⟨OID_DESCRIPTOR [0x2A] "first" "first", .MBEDTLS_MD_MD5, .MBEDTLS_PK_RSA⟩,
          ⟨OID_DESCRIPTOR [0x2A] "second" "second", .MBEDTLS_MD_SHA1, .MBEDTLS_PK_RSA⟩,
          ⟨NULL_OID_DESCRIPTOR, .MBEDTLS_MD_NONE, .MBEDTLS_PK_NONE⟩]
        oid_sig_alg_t.md_alg oid_sig_alg_t.pk_alg (some ([0x2A].take 1))
        = (0, some (.MBEDTLS_MD_MD5, .MBEDTLS_PK_RSA)) := by
  decide

theorem find_by_oid_unique {T : Type} (descriptor : T → mbedtls_oid_descriptor_t)
    (LIST : List T)
    (huniq : ∀ r1 ∈ before_sentinel descriptor LIST, ∀ r2 ∈ before_sentinel descriptor LIST,
      (descriptor r1).asn1 = (descriptor r2).asn1 → r1 = r2)
    (r : T) (hr : r ∈ before_sentinel descriptor LIST) (o : List Nat)
    (ho : (descriptor r).asn1 = some o) :
    FN_OID_TYPED_FROM_ASN1 descriptor LIST (some (o.take (descriptor r).asn1_len)) = some r := by
  have hlen : o.take (descriptor r).asn1_len = o := by
    simp [mbedtls_oid_descriptor_t.asn1_len, ho]
  rw [hlen, typed_from_asn1_eq_find]
  cases hf : (before_sentinel descriptor LIST).find?
      (fun x => decide ((descriptor x).asn1 = some o)) with
  | none =>
    have := List.find?_eq_none.mp hf r hr
    simp [ho] at this
  | some x =>
    have hx := List.find?_some hf
    have hm := List.mem_of_find?_eq_some hf
    simp only [decide_eq_true_eq] at hx
    rw [huniq x hm r hr (by rw [hx, ho])]

/-- C16, as amended: on every array whose records in front of the sentinel have
pairwise different OIDs, whenever a by-attribute lookup (one or two attributes)
succeeds and returns the OID `o` with the length `olen`, the by-OID lookup on the same
array with these `olen` bytes succeeds and returns a record with that OID and the
queried attribute(s), so that the public getter returns 0 and reports the queried
attribute(s). -/
theorem attribute_round_trip {T A B : Type} [DecidableEq A] [DecidableEq B]
    (descriptor : T → mbedtls_oid_descriptor_t) (ATTR1 : T → A) (ATTR2 : T → B)
    (LIST : List T)
    (huniq : ∀ r1 ∈ before_sentinel descriptor LIST, ∀ r2 ∈ before_sentinel descriptor LIST,
      (descriptor r1).asn1 = (descriptor r2).asn1 → r1 = r2) :
    (∀ (attr1 : A) (o : List Nat) (olen : Nat),
        FN_OID_GET_OID_BY_ATTR1 descriptor ATTR1 LIST attr1 = (0, some (o, olen)) →
        (∃ r, FN_OID_TYPED_FROM_ASN1 descriptor LIST (some (o.take olen)) = some r ∧
          (descriptor r).asn1 = some o ∧ ATTR1 r = attr1) ∧
        FN_OID_GET_ATTR1 descriptor LIST ATTR1 (some (o.take olen)) = (0, some attr1)) ∧
      (∀ (attr1 : A) (attr2 : B) (o : List Nat) (olen : Nat),
        FN_OID_GET_OID_BY_ATTR2 descriptor ATTR1 ATTR2 LIST attr1 attr2
          = (0, some (o, olen)) →
        (∃ r, FN_OID_TYPED_FROM_ASN1 descriptor LIST (some (o.take olen)) = some r ∧
          (descriptor r).asn1 = some o ∧ ATTR1 r = attr1 ∧ ATTR2 r = attr2) ∧
        FN_OID_GET_ATTR2 descriptor LIST ATTR1 ATTR2 (some (o.take olen))
          = (0, some (attr1, attr2))) := by
  constructor
  · intro attr1 o olen h
    rw [by_attr1_eq_find] at h
    cases hf : (before_sentinel descriptor LIST).find? (fun r => decide (ATTR1 r = attr1)) with
    | none =>
      rw [hf] at h
      simp only [Prod.mk.injEq] at h
      exact absurd h.1 not_found_ne_zero
    | some r =>
      rw [hf] at h
      have hr := List.find?_some hf
      have hm := List.mem_of_find?_eq_some hf
      simp only [decide_eq_true_eq] at hr
      obtain ⟨a, ha⟩ := before_sentinel_asn1 descriptor LIST r hm
      simp only [ha, Option.map_some', Prod.mk.injEq, Option.some.injEq, true_and] at h
      obtain ⟨h1, h2⟩ := h
      subst h1
      subst h2
      have hfound := find_by_oid_unique descriptor LIST huniq r hm a ha
      exact ⟨⟨r, hfound, ha, hr⟩, by simp [FN_OID_GET_ATTR1, hfound, hr]⟩
  · intro attr1 attr2 o olen h
    rw [by_attr2_eq_find] at h
    cases hf : (before_sentinel descriptor LIST).find?
        (fun r => decide (ATTR1 r = attr1 ∧ ATTR2 r = attr2)) with
    | none =>
      rw [hf] at h
      simp only [Prod.mk.injEq] at h
      exact absurd h.1 not_found_ne_zero
    | some r =>
      rw [hf] at h
      have hr := List.find?_some hf
      have hm := List.mem_of_find?_eq_some hf
      simp only [decide_eq_true_eq] at hr
      obtain ⟨a, ha⟩ := before_sentinel_asn1 descriptor LIST r hm
      simp only [ha, Option.map_some', Prod.mk.injEq, Option.some.injEq, true_and] at h
      obtain ⟨h1, h2⟩ := h
      subst h1
      subst h2
      have hfound := find_by_oid_unique descriptor LIST huniq r hm a ha
      exact ⟨⟨r, hfound, ha, hr.1, hr.2⟩, by simp [FN_OID_GET_ATTR2, hfound, hr.1, hr.2]⟩

/-- Witness of C16 as amended, on `oid_sig_alg` with every symbol defined and the OID
bytes of the header: `mbedtls_oid_get_oid_by_sig_alg` for RSA with SHA-256 followed by
`mbedtls_oid_get_sig_alg`. -/
theorem attribute_round_trip_witness :
    mbedtls_oid_get_oid_by_sig_alg all_enabled header_oids .MBEDTLS_PK_RSA .MBEDTLS_MD_SHA256
      = (0, some ([0x2A, 0x86, 0x48, 0x86, 0xF7, 0x0D, 0x01, 0x01, 0x0B], 9)) ∧
    mbedtls_oid_get_sig_alg all_enabled header_oids
        (some ([0x2A, 0x86, 0x48, 0x86, 0xF7, 0x0D, 0x01, 0x01, 0x0B].take 9))
      = (0, some (.MBEDTLS_MD_SHA256, .MBEDTLS_PK_RSA)) :=
  ⟨by decide,
    ((attribute_round_trip oid_sig_alg_t.descriptor oid_sig_alg_t.md_alg
        oid_sig_alg_t.pk_alg (oid_sig_alg all_enabled header_oids) (by decide)).2
      .MBEDTLS_MD_SHA256 .MBEDTLS_PK_RSA
      [0x2A, 0x86, 0x48, 0x86, 0xF7, 0x0D, 0x01, 0x01, 0x0B] 9 (by decide)).2⟩

/-! ## The array `oid_sig_alg` -/

theorem guarded_nil (c : Bool) : guarded c [] = [] := by
  cases c <;> rfl

theorem guarded_sublist (c : Bool) {l l' : List oid_sig_alg_t} (h : List.Sublist l l') :
    List.Sublist (guarded c l) l' := by
  cases c
  · exact List.nil_sublist _
  · exact h

theorem filter_guarded (p : oid_sig_alg_t → Bool) (c : Bool) (l : List oid_sig_alg_t) :
    (guarded c l).filter p = guarded c (l.filter p) := by
  cases c <;> rfl

theorem sig_alg_records_sublist (cfg : sig_alg_config) (o : sig_alg_oids) :
    List.Sublist (oid_sig_alg_records cfg o) (oid_sig_alg_records all_enabled o) := by
  have ht : ∀ l : List oid_sig_alg_t, guarded true l = l := fun _ => rfl
  unfold oid_sig_alg_records
  simp only [all_enabled, ht]
  repeat first
    | exact List.Sublist.refl _
    | apply guarded_sublist
    | apply List.Sublist.append

theorem sig_alg_records_asn1 (cfg : sig_alg_config) (o : sig_alg_oids) :
    ∀ r ∈ oid_sig_alg_records cfg o, r.descriptor.asn1.isSome = true := by
  intro r hr
  have h := (sig_alg_records_sublist cfg o).subset hr
  have ht : ∀ l : List oid_sig_alg_t, guarded true l = l := fun _ => rfl
  simp only [oid_sig_alg_records, all_enabled, ht, List.mem_append, List.mem_singleton,
    List.mem_cons, List.not_mem_nil, or_false] at h
  rcases h with ((((((((h | h) | h) | h) | h) | h) | h) | ((((h | h) | h) | h) | h)) | h) <;>
    subst h <;> rfl

theorem before_sentinel_sig_alg (cfg : sig_alg_config) (o : sig_alg_oids) :
    before_sentinel oid_sig_alg_t.descriptor (oid_sig_alg cfg o) = oid_sig_alg_records cfg o := by
  unfold before_sentinel oid_sig_alg
  rw [List.takeWhile_append_of_pos (sig_alg_records_asn1 cfg o)]
  simp [List.takeWhile, NULL_OID_DESCRIPTOR]

theorem sig_alg_rsa_sha1_records (cfg : sig_alg_config) (o : sig_alg_oids)
    (hrsa : cfg.MBEDTLS_RSA_C = true) (hsha : cfg.HAS_ALG_SHA_1 = true) :
    (oid_sig_alg_records cfg o).filter
        (fun r => decide (r.pk_alg = .MBEDTLS_PK_RSA ∧ r.md_alg = .MBEDTLS_MD_SHA1))
      = [⟨OID_DESCRIPTOR o.MBEDTLS_OID_PKCS1_SHA1 "sha-1WithRSAEncryption" "RSA with SHA1",
            .MBEDTLS_MD_SHA1, .MBEDTLS_PK_RSA⟩,
          ⟨OID_DESCRIPTOR o.MBEDTLS_OID_RSA_SHA_OBS "sha-1WithRSAEncryption" "RSA with SHA1",
            .MBEDTLS_MD_SHA1, .MBEDTLS_PK_RSA⟩] := by
  have ht : ∀ l : List oid_sig_alg_t, guarded true l = l := fun _ => rfl
  unfold oid_sig_alg_records
  rw [hrsa, hsha]
  simp [List.filter_append, filter_guarded, List.filter, guarded_nil, ht]

theorem sig_alg_other_pairs (o : sig_alg_oids) (pk : mbedtls_pk_type_t)
    (md : mbedtls_md_type_t) (h : ¬ (pk = .MBEDTLS_PK_RSA ∧ md = .MBEDTLS_MD_SHA1)) :
    ((oid_sig_alg_records all_enabled o).filter
      (fun r => decide (r.pk_alg = pk ∧ r.md_alg = md))).length ≤ 1 := by
  have ht : ∀ l : List oid_sig_alg_t, guarded true l = l := fun _ => rfl
  unfold oid_sig_alg_records
  simp only [all_enabled, ht]
  cases pk <;> cases md <;> simp [List.filter] at h ⊢

/-- C17, as stated, fails: in `oid_sig_alg` with every symbol defined, two records in
front of the sentinel have the attribute pair `(MBEDTLS_PK_RSA, MBEDTLS_MD_SHA1)`, the
key of `mbedtls_oid_get_oid_by_sig_alg`: the one of `MBEDTLS_OID_PKCS1_SHA1` and the
one of `MBEDTLS_OID_RSA_SHA_OBS`. -/
theorem sig_alg_key_counterexample :
    ((before_sentinel oid_sig_alg_t.descriptor (oid_sig_alg all_enabled header_oids)).filter
        (fun r => decide (r.pk_alg = .MBEDTLS_PK_RSA ∧ r.md_alg = .MBEDTLS_MD_SHA1))).map
        (fun r => r.descriptor.asn1)
      = [some header_oids.MBEDTLS_OID_PKCS1_SHA1, some header_oids.MBEDTLS_OID_RSA_SHA_OBS] := by
  rw [before_sentinel_sig_alg, sig_alg_rsa_sha1_records all_enabled header_oids rfl rfl]
  rfl

/-- C17, as amended: in `oid_sig_alg`, with RSA and SHA-1 enabled and whatever the
other symbols and the OID bytes, exactly two records in front of the sentinel have
the attribute pair `(MBEDTLS_PK_RSA, MBEDTLS_MD_SHA1)`, the record of
`MBEDTLS_OID_PKCS1_SHA1` and then the record of `MBEDTLS_OID_RSA_SHA_OBS`, and
`mbedtls_oid_get_oid_by_sig_alg` returns the OID of the first of them; every other
attribute pair is the pair of at most one record in front of the sentinel. -/
theorem sig_alg_key_records (cfg : sig_alg_config) (o : sig_alg_oids)
    (hrsa : cfg.MBEDTLS_RSA_C = true) (hsha : cfg.HAS_ALG_SHA_1 = true) :
    (before_sentinel oid_sig_alg_t.descriptor (oid_sig_alg cfg o)).filter
        (fun r => decide (r.pk_alg = .MBEDTLS_PK_RSA ∧ r.md_alg = .MBEDTLS_MD_SHA1))
      = [⟨OID_DESCRIPTOR o.MBEDTLS_OID_PKCS1_SHA1 "sha-1WithRSAEncryption" "RSA with SHA1",
            .MBEDTLS_MD_SHA1, .MBEDTLS_PK_RSA⟩,
          ⟨OID_DESCRIPTOR o.MBEDTLS_OID_RSA_SHA_OBS "sha-1WithRSAEncryption" "RSA with SHA1",
            .MBEDTLS_MD_SHA1, .MBEDTLS_PK_RSA⟩] ∧
      mbedtls_oid_get_oid_by_sig_alg cfg o .MBEDTLS_PK_RSA .MBEDTLS_MD_SHA1
        = (0, some (o.MBEDTLS_OID_PKCS1_SHA1, o.MBEDTLS_OID_PKCS1_SHA1.length)) ∧
      ∀ (pk : mbedtls_pk_type_t) (md : mbedtls_md_type_t),
        ¬ (pk = .MBEDTLS_PK_RSA ∧ md = .MBEDTLS_MD_SHA1) →
        ((before_sentinel oid_sig_alg_t.descriptor (oid_sig_alg cfg o)).filter
          (fun r => decide (r.pk_alg = pk ∧ r.md_alg = md))).length ≤ 1 := by
  have hf := sig_alg_rsa_sha1_records cfg o hrsa hsha
  rw [before_sentinel_sig_alg]
  refine ⟨hf, ?_, ?_⟩
  · unfold mbedtls_oid_get_oid_by_sig_alg
    rw [by_attr2_eq_find, before_sentinel_sig_alg, ← List.filter_head?, hf]
    rfl
  · intro pk md h
    exact le_trans ((sig_alg_records_sublist cfg o).filter _).length_le
      (sig_alg_other_pairs o pk md h)

/-- Witness of C17 as amended, with every symbol defined and the OID bytes of the
header. -/
theorem sig_alg_key_records_witness :
    all_enabled.MBEDTLS_RSA_C = true ∧ all_enabled.HAS_ALG_SHA_1 = true ∧
    mbedtls_oid_get_oid_by_sig_alg all_enabled header_oids .MBEDTLS_PK_RSA .MBEDTLS_MD_SHA1
      = (0, some (header_oids.MBEDTLS_OID_PKCS1_SHA1,
          header_oids.MBEDTLS_OID_PKCS1_SHA1.length)) :=
  ⟨rfl, rfl, (sig_alg_key_records all_enabled header_oids rfl rfl).2.1⟩

/-! ## Decoding with a buffer of size 0 -/

theorem first_subidentifier_error :
    ∀ (oid : List Nat) (value : Nat) (e : Int), first_subidentifier value oid = .error e →
      e = MBEDTLS_ERR_ASN1_INVALID_DATA ∨ e = MBEDTLS_ERR_ASN1_OUT_OF_DATA := by
  intro oid
  induction oid with
  | nil =>
    intro value e h
    simp only [first_subidentifier, Except.error.injEq] at h
    exact Or.inr h.symm
  | cons b bs ih =>
    intro value e h
    simp only [first_subidentifier] at h
    split at h
    · split at h
      · simp only [Except.error.injEq] at h
        exact Or.inl h.symm
      · exact ih _ _ h
    · simp at h

/-- C12, as stated, fails: with a buffer of size 0, the input `80` is answered
`MBEDTLS_ERR_ASN1_INVALID_DATA` and the input `81` (an unterminated first
subidentifier) `MBEDTLS_ERR_ASN1_OUT_OF_DATA`, not `MBEDTLS_ERR_OID_BUF_TOO_SMALL`. -/
theorem zero_size_counterexample :
    mbedtls_oid_get_numeric_string 0 [0x80] = ⟨MBEDTLS_ERR_ASN1_INVALID_DATA, none⟩ ∧
      mbedtls_oid_get_numeric_string 0 [0x81] = ⟨MBEDTLS_ERR_ASN1_OUT_OF_DATA, none⟩ := by
  decide

/-- C12, as amended: with a buffer of size 0, `mbedtls_oid_get_numeric_string` stores
nothing to the buffer and returns an error on every non-empty input: the error is
`MBEDTLS_ERR_OID_BUF_TOO_SMALL` whenever the input starts with a well-formed first
subidentifier (the minimal encoding of a value below `2 ^ 32`), and otherwise it is
that code, `MBEDTLS_ERR_ASN1_INVALID_DATA` or `MBEDTLS_ERR_ASN1_OUT_OF_DATA`. The empty
input is left out: on it the code reads `oid->p[0]` outside the buffer. -/
theorem zero_size_buffer (oid : List Nat) (hne : oid ≠ []) :
    (mbedtls_oid_get_numeric_string 0 oid).buf = none ∧
      ((mbedtls_oid_get_numeric_string 0 oid).ret = MBEDTLS_ERR_OID_BUF_TOO_SMALL ∨
        (mbedtls_oid_get_numeric_string 0 oid).ret = MBEDTLS_ERR_ASN1_INVALID_DATA ∨
        (mbedtls_oid_get_numeric_string 0 oid).ret = MBEDTLS_ERR_ASN1_OUT_OF_DATA) ∧
      ∀ (v : Nat) (rest : List Nat), v < 2 ^ 32 → oid = base128 v ++ rest →
        (mbedtls_oid_get_numeric_string 0 oid).ret = MBEDTLS_ERR_OID_BUF_TOO_SMALL := by
  refine ⟨?_, ?_, ?_⟩
  · cases oid with
    | nil => exact absurd rfl hne
    | cons b bs =>
      unfold mbedtls_oid_get_numeric_string
      split
      · rfl
      · split
        · rfl
        · simp [mbedtls_snprintf]
  · unfold mbedtls_oid_get_numeric_string
    split
    · exact Or.inr (Or.inl rfl)
    · split
      · rename_i e he
        rcases first_subidentifier_error _ _ _ he with h | h
        · exact Or.inr (Or.inl h)
        · exact Or.inr (Or.inr h)
      · simp
  · intro v rest hv ho
    subst ho
    unfold mbedtls_oid_get_numeric_string
    simp only [base128_head, if_false, first_subidentifier_base128 v rest hv, ge_iff_le,
      Nat.zero_le, if_true]

/-- Witness of C12 as amended, on the non-empty inputs `2A` (a well-formed first
subidentifier) and `81` (an unterminated one), with a buffer of size 0. -/
theorem zero_size_buffer_witness :
    ([0x2A] : List Nat) ≠ [] ∧
    (mbedtls_oid_get_numeric_string 0 [0x2A]).buf = none ∧
    (mbedtls_oid_get_numeric_string 0 [0x2A]).ret = MBEDTLS_ERR_OID_BUF_TOO_SMALL ∧
    (mbedtls_oid_get_numeric_string 0 [0x81]).buf = none :=
  ⟨by decide, (zero_size_buffer [0x2A] (by decide)).1, by decide,
    (zero_size_buffer [0x81] (by decide)).1⟩

/-! ## Later subidentifiers that the decoder rejects -/

theorem uint_max_shift : UINT_MAX >>> 7 = 33554431 := by decide

theorem later_subidentifiers_rejected (size : Nat) (cont : List Nat)
    (hcont : ∀ (out : List Char) (n : Nat),
      (later_subidentifiers size 0 out n cont).ret = MBEDTLS_ERR_ASN1_INVALID_DATA) :
    ∀ (pre : List Nat) (value : Nat) (out : List Char) (n : Nat),
      (pre = [] → value = 0) → (∀ last ∈ pre.getLast?, last &&& 0x80 = 0) →
      (later_subidentifiers size value out n pre).ret ≠ MBEDTLS_ERR_OID_BUF_TOO_SMALL →
      (later_subidentifiers size value out n (pre ++ cont)).ret
        = MBEDTLS_ERR_ASN1_INVALID_DATA := by
  intro pre
  induction pre with
  | nil =>
    intro value out n hv _ _
    rw [hv rfl]
    exact hcont out n
  | cons b pre ih =>
    intro value out n _ hlast hbuf
    have hlast' : pre ≠ [] → ∀ last ∈ pre.getLast?, last &&& 0x80 = 0 := by
      intro hne
      cases pre with
      | nil => exact absurd rfl hne
      | cons c cs => simpa using hlast
    have hlast'' : ∀ last ∈ pre.getLast?, last &&& 0x80 = 0 := by
      by_cases hne : pre = []
      · subst hne; simp
      · exact hlast' hne
    revert hbuf
    simp only [List.cons_append, later_subidentifiers]
    by_cases g1 : value > UINT_MAX >>> 7
    · simp [g1]
    · by_cases g2 : value = 0 ∧ b = 0x80
      · simp [g1, g2]
      · simp only [g1, g2, if_false]
        by_cases hb : b &&& 0x80 = 0
        · simp only [hb, if_true]
          split
          · intro hbuf
            exact absurd rfl hbuf
          · intro hbuf
            exact ih 0 _ _ (fun _ => rfl) hlast'' hbuf
        · simp only [hb, if_false]
          intro hbuf
          refine ih _ _ _ ?_ hlast'' hbuf
          intro hnil
          subst hnil
          exact absurd (hlast b (by simp)) hb

theorem later_subidentifiers_overlong (size : Nat) (tail : List Nat) (out : List Char)
    (n : Nat) :
    (later_subidentifiers size 0 out n (0x80 :: tail)).ret = MBEDTLS_ERR_ASN1_INVALID_DATA := by
  simp [later_subidentifiers, uint_max_shift]

theorem later_subidentifiers_overflow (size lo : Nat) (rest : List Nat) (hlo : lo < 128) :
    ∀ (ds : List Nat) (acc : Nat) (out : List Char) (n : Nat), (∀ d ∈ ds, d < 128) →
      2 ^ 32 ≤ ds.foldl (fun a d => a * 128 + d) acc * 128 + lo →
      (later_subidentifiers size acc out n (ds.map (· + 128) ++ lo :: rest)).ret
        = MBEDTLS_ERR_ASN1_INVALID_DATA := by
  intro ds
  induction ds with
  | nil =>
    intro acc out n _ hbig
    simp only [List.foldl_nil] at hbig
    have g1 : acc > UINT_MAX >>> 7 := by rw [uint_max_shift]; omega
    simp [later_subidentifiers, g1]
  | cons d ds ih =>
    intro acc out n hds hbig
    have hd : d < 128 := hds d (List.mem_cons_self _ _)
    simp only [List.foldl_cons] at hbig
    simp only [List.map_cons, List.cons_append, later_subidentifiers]
    by_cases g1 : acc > UINT_MAX >>> 7
    · simp [g1]
    · by_cases g2 : acc = 0 ∧ d + 128 = 0x80
      · simp [g1, g2]
      · simp only [g1, g2, if_false]
        rw [uint_max_shift] at g1
        have h3 : ((acc <<< 7) % 2 ^ 32) ||| ((d + 128) &&& 0x7F) = acc * 128 + d := by
          rw [and_7f_eq_mod, Nat.shiftLeft_eq, Nat.mod_eq_of_lt (by omega)]
          have : (d + 128) % 128 = d := by omega
          rw [this]
          exact mul128_or hd
        rw [h3, and_80_of_add hd]
        simp only [show (128 : Nat) ≠ 0 by decide, if_false]
        exact ih _ _ _ (fun x hx => hds x (List.mem_cons_of_mem _ hx)) hbig

theorem first_subidentifier_overflow (lo : Nat) (rest : List Nat) (hlo : lo < 128) :
    ∀ (ds : List Nat) (acc : Nat), acc < 2 ^ 25 → (∀ d ∈ ds, d < 128) →
      2 ^ 32 ≤ ds.foldl (fun a d => a * 128 + d) acc * 128 + lo →
      first_subidentifier (acc * 128) (ds.map (· + 128) ++ lo :: rest)
        = .error MBEDTLS_ERR_ASN1_INVALID_DATA := by
  intro ds
  induction ds with
  | nil =>
    intro acc hacc _ hbig
    simp only [List.foldl_nil] at hbig
    omega
  | cons d ds ih =>
    intro acc hacc hds hbig
    have hd : d < 128 := hds d (List.mem_cons_self _ _)
    simp only [List.foldl_cons] at hbig
    simp only [List.map_cons, List.cons_append, first_subidentifier]
    rw [and_80_of_add hd, and_7f_eq_mod]
    simp only [show (128 : Nat) ≠ 0 by decide, ne_eq, not_false_eq_true, if_true]
    by_cases g1 : acc * 128 > UINT_MAX >>> 7
    · simp [g1]
    · simp only [g1, if_false]
      rw [uint_max_shift] at g1
      have h1 : (d + 128) % 128 = d := by omega
      have h3 : ((acc * 128 ||| d) <<< 7) % 2 ^ 32 = (acc * 128 + d) * 128 := by
        rw [mul128_or hd, Nat.shiftLeft_eq]
        exact Nat.mod_eq_of_lt (by omega)
      rw [h1, h3]
      exact ih _ (by omega) (fun x hx => hds x (List.mem_cons_of_mem _ hx)) hbig

theorem get_numeric_string_rejected (size v : Nat) (pre cont : List Nat) (hv : v < 2 ^ 32)
    (hcont : ∀ (out : List Char) (n : Nat),
      (later_subidentifiers size 0 out n cont).ret = MBEDTLS_ERR_ASN1_INVALID_DATA)
    (hlast : ∀ last ∈ pre.getLast?, last &&& 0x80 = 0)
    (hbuf : (mbedtls_oid_get_numeric_string size (base128 v ++ pre)).ret
      ≠ MBEDTLS_ERR_OID_BUF_TOO_SMALL) :
    (mbedtls_oid_get_numeric_string size (base128 v ++ (pre ++ cont))).ret
      = MBEDTLS_ERR_ASN1_INVALID_DATA := by
  have hc1 : (if v / 40 > 2 then 2 else v / 40) = first_component v := by
    unfold first_component; split <;> omega
  revert hbuf
  unfold mbedtls_oid_get_numeric_string
  simp only [base128_head, if_false, first_subidentifier_base128 _ _ hv, hc1]
  by_cases hs : (fmt_u (first_component v) ++
      '.' :: fmt_u ((v + 2 ^ 32 - 40 * first_component v) % 2 ^ 32)).length ≥ size
  · simp only [hs, if_true]
    intro hbuf
    exact absurd rfl hbuf
  · simp only [hs, if_false]
    intro hbuf
    exact later_subidentifiers_rejected size cont hcont pre 0 _ _ (fun _ => rfl) hlast hbuf

/-- C18: on every binary OID that starts with a well-formed first subidentifier (the
minimal encoding of `v < 2 ^ 32`), continues with complete later subidentifiers `pre`
(empty, or ending in a byte with the continuation bit clear) and then has a
subidentifier that begins with the byte `0x80`, `mbedtls_oid_get_numeric_string`, with
a buffer large enough for the output of what precedes (decoding `v` and `pre` alone
does not return `MBEDTLS_ERR_OID_BUF_TOO_SMALL`), returns
`MBEDTLS_ERR_ASN1_INVALID_DATA`. A byte `0x80` that is not the first byte of its
subidentifier is not rejected: `2A 81 80 00` decodes to `1.2.16384`. -/
theorem mid_stream_overlong_rejected (size v : Nat) (pre tail : List Nat) (hv : v < 2 ^ 32)
    (hlast : ∀ last ∈ pre.getLast?, last &&& 0x80 = 0)
    (hbuf : (mbedtls_oid_get_numeric_string size (base128 v ++ pre)).ret
      ≠ MBEDTLS_ERR_OID_BUF_TOO_SMALL) :
    (mbedtls_oid_get_numeric_string size (base128 v ++ (pre ++ 0x80 :: tail))).ret
        = MBEDTLS_ERR_ASN1_INVALID_DATA ∧
      mbedtls_oid_get_numeric_string 16 [0x2A, 0x81, 0x80, 0x00]
        = ⟨9, some "1.2.16384".toList⟩ :=
  ⟨get_numeric_string_rejected size v pre (0x80 :: tail) hv
    (later_subidentifiers_overlong size tail) hlast hbuf, by decide⟩

/-- Witness of C18 on the bytes `2A 03 80 01`: first subidentifier 42, then the
subidentifier 3, then a subidentifier that begins with `0x80`. -/
theorem mid_stream_overlong_rejected_witness :
    base128 42 ++ ([0x03] ++ 0x80 :: [0x01]) = [0x2A, 0x03, 0x80, 0x01] ∧
    (mbedtls_oid_get_numeric_string 16 [0x2A, 0x03, 0x80, 0x01]).ret
      = MBEDTLS_ERR_ASN1_INVALID_DATA := by
  have hb : base128 42 = [0x2A] := by norm_num [base128]
  have h := (mid_stream_overlong_rejected 16 42 [0x03] [0x01] (by decide) (by decide)
    (by rw [hb]; decide)).1
  rw [hb] at h
  exact ⟨by rw [hb]; rfl, h⟩

/-- C19, as stated, fails: on the bytes `2A 90 80 80 80 00`, whose later subidentifier
has the value `2 ^ 32`, with a buffer of size 2, `mbedtls_oid_get_numeric_string`
returns `MBEDTLS_ERR_OID_BUF_TOO_SMALL`, not `MBEDTLS_ERR_ASN1_INVALID_DATA`: the
output of the first subidentifier is written before the later one is read. -/
theorem overflow_guard_counterexample :
    subidentifier_bytes [0x10, 0, 0, 0] 0 = [0x90, 0x80, 0x80, 0x80, 0x00] ∧
    subidentifier_value [0x10, 0, 0, 0] 0 = 2 ^ 32 ∧
    mbedtls_oid_get_numeric_string 2 [0x2A, 0x90, 0x80, 0x80, 0x80, 0x00]
      = ⟨MBEDTLS_ERR_OID_BUF_TOO_SMALL, some ['1']⟩ := by
  decide

/-- C19, as amended: with a 32-bit `unsigned int`, a first subidentifier whose
base-128 value is at least `2 ^ 32` makes `mbedtls_oid_get_numeric_string` return
`MBEDTLS_ERR_ASN1_INVALID_DATA` whatever the buffer, and so does a later one that
follows a well-formed first subidentifier and complete later subidentifiers, when the
buffer is large enough for the output of what precedes it; for every minimally encoded
subidentifier with a value below `2 ^ 32` the guard does not fire and the value
accumulated is the value of the encoding, not reduced modulo `2 ^ 32`: the first loop
yields it and the later loop prints it. -/
theorem overflow_guard_exact (size v : Nat) (pre ds rest : List Nat) (lo : Nat)
    (hv : v < 2 ^ 32) (hlast : ∀ last ∈ pre.getLast?, last &&& 0x80 = 0)
    (hbuf : (mbedtls_oid_get_numeric_string size (base128 v ++ pre)).ret
      ≠ MBEDTLS_ERR_OID_BUF_TOO_SMALL)
    (hds : ∀ d ∈ ds, d < 128) (hlo : lo < 128)
    (hbig : 2 ^ 32 ≤ subidentifier_value ds lo) :
    (mbedtls_oid_get_numeric_string size
        (base128 v ++ (pre ++ (subidentifier_bytes ds lo ++ rest)))).ret
        = MBEDTLS_ERR_ASN1_INVALID_DATA ∧
      (∀ size0 : Nat,
        (mbedtls_oid_get_numeric_string size0 (subidentifier_bytes ds lo ++ rest)).ret
          = MBEDTLS_ERR_ASN1_INVALID_DATA) ∧
      (∀ (w : Nat) (bytes : List Nat), w < 2 ^ 32 →
        first_subidentifier 0 (base128 w ++ bytes) = .ok (w, bytes)) ∧
      (∀ (w : Nat) (bytes : List Nat) (out : List Char) (n : Nat), w < 2 ^ 32 →
        ('.' :: fmt_u w).length < n →
        later_subidentifiers size 0 out n (base128 w ++ bytes)
          = later_subidentifiers size 0 (out ++ '.' :: fmt_u w)
              (n - ('.' :: fmt_u w).length) bytes) := by
  have hbytes : subidentifier_bytes ds lo ++ rest = ds.map (· + 128) ++ lo :: rest := by
    simp [subidentifier_bytes]
  unfold subidentifier_value at hbig
  rw [hbytes]
  refine ⟨?_, ?_, fun w bytes hw => first_subidentifier_base128 w bytes hw,
    fun w bytes out n hw hn => later_subidentifiers_base128 size w bytes out n hw hn⟩
  · exact get_numeric_string_rejected size v pre _ hv
      (fun out n => later_subidentifiers_overflow size lo rest hlo ds 0 out n hds hbig)
      hlast hbuf
  · intro size0
    unfold mbedtls_oid_get_numeric_string
    split
    · rfl
    · have h := first_subidentifier_overflow lo rest hlo ds 0 (by norm_num) hds hbig
      simp only [Nat.zero_mul] at h
      rw [h]

/-- Witness of C19 as amended, on the bytes `2A 90 80 80 80 00` with a buffer of 16
characters. -/
theorem overflow_guard_exact_witness :
    2 ^ 32 ≤ subidentifier_value [0x10, 0, 0, 0] 0 ∧
    base128 42 ++ ([] ++ (subidentifier_bytes [0x10, 0, 0, 0] 0 ++ []))
      = [0x2A, 0x90, 0x80, 0x80, 0x80, 0x00] ∧
    (mbedtls_oid_get_numeric_string 16 [0x2A, 0x90, 0x80, 0x80, 0x80, 0x00]).ret
      = MBEDTLS_ERR_ASN1_INVALID_DATA := by
  have hb : base128 42 = [0x2A] := by norm_num [base128]
  have h := (overflow_guard_exact 16 42 [] [0x10, 0, 0, 0] [] 0 (by decide) (by decide)
    (by rw [hb]; decide) (by decide) (by decide) (by decide)).1
  rw [hb] at h
  exact ⟨by decide, by rw [hb]; rfl, h⟩

/-- C20: for every first-subidentifier value `v < 2 ^ 32`, alone in the input and with
a buffer larger than the output, the decoder writes `c1.c2` with `c1 = min (v / 40) 2`
and `c2 = v - 40 * c1`, which are the values of the expressions of the code; `c1` is
at most 2, `c2` is at most 39 whenever `c1 < 2`, `40 * c1 ≤ v` so that the subtraction
does not underflow, `40 * c1 + c2 = v`, and `v ≥ 80` is written as `2.` followed by
`v - 80`. -/
theorem first_subidentifier_split (size v : Nat) (hv : v < 2 ^ 32)
    (hsize : (fmt_u (min (v / 40) 2) ++ '.' :: fmt_u (v - 40 * min (v / 40) 2)).length
      < size) :
    (mbedtls_oid_get_numeric_string size (base128 v)).buf
        = some (fmt_u (min (v / 40) 2) ++ '.' :: fmt_u (v - 40 * min (v / 40) 2)) ∧
      (if v / 40 > 2 then 2 else v / 40) = min (v / 40) 2 ∧
      (v + 2 ^ 32 - 40 * min (v / 40) 2) % 2 ^ 32 = v - 40 * min (v / 40) 2 ∧
      min (v / 40) 2 ≤ 2 ∧
      (min (v / 40) 2 < 2 → v - 40 * min (v / 40) 2 ≤ 39) ∧
      40 * min (v / 40) 2 ≤ v ∧
      40 * min (v / 40) 2 + (v - 40 * min (v / 40) 2) = v ∧
      (80 ≤ v →
        (mbedtls_oid_get_numeric_string size (base128 v)).buf
          = some ('2' :: '.' :: fmt_u (v - 80))) := by
  have hd : dotted (first_component v) (second_component v) []
      = fmt_u (min (v / 40) 2) ++ '.' :: fmt_u (v - 40 * min (v / 40) 2) := by
    simp [dotted, dotted_tail, first_component, second_component]
  have h := get_numeric_string_encoding size v [] hv (by simp) (by rw [hd]; exact hsize)
  rw [hd] at h
  have he : encoding [v] = base128 v := by simp [encoding]
  rw [he] at h
  refine ⟨by rw [h], by split <;> omega, by omega, by omega, by omega, by omega, by omega, ?_⟩
  intro h80
  rw [h]
  have h2 : min (v / 40) 2 = 2 := by omega
  have hf : fmt_u 2 = ['2'] := by decide
  rw [h2, hf]
  rfl

/-- Witness of C20 on the value 1079, whose encoding is `88 37` and whose text is
`2.999`. -/
theorem first_subidentifier_split_witness :
    (1079 < 2 ^ 32) ∧ base128 1079 = [0x88, 0x37] ∧
    (mbedtls_oid_get_numeric_string 6 [0x88, 0x37]).buf = some "2.999".toList := by
  have hb : base128 1079 = [0x88, 0x37] := by norm_num [base128]
  have h := (first_subidentifier_split 6 1079 (by decide) (by decide)).2.2.2.2.2.2.2
    (by decide)
  rw [hb] at h
  exact ⟨by decide, hb, by rw [h]; decide⟩

/-! ## Encoding a text with leading zeros -/

theorem parse_loop_zeros (str : List Char) :
    ∀ (zeros : Nat) (ret : Int),
      oid_parse_number_loop ret 0 (List.replicate zeros '0' ++ str)
        = oid_parse_number_loop (if zeros = 0 then ret else 0) 0 str := by
  intro zeros
  induction zeros with
  | zero => intro ret; simp
  | succ zeros ih =>
    intro ret
    have h0 : Nat.digitChar 0 = '0' := by decide
    rw [List.replicate_succ, List.cons_append, ← h0,
      parse_loop_digit ret 0 0 _ (by decide) (by decide), h0, ih 0]
    simp

theorem parse_number_padded (zeros v : Nat) (str : List Char) (hv : v ≤ 2147483649)
    (hstr : no_leading_digit str) :
    oid_parse_number (zero_padded zeros v ++ str) = (0, v, str) := by
  unfold oid_parse_number zero_padded
  rw [List.append_assoc, parse_loop_zeros, parse_loop_fmt_u v _ _ (by omega),
    parse_loop_stop _ _ _ hstr]

theorem zero_padded_head (zeros v : Nat) :
    ∃ c cs, zero_padded zeros v = c :: cs ∧ is_digit c := by
  cases zeros with
  | zero =>
    obtain ⟨c, cs, hc, hd⟩ := fmt_u_head v
    exact ⟨c, cs, by simp [zero_padded, hc], hd⟩
  | succ zeros =>
    exact ⟨'0', List.replicate zeros '0' ++ fmt_u v, by simp [zero_padded, List.replicate_succ],
      by decide⟩

theorem fmt_u_le_padded (zeros v : Nat) : (fmt_u v).length ≤ (zero_padded zeros v).length := by
  simp [zero_padded]

theorem no_leading_digit_padded_tail (vs : List (Nat × Nat)) :
    no_leading_digit (padded_tail vs) := by
  cases vs with
  | nil => exact no_leading_digit_nil
  | cons v vs => exact no_leading_digit_dot _

theorem sizing_loop_padded :
    ∀ (vs : List (Nat × Nat)) (z v fuel encoded_len : Nat), v ≤ 2147483649 →
      (∀ x ∈ vs, x.2 ≤ 2147483649) → (zero_padded z v ++ padded_tail vs).length < fuel →
      encoded_len + (zero_padded z v ++ padded_tail vs).length < SIZE_MAX →
      ∃ n, sizing_loop fuel 0 encoded_len (zero_padded z v ++ padded_tail vs) = .ok n ∧
        later_components fuel (zero_padded z v ++ padded_tail vs) = v :: vs.map Prod.snd := by
  intro vs
  induction vs with
  | nil =>
    intro z v fuel el hv _ hf hsz
    obtain ⟨c, cs, hcs, hd⟩ := zero_padded_head z v
    have hc := is_digit_ne_nul hd
    have hp := parse_number_padded z v [] hv no_leading_digit_nil
    have hnb := le_trans (num_bytes_le_fmt_u v) (fmt_u_le_padded z v)
    simp only [padded_tail, List.append_nil] at hf hsz hp ⊢
    cases fuel with
    | zero => omega
    | succ fuel =>
      rw [hcs] at hp ⊢
      have hg : ¬ SIZE_MAX - el ≤ oid_subidentifier_num_bytes v := by
        rw [hcs] at hnb hsz; omega
      refine ⟨el + oid_subidentifier_num_bytes v, ?_, ?_⟩
      · simp only [sizing_loop, hc, if_false, hp, ne_eq, not_true_eq_false, skip_separator, hg]
        cases fuel <;> simp [sizing_loop]
      · simp only [later_components, hc, if_false, hp, skip_separator]
        cases fuel <;> simp [later_components]
  | cons w ws ih =>
    intro z v fuel el hv hvs hf hsz
    obtain ⟨zw, vw⟩ := w
    obtain ⟨c, cs, hcs, hd⟩ := zero_padded_head z v
    have hc := is_digit_ne_nul hd
    have hp := parse_number_padded z v (padded_tail ((zw, vw) :: ws)) hv
      (no_leading_digit_padded_tail _)
    have hnb := le_trans (num_bytes_le_fmt_u v) (fmt_u_le_padded z v)
    have hk : skip_separator (padded_tail ((zw, vw) :: ws))
        = some (zero_padded zw vw ++ padded_tail ws) := by
      have : '.' ≠ NUL := by decide
      simp [padded_tail, skip_separator, this]
    simp only [padded_tail, List.length_append, List.length_cons] at hf hsz
    cases fuel with
    | zero => omega
    | succ fuel =>
      have hg : ¬ SIZE_MAX - el ≤ oid_subidentifier_num_bytes v := by omega
      obtain ⟨n, hn, hl⟩ := ih zw vw fuel (el + oid_subidentifier_num_bytes v)
        (hvs (zw, vw) (List.mem_cons_self _ _)) (fun x hx => hvs x (List.mem_cons_of_mem _ hx))
        (by simp only [List.length_append]; omega)
        (by simp only [List.length_append]; omega)
      rw [hcs, List.cons_append] at hp ⊢
      refine ⟨n, ?_, ?_⟩
      · simp only [sizing_loop, hc, if_false, hp, ne_eq, not_true_eq_false, hk, hg, hn]
      · simp only [later_components, hc, if_false, hp, hk, hl, List.map_cons]

theorem from_numeric_string_padded (oid : mbedtls_asn1_buf) (z1 c1 z2 c2 : Nat)
    (rest : List (Nat × Nat)) (hc1 : c1 ≤ 2) (hc2 : c1 < 2 → c2 ≤ 39)
    (hc2r : c2 ≤ 2147483649) (hrest : ∀ x ∈ rest, x.2 ≤ 2147483649)
    (hlen : (padded z1 c1 z2 c2 rest).length ≤ SIZE_MAX) :
    mbedtls_oid_from_numeric_string oid (padded z1 c1 z2 c2 rest) true
      = (0, { tag := MBEDTLS_ASN1_OID,
              len := (encoding ((40 * c1 + c2) :: rest.map Prod.snd)).length,
              p := some (encoding ((40 * c1 + c2) :: rest.map Prod.snd)) }) := by
  have hd : padded z1 c1 z2 c2 rest
      = zero_padded z1 c1 ++ '.' :: (zero_padded z2 c2 ++ padded_tail rest) := by
    simp [padded]
  have hp1 : oid_parse_number (padded z1 c1 z2 c2 rest)
      = (0, c1, '.' :: (zero_padded z2 c2 ++ padded_tail rest)) := by
    rw [hd]; exact parse_number_padded z1 c1 _ (by omega) (no_leading_digit_dot _)
  have hp2 : oid_parse_number (zero_padded z2 c2 ++ padded_tail rest)
      = (0, c2, padded_tail rest) :=
    parse_number_padded z2 c2 _ hc2r (no_leading_digit_padded_tail _)
  have hw : c1 * 40 + c2 < UINT_MAX := by unfold UINT_MAX; omega
  have hl1 := lt_of_lt_of_le (fmt_u_length_pos c1) (fmt_u_le_padded z1 c1)
  have hnb := le_trans (num_bytes_first_le c1 c2 hc1)
    (Nat.add_le_add_right (fmt_u_le_padded z2 c2) 1)
  rw [hd] at hlen
  simp only [List.length_append, List.length_cons] at hlen
  have comps : ∃ s3 el, skip_separator (padded_tail rest) = some s3 ∧
      (padded_tail rest).drop 1 = s3 ∧
      sizing_loop (s3.length + 1) 0 (oid_subidentifier_num_bytes (c1 * 40 + c2)) s3 = .ok el ∧
      later_components (s3.length + 1) s3 = rest.map Prod.snd := by
    cases rest with
    | nil =>
      exact ⟨[], oid_subidentifier_num_bytes (c1 * 40 + c2),
        by simp [padded_tail, skip_separator], by simp [padded_tail],
        by simp [sizing_loop], by simp [later_components]⟩
    | cons w ws =>
      obtain ⟨zw, vw⟩ := w
      have hne : '.' ≠ NUL := by decide
      simp only [padded_tail, List.length_append, List.length_cons] at hlen
      obtain ⟨n, hn, hl⟩ := sizing_loop_padded ws zw vw
        ((zero_padded zw vw ++ padded_tail ws).length + 1)
        (oid_subidentifier_num_bytes (c1 * 40 + c2)) (hrest (zw, vw) (List.mem_cons_self _ _))
        (fun x hx => hrest x (List.mem_cons_of_mem _ hx)) (by omega)
        (by simp only [List.length_append]; omega)
      exact ⟨zero_padded zw vw ++ padded_tail ws, n,
        by simp [padded_tail, skip_separator, hne], by simp [padded_tail], hn,
        by rw [hl]; rfl⟩
  obtain ⟨s3, el, hk, hdrop, hsz, hl⟩ := comps
  have hfp := first_pass_intro hp1 hc1 hp2 hc2 hk hw hsz
  obtain ⟨hsp, hel⟩ := second_pass_eq hp1 hp2 hdrop (by unfold UINT_MAX at hw; omega) hsz
  rw [hl] at hsp hel
  have hcomm : c1 * 40 + c2 = 40 * c1 + c2 := by omega
  rw [hcomm] at hsp hel
  unfold mbedtls_oid_from_numeric_string
  simp only [hfp, hsp, Bool.true_eq_false, if_false, ne_eq, not_true_eq_false,
    List.replicate_zero, List.append_nil]
  rw [← hel]

/-- C11, as stated, fails: the texts `01.2` and `1.02.3`, each with a component written
with a leading zero, are not rejected: `mbedtls_oid_from_numeric_string` returns 0 on
both and hands back the encodings of `1.2` and of `1.2.3`. -/
theorem leading_zero_counterexample :
    mbedtls_oid_from_numeric_string ⟨0, 0, none⟩ "01.2".toList true
        = (0, { tag := MBEDTLS_ASN1_OID, len := 1, p := some [0x2A] }) ∧
      mbedtls_oid_from_numeric_string ⟨0, 0, none⟩ "1.02.3".toList true
        = (0, { tag := MBEDTLS_ASN1_OID, len := 2, p := some [0x2A, 0x03] }) := by
  decide

/-- C11, as amended: `mbedtls_oid_from_numeric_string` does not reject leading zeros.
For every dotted-decimal text with at least two components, each of value at most
2147483649 and written with any number of characters `0` in front of its decimal
digits, the first component at most 2 and the second at most 39 when the first is 0
or 1, of a length that fits `size_t`, and when the allocation succeeds, the function
returns 0 and hands back the bytes it hands back for the text without the added
zeros: the encoding of the component values. -/
theorem leading_zeros_accepted (oid : mbedtls_asn1_buf) (z1 c1 z2 c2 : Nat)
    (rest : List (Nat × Nat)) (hc1 : c1 ≤ 2) (hc2 : c1 < 2 → c2 ≤ 39)
    (hc2r : c2 ≤ 2147483649) (hrest : ∀ x ∈ rest, x.2 ≤ 2147483649)
    (hlen : (padded z1 c1 z2 c2 rest).length ≤ SIZE_MAX) :
    mbedtls_oid_from_numeric_string oid (padded z1 c1 z2 c2 rest) true
        = (0, { tag := MBEDTLS_ASN1_OID,
                len := (encoding ((40 * c1 + c2) :: rest.map Prod.snd)).length,
                p := some (encoding ((40 * c1 + c2) :: rest.map Prod.snd)) }) ∧
      mbedtls_oid_from_numeric_string oid (padded z1 c1 z2 c2 rest) true
        = mbedtls_oid_from_numeric_string oid (dotted c1 c2 (rest.map Prod.snd)) true := by
  have h := from_numeric_string_padded oid z1 c1 z2 c2 rest hc1 hc2 hc2r hrest hlen
  have hsub : (dotted c1 c2 (rest.map Prod.snd)).length ≤ (padded z1 c1 z2 c2 rest).length := by
    have ht : ∀ vs : List (Nat × Nat),
        (dotted_tail (vs.map Prod.snd)).length ≤ (padded_tail vs).length := by
      intro vs
      induction vs with
      | nil => simp [dotted_tail, padded_tail]
      | cons w ws ih =>
        obtain ⟨zw, vw⟩ := w
        have := fmt_u_le_padded zw vw
        simp only [List.map_cons, dotted_tail, padded_tail, List.length_cons,
          List.length_append]
        omega
    have h1 := fmt_u_le_padded z1 c1
    have h2 := fmt_u_le_padded z2 c2
    have h3 := ht rest
    simp only [dotted, padded, List.length_append, List.length_cons]
    omega
  have h' := from_numeric_string_dotted oid c1 c2 (rest.map Prod.snd) hc1 hc2 hc2r
    (by
      intro x hx
      obtain ⟨y, hy, rfl⟩ := List.mem_map.mp hx
      exact hrest y hy)
    (le_trans hsub hlen)
  exact ⟨h, by rw [h, h']⟩

/-- Witness of C11 as amended, on the text `1.02.3`. -/
theorem leading_zeros_accepted_witness :
    padded 0 1 1 2 [(0, 3)] = "1.02.3".toList ∧
    mbedtls_oid_from_numeric_string ⟨0, 0, none⟩ (padded 0 1 1 2 [(0, 3)]) true
      = mbedtls_oid_from_numeric_string ⟨0, 0, none⟩ (dotted 1 2 ([(0, 3)].map Prod.snd)) true :=
  ⟨by decide,
    (leading_zeros_accepted ⟨0, 0, none⟩ 0 1 1 2 [(0, 3)] (by decide) (by decide) (by decide)
      (by decide) (by decide)).2⟩

/-! ## Decoding into a buffer that is too small -/

theorem later_subidentifiers_digits_step (size lo : Nat) (rest : List Nat) (out : List Char)
    (n : Nat) (hlo : lo < 128) :
    ∀ (ds : List Nat) (acc : Nat), (∀ d ∈ ds, d < 128) →
      (acc ≠ 0 ∨ ds.head? ≠ some 0) →
      ds.foldl (fun a d => a * 128 + d) acc * 128 + lo < 2 ^ 32 →
      later_subidentifiers size acc out n (ds.map (· + 128) ++ lo :: rest)
        = if ('.' :: fmt_u (ds.foldl (fun a d => a * 128 + d) acc * 128 + lo)).length ≥ n then
            ⟨MBEDTLS_ERR_OID_BUF_TOO_SMALL,
              mbedtls_snprintf (some out) out n
                ('.' :: fmt_u (ds.foldl (fun a d => a * 128 + d) acc * 128 + lo))⟩
          else
            later_subidentifiers size 0
              (out ++ '.' :: fmt_u (ds.foldl (fun a d => a * 128 + d) acc * 128 + lo))
              (n - ('.' :: fmt_u (ds.foldl (fun a d => a * 128 + d) acc * 128 + lo)).length)
              rest := by
  intro ds
  induction ds with
  | nil =>
    intro acc _ _ hbound
    simp only [List.foldl_nil] at hbound ⊢
    simp only [List.map_nil, List.nil_append, later_subidentifiers]
    have h1 : ¬ acc > UINT_MAX >>> 7 := by rw [uint_max_shift]; omega
    have h2 : ¬ (acc = 0 ∧ lo = 0x80) := by omega
    have h3 : ((acc <<< 7) % 2 ^ 32) ||| (lo &&& 0x7F) = acc * 128 + lo := by
      rw [and_7f_eq_mod, Nat.mod_eq_of_lt hlo, Nat.shiftLeft_eq,
        Nat.mod_eq_of_lt (by omega)]
      exact mul128_or hlo
    rw [h3, and_80_of_lt hlo]
    simp only [h1, h2, if_false, if_true]
  | cons d ds ih =>
    intro acc hds hnz hbound
    have hd : d < 128 := hds d (List.mem_cons_self _ _)
    have hge := horner_ge ds (acc * 128 + d)
    simp only [List.foldl_cons] at hbound ⊢
    simp only [List.map_cons, List.cons_append, later_subidentifiers]
    have h1 : ¬ acc > UINT_MAX >>> 7 := by rw [uint_max_shift]; omega
    have h2 : ¬ (acc = 0 ∧ d + 128 = 0x80) := by
      rintro ⟨ha, hd0⟩
      rcases hnz with h | h
      · exact h ha
      · apply h
        have : d = 0 := by omega
        simp [this]
    have h3 : ((acc <<< 7) % 2 ^ 32) ||| ((d + 128) &&& 0x7F) = acc * 128 + d := by
      rw [and_7f_eq_mod, Nat.shiftLeft_eq, Nat.mod_eq_of_lt (by omega)]
      have : (d + 128) % 128 = d := by omega
      rw [this]
      exact mul128_or hd
    rw [h3, and_80_of_add hd]
    simp only [h1, h2, if_false]
    have h5 : acc * 128 + d ≠ 0 := by
      rcases hnz with h | h
      · omega
      · have : d ≠ 0 := by
          intro h0; apply h; simp [h0]
        omega
    simpa using ih (acc * 128 + d) (fun x hx => hds x (List.mem_cons_of_mem _ hx))
      (Or.inl h5) hbound

theorem later_subidentifiers_base128_step (size v : Nat) (rest : List Nat) (out : List Char)
    (n : Nat) (hv : v < 2 ^ 32) :
    later_subidentifiers size 0 out n (base128 v ++ rest)
      = if ('.' :: fmt_u v).length ≥ n then
          ⟨MBEDTLS_ERR_OID_BUF_TOO_SMALL, mbedtls_snprintf (some out) out n ('.' :: fmt_u v)⟩
        else
          later_subidentifiers size 0 (out ++ '.' :: fmt_u v)
            (n - ('.' :: fmt_u v).length) rest := by
  have h := later_subidentifiers_digits_step size (v % 128) rest out n
    (Nat.mod_lt _ (by norm_num)) (Nat.digits 128 (v / 128)).reverse 0 (digits_reverse_lt _)
    (Or.inr (digits_reverse_head _))
  rw [horner_digits] at h
  have hv2 : v / 128 * 128 + v % 128 = v := by omega
  rw [hv2] at h
  simpa [base128] using h hv

theorem later_subidentifiers_small (size : Nat) :
    ∀ (vs : List Nat) (out : List Char) (n : Nat), (∀ v ∈ vs, v < 2 ^ 32) → 0 < n →
      n ≤ (dotted_tail vs).length →
      later_subidentifiers size 0 out n (encoding vs)
        = ⟨MBEDTLS_ERR_OID_BUF_TOO_SMALL, some (out ++ (dotted_tail vs).take (n - 1))⟩ := by
  intro vs
  induction vs with
  | nil =>
    intro out n _ hn hle
    simp [dotted_tail] at hle
    omega
  | cons v vs ih =>
    intro out n hvs hn hle
    have hv : v < 2 ^ 32 := hvs v (List.mem_cons_self _ _)
    have e1 : ('.' :: fmt_u v).length = (fmt_u v).length + 1 := rfl
    have e0 : dotted_tail (v :: vs) = ('.' :: fmt_u v) ++ dotted_tail vs := rfl
    rw [e0] at hle ⊢
    rw [List.length_append, e1] at hle
    rw [encoding, later_subidentifiers_base128_step size v (encoding vs) out n hv]
    by_cases hs : ('.' :: fmt_u v).length ≥ n
    · have hn0 : n ≠ 0 := by omega
      simp only [hs, if_true, mbedtls_snprintf, hn0, if_false]
      rw [List.take_append_of_le_length (by omega)]
    · simp only [hs, if_false]
      rw [e1] at hs
      have hpos : 0 < n - ('.' :: fmt_u v).length := by rw [e1]; omega
      have hle2 : n - ('.' :: fmt_u v).length ≤ (dotted_tail vs).length := by rw [e1]; omega
      rw [ih (out ++ '.' :: fmt_u v) (n - ('.' :: fmt_u v).length)
        (fun x hx => hvs x (List.mem_cons_of_mem _ hx)) hpos hle2]
      have hfull : ('.' :: fmt_u v).length ≤ n - 1 := by rw [e1]; omega
      rw [List.take_append_eq_append_take, List.take_of_length_le hfull, List.append_assoc]
      have e2 : n - ('.' :: fmt_u v).length - 1 = n - 1 - ('.' :: fmt_u v).length := by omega
      rw [e2]

theorem get_numeric_string_small (size v : Nat) (rest : List Nat) (hv : v < 2 ^ 32)
    (hrest : ∀ x ∈ rest, x < 2 ^ 32)
    (hsize : size ≤ (dotted (first_component v) (second_component v) rest).length) :
    mbedtls_oid_get_numeric_string size (encoding (v :: rest))
      = ⟨MBEDTLS_ERR_OID_BUF_TOO_SMALL,
          if size = 0 then none
          else some ((dotted (first_component v) (second_component v) rest).take (size - 1))⟩ := by
  have hc1 : (if v / 40 > 2 then 2 else v / 40) = first_component v := by
    unfold first_component; split <;> omega
  have hc2 : (v + 2 ^ 32 - 40 * first_component v) % 2 ^ 32 = second_component v := by
    have := first_component_mul_le v
    unfold second_component
    omega
  have e0 : dotted (first_component v) (second_component v) rest
      = (fmt_u (first_component v) ++ '.' :: fmt_u (second_component v)) ++ dotted_tail rest :=
    rfl
  rw [e0] at hsize ⊢
  rw [List.length_append] at hsize
  unfold mbedtls_oid_get_numeric_string
  rw [encoding]
  simp only [base128_head, if_false, first_subidentifier_base128 v _ hv, hc1, hc2]
  generalize fmt_u (first_component v) ++ '.' :: fmt_u (second_component v) = s0 at hsize ⊢
  by_cases hs : s0.length ≥ size
  · simp only [hs, if_true, mbedtls_snprintf, List.nil_append]
    by_cases h0 : size = 0
    · simp [h0]
    · simp only [h0, if_false]
      rw [List.take_append_of_le_length (by omega)]
  · simp only [hs, if_false]
    have h0 : size ≠ 0 := by omega
    rw [later_subidentifiers_small size rest s0 (size - s0.length) hrest (by omega) (by omega)]
    simp only [h0, if_false]
    have hfull : s0.length ≤ size - 1 := by omega
    rw [List.take_append_eq_append_take, List.take_of_length_le hfull]
    have e2 : size - s0.length - 1 = size - 1 - s0.length := by omega
    rw [e2]

theorem later_subidentifiers_encoding_append (size : Nat) (tail : List Nat) :
    ∀ (vs : List Nat) (out : List Char) (n : Nat), (∀ v ∈ vs, v < 2 ^ 32) →
      (dotted_tail vs).length < n →
      later_subidentifiers size 0 out n (encoding vs ++ tail)
        = later_subidentifiers size 0 (out ++ dotted_tail vs)
            (n - (dotted_tail vs).length) tail := by
  intro vs
  induction vs with
  | nil =>
    intro out n _ _
    simp [encoding, dotted_tail]
  | cons v vs ih =>
    intro out n hvs hn
    have hv : v < 2 ^ 32 := hvs v (List.mem_cons_self _ _)
    have e1 : ('.' :: fmt_u v).length = (fmt_u v).length + 1 := rfl
    have e0 : dotted_tail (v :: vs) = ('.' :: fmt_u v) ++ dotted_tail vs := rfl
    rw [e0] at hn ⊢
    rw [List.length_append] at hn ⊢
    rw [encoding, List.append_assoc,
      later_subidentifiers_base128 size v (encoding vs ++ tail) out n hv (by omega),
      ih (out ++ '.' :: fmt_u v) (n - ('.' :: fmt_u v).length)
        (fun x hx => hvs x (List.mem_cons_of_mem _ hx)) (by omega),
      List.append_assoc, Nat.sub_sub]

theorem get_numeric_string_encoding_append (size v : Nat) (rest tail : List Nat)
    (hv : v < 2 ^ 32) (hrest : ∀ x ∈ rest, x < 2 ^ 32)
    (hsize : (dotted (first_component v) (second_component v) rest).length < size) :
    mbedtls_oid_get_numeric_string size (encoding (v :: rest) ++ tail)
      = later_subidentifiers size 0 (dotted (first_component v) (second_component v) rest)
          (size - (dotted (first_component v) (second_component v) rest).length) tail := by
  have hc1 : (if v / 40 > 2 then 2 else v / 40) = first_component v := by
    unfold first_component; split <;> omega
  have hc2 : (v + 2 ^ 32 - 40 * first_component v) % 2 ^ 32 = second_component v := by
    have := first_component_mul_le v
    unfold second_component
    omega
  have e0 : dotted (first_component v) (second_component v) rest
      = (fmt_u (first_component v) ++ '.' :: fmt_u (second_component v)) ++ dotted_tail rest :=
    rfl
  rw [e0] at hsize ⊢
  rw [List.length_append] at hsize ⊢
  unfold mbedtls_oid_get_numeric_string
  rw [encoding, List.append_assoc]
  simp only [base128_head, if_false, first_subidentifier_base128 v _ hv, hc1, hc2]
  generalize fmt_u (first_component v) ++ '.' :: fmt_u (second_component v) = s0 at hsize ⊢
  have hs : ¬ s0.length ≥ size := by omega
  simp only [hs, if_false]
  rw [later_subidentifiers_encoding_append size tail rest s0 (size - s0.length) hrest
    (by omega), Nat.sub_sub]

theorem get_numeric_string_first_error (size : Nat) (oid : List Nat) (e : Int)
    (hhead : oid.head? ≠ some 0x80) (herr : first_subidentifier 0 oid = .error e) :
    mbedtls_oid_get_numeric_string size oid = ⟨e, none⟩ := by
  unfold mbedtls_oid_get_numeric_string
  simp only [hhead, if_false, herr]

theorem get_numeric_string_zero_buf (oid : List Nat) :
    (mbedtls_oid_get_numeric_string 0 oid).buf = none := by
  unfold mbedtls_oid_get_numeric_string
  split
  · rfl
  · split
    · rfl
    · simp [mbedtls_snprintf]

theorem int_of_size_t_small {x : Nat} (h : x ≤ INT_MAX) : int_of_size_t x = (x : Int) := by
  unfold INT_MAX at h
  unfold int_of_size_t
  have h1 : x % 2 ^ 32 = x := Nat.mod_eq_of_lt (by omega)
  rw [h1]
  have h2 : x < 2 ^ 31 := by omega
  rw [if_pos h2]

theorem dotted_tail_replicate_length (k : Nat) :
    (dotted_tail (List.replicate k 0)).length = 2 * k := by
  induction k with
  | zero => rfl
  | succ k ih =>
    have h0 : (fmt_u 0).length = 1 := by decide
    simp only [List.replicate_succ, dotted_tail, List.length_cons, List.length_append, ih, h0]
    omega

/-- C21, as stated, fails: on the well-formed OID that encodes `1.2` followed by
1073741824 components `0`, whose text has the length `L = 2147483651`, with a buffer of
`L + 1` characters, `mbedtls_oid_get_numeric_string` returns `(int) L = -2147483645`:
the `int` it returns cannot hold `L`. -/
theorem return_value_counterexample :
    (dotted (first_component 42) (second_component 42) (List.replicate 1073741824 0)).length
      = 2147483651 ∧
    (mbedtls_oid_get_numeric_string 2147483652
        (encoding (42 :: List.replicate 1073741824 0))).ret = -2147483645 := by
  have hl : (dotted (first_component 42) (second_component 42)
      (List.replicate 1073741824 0)).length = 2147483651 := by
    have h1 : (fmt_u (first_component 42)).length = 1 := by decide
    have h2 : (fmt_u (second_component 42)).length = 1 := by decide
    simp only [dotted, List.length_append, List.length_cons, h1, h2,
      dotted_tail_replicate_length]
  refine ⟨hl, ?_⟩
  rw [get_numeric_string_encoding 2147483652 42 _ (by norm_num)
    (fun x hx => by rw [List.eq_of_mem_replicate hx]; norm_num) (by rw [hl]; norm_num), hl]
  decide

/-- C21, as amended: for every well-formed binary OID (minimal encodings of values
below `2 ^ 32`) whose dotted-decimal text has the length `L`,
`mbedtls_oid_get_numeric_string` returns `(int) L` when `size > L`, which is `L`
whenever `L ≤ INT_MAX`, and returns `MBEDTLS_ERR_OID_BUF_TOO_SMALL` when
`size ≤ L`. -/
theorem return_value_and_threshold (size v : Nat) (rest : List Nat) (hv : v < 2 ^ 32)
    (hrest : ∀ x ∈ rest, x < 2 ^ 32) :
    ((dotted (first_component v) (second_component v) rest).length < size →
        (mbedtls_oid_get_numeric_string size (encoding (v :: rest))).ret
          = int_of_size_t (dotted (first_component v) (second_component v) rest).length) ∧
      ((dotted (first_component v) (second_component v) rest).length < size →
        (dotted (first_component v) (second_component v) rest).length ≤ INT_MAX →
        (mbedtls_oid_get_numeric_string size (encoding (v :: rest))).ret
          = ((dotted (first_component v) (second_component v) rest).length : Int)) ∧
      (size ≤ (dotted (first_component v) (second_component v) rest).length →
        (mbedtls_oid_get_numeric_string size (encoding (v :: rest))).ret
          = MBEDTLS_ERR_OID_BUF_TOO_SMALL) := by
  refine ⟨?_, ?_, ?_⟩
  · intro h
    rw [get_numeric_string_encoding size v rest hv hrest h]
  · intro h hmax
    rw [get_numeric_string_encoding size v rest hv hrest h, int_of_size_t_small hmax]
  · intro h
    rw [get_numeric_string_small size v rest hv hrest h]

/-- Witness of C21 as amended, on the bytes `2A 86 48` (the text `1.2.840`, of length
7): 7 is returned with a buffer of 8 characters, and the buffer of 7 characters is too
small. -/
theorem return_value_and_threshold_witness :
    encoding [42, 840] = [0x2A, 0x86, 0x48] ∧
    (mbedtls_oid_get_numeric_string 8 [0x2A, 0x86, 0x48]).ret = 7 ∧
    (mbedtls_oid_get_numeric_string 7 [0x2A, 0x86, 0x48]).ret
      = MBEDTLS_ERR_OID_BUF_TOO_SMALL := by
  have he : encoding [42, 840] = [0x2A, 0x86, 0x48] := by norm_num [encoding, base128]
  have h1 := (return_value_and_threshold 8 42 [840] (by decide) (by decide)).2.1
    (by decide) (by decide)
  have h2 := (return_value_and_threshold 7 42 [840] (by decide) (by decide)).2.2 (by decide)
  rw [he] at h1 h2
  refine ⟨he, ?_, h2⟩
  rw [h1]
  decide

/-! ## What a failed decoding leaves in the buffer -/

theorem later_subidentifiers_overlong_eq (size : Nat) (tail : List Nat) (out : List Char)
    (n : Nat) :
    later_subidentifiers size 0 out n (0x80 :: tail)
      = ⟨MBEDTLS_ERR_ASN1_INVALID_DATA, some out⟩ := by
  simp [later_subidentifiers, uint_max_shift]

/-- C22, as stated, fails: on the bytes `2A 86 48 86 F7 0D 01 01 0B` (the text
`1.2.840.113549.1.1.11`, 21 characters) with a buffer of size 21,
`mbedtls_oid_get_numeric_string` returns `MBEDTLS_ERR_OID_BUF_TOO_SMALL` and the buffer,
never stored to before, holds the truncated text `1.2.840.113549.1.1.1`; on the bytes
`2A 03 80 01` with a buffer of size 20 it returns `MBEDTLS_ERR_ASN1_INVALID_DATA` and
the buffer holds `1.2.3`. -/
theorem partial_output_counterexample :
    mbedtls_oid_get_numeric_string 21 [0x2A, 0x86, 0x48, 0x86, 0xF7, 0x0D, 0x01, 0x01, 0x0B]
        = ⟨MBEDTLS_ERR_OID_BUF_TOO_SMALL, some "1.2.840.113549.1.1.1".toList⟩ ∧
      mbedtls_oid_get_numeric_string 20 [0x2A, 0x03, 0x80, 0x01]
        = ⟨MBEDTLS_ERR_ASN1_INVALID_DATA, some "1.2.3".toList⟩ := by
  constructor <;> decide

/-- C22, as amended: on a non-empty binary OID, `mbedtls_oid_get_numeric_string` leaves
the buffer untouched when it fails in the first subidentifier (first byte `0x80`, or a
first subidentifier that overflows or is not terminated) and whenever `size` is 0 (the
empty OID is left out: on it the code reads `oid->p[0]` outside the buffer). On a
well-formed binary OID
whose text does not fit (`size ≤ L`, `size ≠ 0`) it returns
`MBEDTLS_ERR_OID_BUF_TOO_SMALL` and the buffer holds the first `size - 1` characters of
the text; on a well-formed OID followed by a subidentifier that begins with `0x80`,
with `size > L`, it returns `MBEDTLS_ERR_ASN1_INVALID_DATA` and the buffer holds the
text of the well-formed part. -/
theorem decode_failure_output (size v : Nat) (rest : List Nat) (hv : v < 2 ^ 32)
    (hrest : ∀ x ∈ rest, x < 2 ^ 32) :
    (∀ oid : List Nat, oid.head? = some 0x80 →
        mbedtls_oid_get_numeric_string size oid = ⟨MBEDTLS_ERR_ASN1_INVALID_DATA, none⟩) ∧
      (∀ (oid : List Nat) (e : Int), oid ≠ [] → oid.head? ≠ some 0x80 →
        first_subidentifier 0 oid = .error e →
        mbedtls_oid_get_numeric_string size oid = ⟨e, none⟩) ∧
      (∀ oid : List Nat, oid ≠ [] → (mbedtls_oid_get_numeric_string 0 oid).buf = none) ∧
      (size ≤ (dotted (first_component v) (second_component v) rest).length →
        mbedtls_oid_get_numeric_string size (encoding (v :: rest))
          = ⟨MBEDTLS_ERR_OID_BUF_TOO_SMALL,
              if size = 0 then none
              else some ((dotted (first_component v) (second_component v) rest).take
                (size - 1))⟩) ∧
      ((dotted (first_component v) (second_component v) rest).length < size →
        ∀ tail : List Nat,
          mbedtls_oid_get_numeric_string size (encoding (v :: rest) ++ 0x80 :: tail)
            = ⟨MBEDTLS_ERR_ASN1_INVALID_DATA,
                some (dotted (first_component v) (second_component v) rest)⟩) := by
  refine ⟨?_, ?_, fun oid _ => get_numeric_string_zero_buf oid,
    get_numeric_string_small size v rest hv hrest, ?_⟩
  · intro oid h
    unfold mbedtls_oid_get_numeric_string
    simp only [h, if_true]
  · intro oid e _ h herr
    exact get_numeric_string_first_error size oid e h herr
  · intro h tail
    rw [get_numeric_string_encoding_append size v rest (0x80 :: tail) hv hrest h,
      later_subidentifiers_overlong_eq]

/-- Witness of C22 as amended, on the first subidentifier 42 and the later component
840 (the text `1.2.840`): with a buffer of size 5 the buffer holds `1.2.` after the
failure, and the bytes `2A 86 48 80` leave `1.2.840` in a buffer of size 8; the
non-empty input `81`, an unterminated first subidentifier, leaves the buffer
untouched. -/
theorem decode_failure_output_witness :
    encoding [42, 840] = [0x2A, 0x86, 0x48] ∧
    mbedtls_oid_get_numeric_string 5 [0x2A, 0x86, 0x48]
      = ⟨MBEDTLS_ERR_OID_BUF_TOO_SMALL, some "1.2.".toList⟩ ∧
    mbedtls_oid_get_numeric_string 8 [0x2A, 0x86, 0x48, 0x80]
      = ⟨MBEDTLS_ERR_ASN1_INVALID_DATA, some "1.2.840".toList⟩ ∧
    mbedtls_oid_get_numeric_string 5 [0x81] = ⟨MBEDTLS_ERR_ASN1_OUT_OF_DATA, none⟩ ∧
    (mbedtls_oid_get_numeric_string 0 [0x2A]).buf = none := by
  have he : encoding [42, 840] = [0x2A, 0x86, 0x48] := by norm_num [encoding, base128]
  have h := decode_failure_output 5 42 [840] (by decide) (by decide)
  have h8 := decode_failure_output 8 42 [840] (by decide) (by decide)
  have h1 := h.2.2.2.1 (by decide)
  have h2 := h8.2.2.2.2 (by decide) []
  have h3 := h.2.1 [0x81] MBEDTLS_ERR_ASN1_OUT_OF_DATA (by decide) (by decide) rfl
  have h4 := h.2.2.1 [0x2A] (by decide)
  rw [he] at h1 h2
  refine ⟨he, ?_, ?_, h3, h4⟩
  · rw [h1]; decide
  · have e2 : [0x2A, 0x86, 0x48] ++ [0x80] = [0x2A, 0x86, 0x48, 0x80] := rfl
    rw [e2] at h2
    rw [h2]; decide

/-! ## The two passes of the encoder -/

theorem parse_loop_suffix :
    ∀ (str : List Char) (ret : Int) (num : Nat),
      (oid_parse_number_loop ret num str).2.2 <:+ str := by
  intro str
  induction str with
  | nil => intro ret num; simp [oid_parse_number_loop]
  | cons c cs ih =>
    intro ret num
    simp only [oid_parse_number_loop]
    split
    · split
      · exact List.suffix_refl _
      · exact (ih _ _).trans (List.suffix_cons c cs)
    · exact List.suffix_refl _

theorem parse_number_suffix (str : List Char) : (oid_parse_number str).2.2 <:+ str :=
  parse_loop_suffix str _ 0

theorem skip_separator_drop {s2 s3 : List Char} (hk : skip_separator s2 = some s3)
    (hnul : s2.head? ≠ some NUL) : s2.drop 1 = s3 := by
  cases s2 with
  | nil => simp [skip_separator] at hk; subst hk; rfl
  | cons d ds =>
    have hd : d ≠ NUL := by
      intro hd; exact hnul (by rw [hd]; rfl)
    simp only [skip_separator, hd, ne_eq, not_false_eq_true, if_true] at hk
    split at hk
    · simp at hk; subst hk; rfl
    · simp at hk

theorem second_pass_zero {s : List Char} {el : Nat} (hfp : first_pass s = .ok el)
    (hret : (second_pass s el).1 = 0) :
    second_pass s el
        = (0, encoding (((parsed_components s).1 * 40 + (parsed_components s).2.1)
            :: (parsed_components s).2.2), 0) ∧
      el = (encoding (((parsed_components s).1 * 40 + (parsed_components s).2.1)
            :: (parsed_components s).2.2)).length := by
  obtain ⟨c1, c2, s1, s2, s3, hp1, hc1, hp2, hc2, hk, hw, hsz⟩ := first_pass_ok hfp
  rw [parsed_components_eq hp1 hp2 hk]
  by_cases hnul : ∃ t, s2 = NUL :: t
  · obtain ⟨t, ht⟩ := hnul
    subst ht
    have hs3 : s3 = NUL :: t := by
      simp [skip_separator] at hk; exact hk.symm
    subst hs3
    rw [later_components_nul]
    exact second_pass_nul hp1 hp2 hw hsz hret
  · have hdrop : s2.drop 1 = s3 := by
      apply skip_separator_drop hk
      intro h
      cases s2 with
      | nil => simp at h
      | cons d ds =>
        simp only [List.head?_cons, Option.some.injEq] at h
        exact hnul ⟨ds, by rw [h]⟩
    exact second_pass_eq hp1 hp2 hdrop hw hsz

theorem second_pass_without_nul {s : List Char} {el : Nat} (hnul : NUL ∉ s)
    (hfp : first_pass s = .ok el) : (second_pass s el).1 = 0 := by
  obtain ⟨c1, c2, s1, s2, s3, hp1, hc1, hp2, hc2, hk, hw, hsz⟩ := first_pass_ok hfp
  have h1 : ('.' :: s1) <:+ s := by
    have := parse_number_suffix s
    rw [hp1] at this
    exact this
  have h2 : s2 <:+ s1 := by
    have := parse_number_suffix s1
    rw [hp2] at this
    exact this
  have h3 : s2 <:+ s := h2.trans ((List.suffix_cons '.' s1).trans h1)
  have hdrop : s2.drop 1 = s3 := by
    apply skip_separator_drop hk
    intro h
    cases s2 with
    | nil => simp at h
    | cons d ds =>
      simp only [List.head?_cons, Option.some.injEq] at h
      exact hnul (h3.subset (by rw [h]; exact List.mem_cons_self _ _))
  rw [(second_pass_eq hp1 hp2 hdrop hw hsz).1]

theorem from_numeric_string_without_nul (oid : mbedtls_asn1_buf) (s : List Char)
    (calloc_ok : Bool) (hnul : NUL ∉ s) :
    (mbedtls_oid_from_numeric_string oid s calloc_ok).1 ≠ MBEDTLS_ERR_OID_BUF_TOO_SMALL := by
  unfold mbedtls_oid_from_numeric_string
  cases hfp : first_pass s with
  | error e =>
    have he := first_pass_error hfp
    subst he
    show MBEDTLS_ERR_ASN1_INVALID_DATA ≠ MBEDTLS_ERR_OID_BUF_TOO_SMALL
    decide
  | ok el =>
    cases calloc_ok with
    | false =>
      show MBEDTLS_ERR_ASN1_ALLOC_FAILED ≠ MBEDTLS_ERR_OID_BUF_TOO_SMALL
      decide
    | true =>
      have h := second_pass_without_nul hnul hfp
      simp only [Bool.true_eq_false, if_false, h, ne_eq, not_true_eq_false]
      show (0 : Int) ≠ MBEDTLS_ERR_OID_BUF_TOO_SMALL
      decide

/-- C23: the code breaks the claim. On the five characters `1`, `.`, `2`, NUL, `x`
the first pass stops at the NUL and sizes the buffer at one byte; the second pass
steps over the NUL as if it were a dot, reads on at `x`, finds no room and returns
`MBEDTLS_ERR_OID_BUF_TOO_SMALL`, with `p` null and `len` 0. -/
theorem embedded_nul_buf_too_small :
    first_pass ['1', '.', '2', NUL, 'x'] = .ok 1 ∧
      second_pass ['1', '.', '2', NUL, 'x'] 1 = (MBEDTLS_ERR_OID_BUF_TOO_SMALL, [42], 0) ∧
      mbedtls_oid_from_numeric_string ⟨0, 0, none⟩ ['1', '.', '2', NUL, 'x'] true
        = (MBEDTLS_ERR_OID_BUF_TOO_SMALL, ⟨0, 0, none⟩) := by
  refine ⟨rfl, by decide, by decide⟩

/-- C24: whenever `mbedtls_oid_from_numeric_string` returns 0, the first pass computed
a length `encoded_len`, the second pass stored exactly `encoded_len` bytes and left no
room in the buffer, the structure handed back has `len = encoded_len`, the bytes stored
as its buffer and the tag `MBEDTLS_ASN1_OID`, and `len` is at least 1. -/
theorem exact_sizing (oid : mbedtls_asn1_buf) (s : List Char) (calloc_ok : Bool)
    (h : (mbedtls_oid_from_numeric_string oid s calloc_ok).1 = 0) :
    ∃ (encoded_len : Nat) (written : List Nat),
      first_pass s = .ok encoded_len ∧
      second_pass s encoded_len = (0, written, 0) ∧
      written.length = encoded_len ∧
      (mbedtls_oid_from_numeric_string oid s calloc_ok).2
        = { tag := MBEDTLS_ASN1_OID, len := encoded_len, p := some written } ∧
      1 ≤ (mbedtls_oid_from_numeric_string oid s calloc_ok).2.len := by
  unfold mbedtls_oid_from_numeric_string at h ⊢
  cases hfp : first_pass s with
  | error e =>
    have he := first_pass_error hfp
    simp only [hfp] at h
    rw [he] at h
    exact absurd h (by decide)
  | ok el =>
    simp only [hfp] at h ⊢
    cases calloc_ok with
    | false => simp at h; exact absurd h (by decide)
    | true =>
      simp only [Bool.true_eq_false, if_false] at h ⊢
      have hret : (second_pass s el).1 = 0 := by
        rcases hsp : second_pass s el with ⟨r, w, room⟩
        rw [hsp] at h
        simp only at h
        by_cases hr : r = 0
        · exact hr
        · simp [hr] at h
      obtain ⟨hsp, hel⟩ := second_pass_zero hfp hret
      have hpos : 1 ≤ el := by
        rw [hel]
        simp only [encoding, List.length_append]
        have := num_bytes_pos ((parsed_components s).1 * 40 + (parsed_components s).2.1)
        rw [num_bytes_eq_length] at this
        omega
      refine ⟨el, _, rfl, hsp, hel.symm, ?_, ?_⟩
      · rw [hsp]
        simp
      · rw [hsp]
        simpa using hpos

/-- Witness of C24 on the text `1.2.840`: three bytes are sized and three are
stored. -/
theorem exact_sizing_witness :
    (mbedtls_oid_from_numeric_string ⟨0, 0, none⟩ "1.2.840".toList true).1 = 0 ∧
    ∃ (encoded_len : Nat) (written : List Nat),
      first_pass "1.2.840".toList = .ok encoded_len ∧
      second_pass "1.2.840".toList encoded_len = (0, written, 0) ∧
      written.length = encoded_len ∧
      (mbedtls_oid_from_numeric_string ⟨0, 0, none⟩ "1.2.840".toList true).2
        = { tag := MBEDTLS_ASN1_OID, len := encoded_len, p := some written } ∧
      1 ≤ (mbedtls_oid_from_numeric_string ⟨0, 0, none⟩ "1.2.840".toList true).2.len :=
  ⟨by decide, exact_sizing ⟨0, 0, none⟩ "1.2.840".toList true (by decide)⟩

/-- C25: when `mbedtls_oid_from_numeric_string` fails in the validation of the first
pass, it returns `MBEDTLS_ERR_ASN1_INVALID_DATA` and the caller's structure is
unchanged; when it fails after the buffer was allocated, in the second pass, it
returns the code of the second pass and the structure has `p` null, `len` 0 and the
caller's tag. When the allocation itself fails, between the two, it returns
`MBEDTLS_ERR_ASN1_ALLOC_FAILED` and the structure has `p` null and the caller's `len`
and tag. In every failure the structure keeps the caller's tag and holds either the
caller's `p` or a null `p`. -/
theorem encode_failure_state (oid : mbedtls_asn1_buf) (s : List Char) (calloc_ok : Bool) :
    (∀ e, first_pass s = .error e →
        mbedtls_oid_from_numeric_string oid s calloc_ok
          = (MBEDTLS_ERR_ASN1_INVALID_DATA, oid)) ∧
      (∀ encoded_len, first_pass s = .ok encoded_len → calloc_ok = true →
        (second_pass s encoded_len).1 ≠ 0 →
        mbedtls_oid_from_numeric_string oid s calloc_ok
          = ((second_pass s encoded_len).1, { tag := oid.tag, len := 0, p := none })) ∧
      (∀ encoded_len, first_pass s = .ok encoded_len → calloc_ok = false →
        mbedtls_oid_from_numeric_string oid s calloc_ok
          = (MBEDTLS_ERR_ASN1_ALLOC_FAILED, { tag := oid.tag, len := oid.len, p := none })) ∧
      ((mbedtls_oid_from_numeric_string oid s calloc_ok).1 ≠ 0 →
        (mbedtls_oid_from_numeric_string oid s calloc_ok).2.tag = oid.tag ∧
        ((mbedtls_oid_from_numeric_string oid s calloc_ok).2 = oid ∨
          (mbedtls_oid_from_numeric_string oid s calloc_ok).2.p = none)) := by
  unfold mbedtls_oid_from_numeric_string
  cases hfp : first_pass s with
  | error e =>
    have he := first_pass_error hfp
    subst he
    simp
  | ok el =>
    cases calloc_ok with
    | false => simp
    | true =>
      rcases hsp : second_pass s el with ⟨r, w, room⟩
      by_cases hr : r = 0
      · simp [hsp, hr]
      · simp [hsp, hr]

/-- Witness of C25: the text `3.1` fails in the first pass and leaves a structure
with a buffer as it was; the text `1.2`, NUL, `x` fails in the second pass and leaves
a null `p` and `len` 0. -/
theorem encode_failure_state_witness :
    mbedtls_oid_from_numeric_string ⟨4, 7, some [1]⟩ "3.1".toList true
        = (MBEDTLS_ERR_ASN1_INVALID_DATA, ⟨4, 7, some [1]⟩) ∧
      mbedtls_oid_from_numeric_string ⟨4, 7, some [1]⟩ ['1', '.', '2', NUL, 'x'] true
        = ((second_pass ['1', '.', '2', NUL, 'x'] 1).1, ⟨4, 0, none⟩) :=
  ⟨(encode_failure_state ⟨4, 7, some [1]⟩ "3.1".toList true).1
      MBEDTLS_ERR_ASN1_INVALID_DATA rfl,
    (encode_failure_state ⟨4, 7, some [1]⟩ ['1', '.', '2', NUL, 'x'] true).2.1 1
      rfl rfl (by decide)⟩

/-! ## The width of an encoded subidentifier -/

theorem num_bytes_lt_pow (v : Nat) : v < 2 ^ (7 * oid_subidentifier_num_bytes v) := by
  rw [num_bytes_eq, pow_mul]
  have h := Nat.lt_base_pow_length_digits (b := 128) (m := v / 128) (by norm_num)
  have e : (2 : Nat) ^ 7 = 128 := by norm_num
  rw [e, pow_succ]
  omega

theorem num_bytes_least (v n : Nat) (hn : 1 ≤ n) (h : v < 2 ^ (7 * n)) :
    oid_subidentifier_num_bytes v ≤ n := by
  obtain ⟨k, rfl⟩ : ∃ k, n = k + 1 := ⟨n - 1, by omega⟩
  apply num_bytes_le_of_lt
  have e : (2 : Nat) ^ 7 = 128 := by norm_num
  rw [pow_mul, e] at h
  exact h

/-- C26: for every 32-bit unsigned value `v`, `oid_subidentifier_num_bytes v` is
`max 1 (ceil (bitlength v / 7))`, where `Nat.size v` is the bit length of `v`; it is
the least `n ≥ 1` with `v < 2 ^ (7 * n)`, and it is between 1 and 5. -/
theorem encoded_width (v : Nat) (hv : v < 2 ^ 32) :
    oid_subidentifier_num_bytes v = max 1 ((Nat.size v + 6) / 7) ∧
      1 ≤ oid_subidentifier_num_bytes v ∧
      v < 2 ^ (7 * oid_subidentifier_num_bytes v) ∧
      (∀ n, 1 ≤ n → v < 2 ^ (7 * n) → oid_subidentifier_num_bytes v ≤ n) ∧
      oid_subidentifier_num_bytes v ≤ 5 := by
  have hpos := num_bytes_pos v
  have hlt := num_bytes_lt_pow v
  refine ⟨?_, hpos, hlt, fun n hn h => num_bytes_least v n hn h, ?_⟩
  · apply le_antisymm
    · apply num_bytes_least v _ (le_max_left _ _)
      have h1 : Nat.size v ≤ 7 * max 1 ((Nat.size v + 6) / 7) := by
        have : (Nat.size v + 6) / 7 ≤ max 1 ((Nat.size v + 6) / 7) := le_max_right _ _
        omega
      exact lt_of_lt_of_le (Nat.lt_size_self v) (Nat.pow_le_pow_right (by norm_num) h1)
    · have h2 : Nat.size v ≤ 7 * oid_subidentifier_num_bytes v := Nat.size_le.mpr hlt
      apply max_le hpos
      omega
  · exact num_bytes_least v 5 (by norm_num) (lt_of_lt_of_le hv (by norm_num))

/-- Witness of C26 on the value 16384, of bit length 15, stored in 3 bytes. -/
theorem encoded_width_witness :
    oid_subidentifier_num_bytes 16384 = 3 ∧
    oid_subidentifier_num_bytes 16384 = max 1 ((Nat.size 16384 + 6) / 7) :=
  ⟨by decide, (encoded_width 16384 (by norm_num)).1⟩

/-! ## The accumulator of `oid_parse_number` never wraps -/

theorem parse_loop_unbounded :
    ∀ (str : List Char) (ret : Int) (num : Nat), num ≤ 2147483649 →
      oid_parse_number_loop ret num str = oid_parse_number_unbounded_loop ret num str := by
  intro str
  induction str with
  | nil => intro ret num _; rfl
  | cons c cs ih =>
    intro ret num hnum
    simp only [oid_parse_number_loop, oid_parse_number_unbounded_loop]
    split
    · rename_i hc
      have hv := is_digit_value hc
      by_cases hg : num > INT_MAX / 10
      · simp only [hg, if_true]
      · simp only [hg, if_false]
        rw [int_max_div] at hg
        have hm : (num * 10 % 2 ^ 32 + (c.toNat - '0'.toNat)) % 2 ^ 32
            = num * 10 + (c.toNat - '0'.toNat) := by omega
        rw [hm]
        exact ih 0 _ (by omega)
    · rfl

theorem parse_loop_bound :
    ∀ (str : List Char) (ret : Int) (num : Nat), num ≤ 2147483649 →
      (oid_parse_number_loop ret num str).2.1 ≤ 2147483649 := by
  intro str
  induction str with
  | nil => intro ret num h; simpa [oid_parse_number_loop] using h
  | cons c cs ih =>
    intro ret num hnum
    simp only [oid_parse_number_loop]
    split
    · rename_i hc
      have hv := is_digit_value hc
      by_cases hg : num > INT_MAX / 10
      · simp only [hg, if_true]
        exact hnum
      · simp only [hg, if_false]
        rw [int_max_div] at hg
        have hm : (num * 10 % 2 ^ 32 + (c.toNat - '0'.toNat)) % 2 ^ 32
            = num * 10 + (c.toNat - '0'.toNat) := by omega
        rw [hm]
        exact ih 0 _ (by omega)
    · exact hnum

theorem parse_number_bound (str : List Char) : (oid_parse_number str).2.1 ≤ 2147483649 :=
  parse_loop_bound str _ 0 (by norm_num)

theorem decimal_foldl_ge (digits : List Char) :
    ∀ num : Nat, num ≤ digits.foldl (fun value c => value * 10 + (c.toNat - '0'.toNat)) num := by
  induction digits with
  | nil => intro num; exact le_refl _
  | cons c cs ih =>
    intro num
    simp only [List.foldl_cons]
    have := ih (num * 10 + (c.toNat - '0'.toNat))
    omega

theorem parse_loop_run (rest : List Char) (hrest : no_leading_digit rest) :
    ∀ (digits : List Char) (ret : Int) (num : Nat), (∀ c ∈ digits, is_digit c) →
      num ≤ 2147483649 →
      (digits.foldl (fun value c => value * 10 + (c.toNat - '0'.toNat)) num ≤ 2147483649 →
        oid_parse_number_loop ret num (digits ++ rest)
          = (if digits = [] then ret else 0,
              digits.foldl (fun value c => value * 10 + (c.toNat - '0'.toNat)) num, rest)) ∧
      (2147483649 < digits.foldl (fun value c => value * 10 + (c.toNat - '0'.toNat)) num →
        ∃ a b, digits = a ++ b ∧ b ≠ [] ∧
          INT_MAX / 10 < a.foldl (fun value c => value * 10 + (c.toNat - '0'.toNat)) num ∧
          oid_parse_number_loop ret num (digits ++ rest)
            = (MBEDTLS_ERR_ASN1_INVALID_DATA,
                a.foldl (fun value c => value * 10 + (c.toNat - '0'.toNat)) num,
                b ++ rest)) := by
  intro digits
  induction digits with
  | nil =>
    intro ret num _ hnum
    refine ⟨fun _ => ?_, fun h => ?_⟩
    · simp only [List.nil_append, if_true, List.foldl_nil]
      exact parse_loop_stop _ _ _ hrest
    · simp only [List.foldl_nil] at h
      omega
  | cons c cs ih =>
    intro ret num hds hnum
    have hc : is_digit c := hds c (List.mem_cons_self _ _)
    have hv := is_digit_value hc
    have hc2 : '0' ≤ c ∧ c ≤ '9' := hc
    have hge := decimal_foldl_ge cs (num * 10 + (c.toNat - '0'.toNat))
    simp only [List.cons_append, oid_parse_number_loop, hc2, and_self, if_true,
      List.foldl_cons]
    by_cases hg : num > INT_MAX / 10
    · simp only [hg, if_true]
      refine ⟨fun h => ?_, fun _ => ⟨[], c :: cs, rfl, by simp, hg, rfl⟩⟩
      rw [int_max_div] at hg
      omega
    · simp only [hg, if_false]
      rw [int_max_div] at hg
      have hm : (num * 10 % 2 ^ 32 + (c.toNat - '0'.toNat)) % 2 ^ 32
          = num * 10 + (c.toNat - '0'.toNat) := by omega
      rw [hm]
      obtain ⟨ih1, ih2⟩ := ih 0 (num * 10 + (c.toNat - '0'.toNat))
        (fun x hx => hds x (List.mem_cons_of_mem _ hx)) (by omega)
      refine ⟨fun h => ?_, fun h => ?_⟩
      · change oid_parse_number_loop 0 _ (cs ++ rest) = _
        rw [ih1 h]
        simp
      · obtain ⟨a, b, hab, hb, hex, hres⟩ := ih2 h
        exact ⟨c :: a, b, by rw [hab]; rfl, hb, by simpa using hex, by simpa using hres⟩

theorem leading_digits_append (str : List Char) :
    leading_digits str ++ after_leading_digits str = str :=
  List.takeWhile_append_dropWhile _ _

theorem leading_digits_digits (str : List Char) : ∀ c ∈ leading_digits str, is_digit c := by
  intro c hc
  have := List.mem_takeWhile_imp hc
  simpa using this

theorem after_leading_digits_head (str : List Char) :
    no_leading_digit (after_leading_digits str) := by
  intro c hc
  have h := List.head?_dropWhile_not (fun c => decide (is_digit c)) str
  unfold after_leading_digits at hc
  rw [Option.mem_def] at hc
  rw [hc] at h
  simpa using h

/-- C29: on every text, `oid_parse_number` computes what it computes over the
unbounded naturals (its 32-bit accumulator never wraps) and leaves in `*num` a value of
at most 2147483649. It returns 0 exactly when the text starts with at least one digit
and the decimal value of its maximal run of leading digits is at most 2147483649; then
`*num` is that value and `*p` is left after the run. With no leading digit it returns
`MBEDTLS_ERR_ASN1_INVALID_DATA` without moving; with a larger value it returns
`MBEDTLS_ERR_ASN1_INVALID_DATA` at the first digit where the value accumulated so far
exceeds `INT_MAX / 10`. In the caller, for parsed numbers with `component1 ≤ 2`, the
guard `(UINT_MAX - component2) <= component1 * 40` is false and
`component1 * 40 + component2` is at most 2147483729, computed without wrapping. -/
theorem parse_number_never_wraps (str : List Char) :
    oid_parse_number str = oid_parse_number_unbounded str ∧
      (oid_parse_number str).2.1 ≤ 2147483649 ∧
      ((oid_parse_number str).1 = 0 ↔
        leading_digits str ≠ [] ∧ decimal_value (leading_digits str) ≤ 2147483649) ∧
      ((oid_parse_number str).1 = 0 →
        oid_parse_number str
          = (0, decimal_value (leading_digits str), after_leading_digits str)) ∧
      (leading_digits str = [] →
        oid_parse_number str = (MBEDTLS_ERR_ASN1_INVALID_DATA, 0, str)) ∧
      (2147483649 < decimal_value (leading_digits str) →
        ∃ a b, leading_digits str = a ++ b ∧ b ≠ [] ∧ INT_MAX / 10 < decimal_value a ∧
          oid_parse_number str
            = (MBEDTLS_ERR_ASN1_INVALID_DATA, decimal_value a, b ++ after_leading_digits str)) ∧
      ∀ other : List Char, (oid_parse_number str).2.1 ≤ 2 →
        ¬ (UINT_MAX - (oid_parse_number other).2.1 ≤ (oid_parse_number str).2.1 * 40 % 2 ^ 32) ∧
        ((oid_parse_number str).2.1 * 40 % 2 ^ 32 + (oid_parse_number other).2.1) % 2 ^ 32
          = (oid_parse_number str).2.1 * 40 + (oid_parse_number other).2.1 ∧
        (oid_parse_number str).2.1 * 40 + (oid_parse_number other).2.1 ≤ 2147483729 := by
  have hrun := parse_loop_run (after_leading_digits str) (after_leading_digits_head str)
    (leading_digits str) MBEDTLS_ERR_ASN1_INVALID_DATA 0 (leading_digits_digits str)
    (by norm_num)
  rw [leading_digits_append] at hrun
  have h1 : decimal_value (leading_digits str) ≤ 2147483649 →
      oid_parse_number_loop MBEDTLS_ERR_ASN1_INVALID_DATA 0 str
        = (if leading_digits str = [] then MBEDTLS_ERR_ASN1_INVALID_DATA else 0,
            decimal_value (leading_digits str), after_leading_digits str) := hrun.1
  have h2 : 2147483649 < decimal_value (leading_digits str) →
      ∃ a b, leading_digits str = a ++ b ∧ b ≠ [] ∧ INT_MAX / 10 < decimal_value a ∧
        oid_parse_number_loop MBEDTLS_ERR_ASN1_INVALID_DATA 0 str
          = (MBEDTLS_ERR_ASN1_INVALID_DATA, decimal_value a, b ++ after_leading_digits str) :=
    hrun.2
  clear hrun
  have hne : MBEDTLS_ERR_ASN1_INVALID_DATA ≠ (0 : Int) := by decide
  refine ⟨parse_loop_unbounded str _ 0 (by norm_num), parse_number_bound str, ?_, ?_, ?_, ?_,
    ?_⟩
  · constructor
    · intro h0
      by_cases hle : decimal_value (leading_digits str) ≤ 2147483649
      · refine ⟨?_, hle⟩
        intro hnil
        have h := h1 hle
        unfold oid_parse_number at h0
        rw [h] at h0
        simp only [hnil, if_true] at h0
        exact hne h0
      · obtain ⟨a, b, _, _, _, hres⟩ := h2 (by omega)
        unfold oid_parse_number at h0
        rw [hres] at h0
        exact absurd h0 hne
    · rintro ⟨hnil, hle⟩
      have h := h1 hle
      unfold oid_parse_number
      rw [h]
      simp only [hnil, if_false]
  · intro h0
    by_cases hle : decimal_value (leading_digits str) ≤ 2147483649
    · have h := h1 hle
      unfold oid_parse_number at h0 ⊢
      rw [h] at h0 ⊢
      by_cases hnil : leading_digits str = []
      · simp only [hnil, if_true] at h0
        exact absurd h0 hne
      · simp only [hnil, if_false]
    · obtain ⟨a, b, _, _, _, hres⟩ := h2 (by omega)
      unfold oid_parse_number at h0
      rw [hres] at h0
      exact absurd h0 hne
  · intro hnil
    have h := h1 (by rw [hnil]; decide)
    have hstr := leading_digits_append str
    rw [hnil, List.nil_append] at hstr
    unfold oid_parse_number
    rw [h, hstr]
    simp only [hnil, if_true]
    rfl
  · intro hgt
    obtain ⟨a, b, hab, hb, hex, hres⟩ := h2 hgt
    exact ⟨a, b, hab, hb, hex, hres⟩
  · intro other hc1
    have hb := parse_number_bound other
    generalize (oid_parse_number str).2.1 = c1 at hc1 ⊢
    generalize (oid_parse_number other).2.1 = c2 at hb ⊢
    clear h1 h2 hne
    have h40 : c1 * 40 % 2 ^ 32 = c1 * 40 := Nat.mod_eq_of_lt (by omega)
    rw [h40]
    refine ⟨?_, Nat.mod_eq_of_lt (by omega), by omega⟩
    simp only [UINT_MAX]
    omega

/-- Witness of C29 on texts with the runs `2147483649` and `2147483650`: the first is
read whole, the second is refused at its last digit. -/
theorem parse_number_never_wraps_witness :
    oid_parse_number "2147483649.1".toList = (0, 2147483649, ".1".toList) ∧
    oid_parse_number "2147483650.1".toList
      = (MBEDTLS_ERR_ASN1_INVALID_DATA, 214748365, "0.1".toList) ∧
    oid_parse_number "2147483649.1".toList = oid_parse_number_unbounded "2147483649.1".toList :=
  ⟨by decide, by decide, (parse_number_never_wraps "2147483649.1".toList).1⟩

/-! ## The encoder emits canonical encodings -/

theorem byte_bit_clear (b : Nat) (hb : b < 256) (h : b &&& 0x80 = 0) : b < 128 := by
  by_contra hge
  have h1 := and_80_of_add (x := b - 128) (by omega)
  have h2 : b - 128 + 128 = b := by omega
  rw [h2, h] at h1
  omega

theorem byte_bit_set (b : Nat) (h : b &&& 0x80 ≠ 0) : 128 ≤ b := by
  by_contra hlt
  exact h (and_80_of_lt (by omega))

theorem horner_ofDigits (ds : List Nat) :
    ∀ acc : Nat, ds.foldl (fun a d => a * 128 + d) acc
      = acc * 128 ^ ds.length + Nat.ofDigits 128 ds.reverse := by
  induction ds with
  | nil => intro acc; simp
  | cons d ds ih =>
    intro acc
    simp only [List.foldl_cons, ih, List.reverse_cons, Nat.ofDigits_append, List.length_cons,
      List.length_reverse, Nat.ofDigits_singleton]
    ring

theorem horner_pos (ds : List Nat) (hne : ds ≠ []) (hhead : ds.head? ≠ some 0) :
    0 < ds.foldl (fun a d => a * 128 + d) 0 := by
  cases ds with
  | nil => exact absurd rfl hne
  | cons d ds =>
    have hd : d ≠ 0 := by
      intro h; exact hhead (by rw [h]; rfl)
    have := horner_ge ds (0 * 128 + d)
    simp only [List.foldl_cons]
    omega

theorem base128_of_digits (ds : List Nat) (lo : Nat) (hds : ∀ d ∈ ds, d < 128)
    (hhead : ds.head? ≠ some 0) (hlo : lo < 128) :
    base128 (ds.foldl (fun a d => a * 128 + d) 0 * 128 + lo) = ds.map (· + 128) ++ [lo] := by
  have h1 : (ds.foldl (fun a d => a * 128 + d) 0 * 128 + lo) / 128
      = ds.foldl (fun a d => a * 128 + d) 0 := by omega
  have h2 : (ds.foldl (fun a d => a * 128 + d) 0 * 128 + lo) % 128 = lo := by omega
  have h3 : Nat.digits 128 (ds.foldl (fun a d => a * 128 + d) 0) = ds.reverse := by
    rw [horner_ofDigits, Nat.zero_mul, Nat.zero_add]
    apply Nat.digits_ofDigits 128 (by norm_num)
    · intro l hl
      exact hds l (List.mem_reverse.mp hl)
    · intro hne
      rw [List.getLast_reverse]
      intro h0
      apply hhead
      cases ds with
      | nil => simp at hne
      | cons d ds => simp at h0; rw [h0]; rfl
  unfold base128
  rw [h1, h2, h3, List.reverse_reverse]

theorem first_subidentifier_inv :
    ∀ (bs : List Nat) (acc v : Nat) (rest : List Nat), (∀ b ∈ bs, b < 256) →
      acc * 128 < 2 ^ 32 → first_subidentifier (acc * 128) bs = .ok (v, rest) →
      ∃ (ds : List Nat) (lo : Nat), bs = ds.map (· + 128) ++ lo :: rest ∧
        (∀ d ∈ ds, d < 128) ∧ lo < 128 ∧
        v = ds.foldl (fun a d => a * 128 + d) acc * 128 + lo ∧ v < 2 ^ 32 := by
  intro bs
  induction bs with
  | nil => intro acc v rest _ _ h; simp [first_subidentifier] at h
  | cons b bs ih =>
    intro acc v rest hbs hacc h
    have hb : b < 256 := hbs b (List.mem_cons_self _ _)
    simp only [first_subidentifier] at h
    by_cases hbit : b &&& 0x80 = 0
    · have hlt := byte_bit_clear b hb hbit
      have hmod : b % 128 = b := Nat.mod_eq_of_lt hlt
      simp only [hbit, ne_eq, not_true_eq_false, if_false, Except.ok.injEq, Prod.mk.injEq,
        and_7f_eq_mod, hmod, mul128_or hlt] at h
      obtain ⟨hv, hrest⟩ := h
      subst hv hrest
      exact ⟨[], b, rfl, by simp, hlt, rfl, by omega⟩
    · have hge := byte_bit_set b hbit
      simp only [hbit, ne_eq, not_false_eq_true, if_true] at h
      split at h
      · simp at h
      · rename_i hchk
        rw [uint_max_shift] at hchk
        have hd : b % 128 = b - 128 := by omega
        have hdl : b - 128 < 128 := by omega
        have hstep : ((acc * 128 ||| (b &&& 0x7F)) <<< 7) % 2 ^ 32
            = (acc * 128 + (b - 128)) * 128 := by
          rw [and_7f_eq_mod, hd, mul128_or hdl, Nat.shiftLeft_eq]
          have : (acc * 128 + (b - 128)) * 2 ^ 7 < 2 ^ 32 := by omega
          rw [Nat.mod_eq_of_lt this]
          norm_num
        rw [hstep] at h
        have hacc2 : (acc * 128 + (b - 128)) * 128 < 2 ^ 32 := by omega
        have hbs3 : ∀ x ∈ bs, x < 256 := fun x hx => hbs x (List.mem_cons_of_mem _ hx)
        obtain ⟨ds, lo, hbs2, hds, hlo, hv, hv32⟩ :=
          ih (acc * 128 + (b - 128)) v rest hbs3 hacc2 h
        refine ⟨(b - 128) :: ds, lo, ?_, ?_, hlo, by simp only [List.foldl_cons]; exact hv,
          hv32⟩
        · rw [hbs2]
          simp only [List.map_cons, List.cons_append, List.cons.injEq, and_true]
          omega
        · intro d hd
          rcases List.mem_cons.mp hd with hd | hd
          · rw [hd]; exact hdl
          · exact hds d hd

theorem later_subidentifiers_inv (size : Nat) :
    ∀ (bs pd : List Nat) (out : List Char) (n : Nat), (∀ b ∈ bs, b < 256) →
      (∀ d ∈ pd, d < 128) → pd.head? ≠ some 0 →
      (∀ last ∈ bs.getLast?, last &&& 0x80 = 0) → (bs = [] → pd = []) →
      0 ≤ (later_subidentifiers size (pd.foldl (fun a d => a * 128 + d) 0) out n bs).ret →
      ∃ vs, pd.map (· + 128) ++ bs = encoding vs ∧ (∀ x ∈ vs, x < 2 ^ 32) ∧
        (later_subidentifiers size (pd.foldl (fun a d => a * 128 + d) 0) out n bs).buf
          = some (out ++ dotted_tail vs) := by
  intro bs
  induction bs with
  | nil =>
    intro pd out n _ _ _ _ hpd _
    rw [hpd rfl]
    exact ⟨[], rfl, by simp, by simp [later_subidentifiers, dotted_tail]⟩
  | cons b bs ih =>
    intro pd out n hbs hpd hhead hlast _ hret
    have hb : b < 256 := hbs b (List.mem_cons_self _ _)
    have hbs2 : ∀ x ∈ bs, x < 256 := fun x hx => hbs x (List.mem_cons_of_mem _ hx)
    have hneg1 : ¬ (0 : Int) ≤ MBEDTLS_ERR_ASN1_INVALID_DATA := by decide
    have hneg2 : ¬ (0 : Int) ≤ MBEDTLS_ERR_OID_BUF_TOO_SMALL := by decide
    revert hret
    simp only [later_subidentifiers]
    by_cases hchk : pd.foldl (fun a d => a * 128 + d) 0 > UINT_MAX >>> 7
    · simp only [hchk, if_true]
      intro hret; exact absurd hret hneg1
    by_cases hover : pd.foldl (fun a d => a * 128 + d) 0 = 0 ∧ b = 0x80
    · simp only [hchk, if_false, hover, and_self, if_true]
      intro hret; exact absurd hret hneg1
    simp only [hchk, if_false, hover]
    rw [uint_max_shift] at hchk
    by_cases hbit : b &&& 0x80 = 0
    · have hlt := byte_bit_clear b hb hbit
      have hmod : b % 128 = b := Nat.mod_eq_of_lt hlt
      have hval : ((pd.foldl (fun a d => a * 128 + d) 0) <<< 7) % 2 ^ 32 ||| (b &&& 0x7F)
          = pd.foldl (fun a d => a * 128 + d) 0 * 128 + b := by
        rw [and_7f_eq_mod, hmod, Nat.shiftLeft_eq]
        have : pd.foldl (fun a d => a * 128 + d) 0 * 2 ^ 7 < 2 ^ 32 := by omega
        rw [Nat.mod_eq_of_lt this]
        exact mul128_or hlt
      simp only [hval, hbit, if_true]
      by_cases hs : ('.' :: fmt_u (pd.foldl (fun a d => a * 128 + d) 0 * 128 + b)).length ≥ n
      · simp only [hs, if_true]
        intro hret; exact absurd hret hneg2
      · simp only [hs, if_false]
        intro hret
        have hlast2 : ∀ last ∈ bs.getLast?, last &&& 0x80 = 0 := by
          intro last hl
          cases bs with
          | nil => simp at hl
          | cons c cs =>
            apply hlast last
            rw [List.getLast?_cons_cons]
            exact hl
        obtain ⟨vs, henc, hvs, hbuf⟩ := ih [] _ _ hbs2 (by simp) (by simp) hlast2
          (fun _ => rfl) hret
        simp only [List.foldl_nil] at hbuf
        refine ⟨(pd.foldl (fun a d => a * 128 + d) 0 * 128 + b) :: vs, ?_, ?_, ?_⟩
        · simp only [List.map_nil, List.nil_append] at henc
          rw [encoding, base128_of_digits pd b hpd hhead hlt, ← henc]
          simp
        · intro x hx
          rcases List.mem_cons.mp hx with hx | hx
          · rw [hx]; omega
          · exact hvs x hx
        · rw [hbuf]
          simp [dotted_tail]
    · have hge := byte_bit_set b hbit
      have hd : b % 128 = b - 128 := by omega
      have hdl : b - 128 < 128 := by omega
      have hval : ((pd.foldl (fun a d => a * 128 + d) 0) <<< 7) % 2 ^ 32 ||| (b &&& 0x7F)
          = (pd ++ [b - 128]).foldl (fun a d => a * 128 + d) 0 := by
        rw [and_7f_eq_mod, hd, Nat.shiftLeft_eq]
        have : pd.foldl (fun a d => a * 128 + d) 0 * 2 ^ 7 < 2 ^ 32 := by omega
        rw [Nat.mod_eq_of_lt this, List.foldl_append]
        exact mul128_or hdl
      simp only [hval, hbit, if_false]
      intro hret
      have hne : bs ≠ [] := by
        intro hnil
        subst hnil
        exact hbit (hlast b (by simp))
      have hlast2 : ∀ last ∈ bs.getLast?, last &&& 0x80 = 0 := by
        intro last hl
        cases bs with
        | nil => simp at hl
        | cons c cs =>
          apply hlast last
          rw [List.getLast?_cons_cons]
          exact hl
      have hhead2 : (pd ++ [b - 128]).head? ≠ some 0 := by
        cases pd with
        | nil =>
          simp only [List.nil_append, List.head?_cons, ne_eq, Option.some.injEq]
          intro h0
          apply hover
          exact ⟨rfl, by omega⟩
        | cons p ps => simpa using hhead
      have hpd2 : ∀ d ∈ pd ++ [b - 128], d < 128 := by
        intro d hd
        rcases List.mem_append.mp hd with hd | hd
        · exact hpd d hd
        · simp at hd; omega
      obtain ⟨vs, henc, hvs, hbuf⟩ := ih (pd ++ [b - 128]) out n hbs2 hpd2 hhead2 hlast2
        (fun h => absurd h hne) hret
      refine ⟨vs, ?_, hvs, hbuf⟩
      rw [← henc]
      simp only [List.map_append, List.map_cons, List.map_nil, List.append_assoc,
        List.singleton_append, List.append_cancel_left_eq, List.cons.injEq, and_true]
      omega

theorem get_numeric_string_success (size : Nat) (oid : List Nat)
    (hbytes : ∀ b ∈ oid, b < 256) (hlast : ∀ last ∈ oid.getLast?, last &&& 0x80 = 0)
    (hret : 0 ≤ (mbedtls_oid_get_numeric_string size oid).ret) :
    ∃ (v : Nat) (vs : List Nat), oid = encoding (v :: vs) ∧ v < 2 ^ 32 ∧
      (∀ x ∈ vs, x < 2 ^ 32) ∧
      (mbedtls_oid_get_numeric_string size oid).buf
        = some (dotted (first_component v) (second_component v) vs) := by
  have hneg1 : ¬ (0 : Int) ≤ MBEDTLS_ERR_ASN1_INVALID_DATA := by decide
  have hneg2 : ¬ (0 : Int) ≤ MBEDTLS_ERR_OID_BUF_TOO_SMALL := by decide
  have hneg3 : ¬ (0 : Int) ≤ MBEDTLS_ERR_ASN1_OUT_OF_DATA := by decide
  revert hret
  unfold mbedtls_oid_get_numeric_string
  by_cases hhead : oid.head? = some 0x80
  · simp only [hhead, if_true]
    intro hret; exact absurd hret hneg1
  simp only [hhead, if_false]
  cases hfs : first_subidentifier 0 oid with
  | error e =>
    simp only
    intro hret
    rcases first_subidentifier_error oid 0 e hfs with he | he
    · rw [he] at hret; exact absurd hret hneg1
    · rw [he] at hret; exact absurd hret hneg3
  | ok res =>
    obtain ⟨v, rest⟩ := res
    have hfs2 : first_subidentifier (0 * 128) oid = .ok (v, rest) := by
      rw [Nat.zero_mul]; exact hfs
    obtain ⟨ds, lo, hoid, hds, hlo, hv, hv32⟩ :=
      first_subidentifier_inv oid 0 v rest hbytes (by norm_num) hfs2
    have hdh : ds.head? ≠ some 0 := by
      intro h0
      apply hhead
      rw [hoid]
      cases ds with
      | nil => simp at h0
      | cons d ds =>
        simp only [List.head?_cons, Option.some.injEq] at h0
        rw [h0]
        rfl
    have hb128 : base128 v = ds.map (· + 128) ++ [lo] := by
      rw [hv]
      exact base128_of_digits ds lo hds hdh hlo
    have hoid2 : oid = base128 v ++ rest := by
      rw [hb128, hoid]
      simp
    have hc1 : (if v / 40 > 2 then 2 else v / 40) = first_component v := by
      unfold first_component; split <;> omega
    have hc2 : (v + 2 ^ 32 - 40 * first_component v) % 2 ^ 32 = second_component v := by
      have := first_component_mul_le v
      unfold second_component
      omega
    simp only [hc1, hc2]
    by_cases hs : (fmt_u (first_component v) ++ '.' :: fmt_u (second_component v)).length
        ≥ size
    · simp only [hs, if_true]
      intro hret; exact absurd hret hneg2
    · simp only [hs, if_false]
      intro hret
      have hbrest : ∀ b ∈ rest, b < 256 := by
        intro b hb
        apply hbytes b
        rw [hoid2]
        exact List.mem_append_right _ hb
      have hlrest : ∀ last ∈ rest.getLast?, last &&& 0x80 = 0 := by
        intro last hl
        apply hlast last
        rw [hoid2, List.getLast?_append]
        rw [Option.mem_def] at hl
        rw [hl]
        rfl
      obtain ⟨vs, henc, hvs, hbuf⟩ := later_subidentifiers_inv size rest [] _ _ hbrest
        (by simp) (by simp) hlrest (fun _ => rfl) hret
      simp only [List.foldl_nil] at hbuf
      simp only [List.map_nil, List.nil_append] at henc
      refine ⟨v, vs, ?_, hv32, hvs, ?_⟩
      · rw [hoid2, henc]
        rfl
      · rw [hbuf]
        rfl

/-! ## The dotted-decimal text determines the components -/

theorem fmt_u_digits (v : Nat) : ∀ c ∈ fmt_u v, is_digit c := by
  induction v using Nat.strong_induction_on with
  | _ v ih =>
    by_cases h : v < 10
    · rw [fmt_u_lt h]
      intro c hc
      simp only [List.mem_singleton] at hc
      rw [hc]
      exact ⟨(digitChar_digit h).1, (digitChar_digit h).2.1⟩
    · rw [fmt_u_ge (by omega)]
      intro c hc
      rcases List.mem_append.mp hc with hc | hc
      · exact ih (v / 10) (by omega) c hc
      · simp only [List.mem_singleton] at hc
        rw [hc]
        have hd : v % 10 < 10 := Nat.mod_lt _ (by norm_num)
        exact ⟨(digitChar_digit hd).1, (digitChar_digit hd).2.1⟩

theorem decimal_value_fmt_u (v : Nat) : decimal_value (fmt_u v) = v := by
  induction v using Nat.strong_induction_on with
  | _ v ih =>
    by_cases h : v < 10
    · rw [fmt_u_lt h]
      simp only [decimal_value, List.foldl_cons, List.foldl_nil]
      have := (digitChar_digit h).2.2
      omega
    · rw [fmt_u_ge (by omega)]
      have hd : v % 10 < 10 := Nat.mod_lt _ (by norm_num)
      have h1 := ih (v / 10) (by omega)
      unfold decimal_value at h1 ⊢
      rw [List.foldl_append, h1]
      simp only [List.foldl_cons, List.foldl_nil]
      have := (digitChar_digit hd).2.2
      omega

theorem digit_run_split :
    ∀ (a a' r r' : List Char), (∀ c ∈ a, is_digit c) → (∀ c ∈ a', is_digit c) →
      no_leading_digit r → no_leading_digit r' → a ++ r = a' ++ r' → a = a' ∧ r = r' := by
  intro a
  induction a with
  | nil =>
    intro a' r r' _ ha' hr _ h
    cases a' with
    | nil => exact ⟨rfl, by simpa using h⟩
    | cons c cs =>
      simp only [List.nil_append, List.cons_append] at h
      have hc : is_digit c := ha' c (List.mem_cons_self _ _)
      exact absurd hc (hr c (by rw [h]; rfl))
  | cons x xs ih =>
    intro a' r r' ha ha' hr hr' h
    cases a' with
    | nil =>
      simp only [List.nil_append, List.cons_append] at h
      have hx : is_digit x := ha x (List.mem_cons_self _ _)
      exact absurd hx (hr' x (by rw [← h]; rfl))
    | cons c cs =>
      simp only [List.cons_append, List.cons.injEq] at h
      obtain ⟨hxc, htl⟩ := h
      obtain ⟨h1, h2⟩ := ih cs r r' (fun y hy => ha y (List.mem_cons_of_mem _ hy))
        (fun y hy => ha' y (List.mem_cons_of_mem _ hy)) hr hr' htl
      exact ⟨by rw [hxc, h1], h2⟩

theorem fmt_u_append_inj {x y : Nat} {r r' : List Char} (hr : no_leading_digit r)
    (hr' : no_leading_digit r') (h : fmt_u x ++ r = fmt_u y ++ r') : x = y ∧ r = r' := by
  obtain ⟨h1, h2⟩ := digit_run_split _ _ _ _ (fmt_u_digits x) (fmt_u_digits y) hr hr' h
  refine ⟨?_, h2⟩
  rw [← decimal_value_fmt_u x, ← decimal_value_fmt_u y, h1]

theorem dotted_tail_inj : ∀ (vs vs' : List Nat), dotted_tail vs = dotted_tail vs' → vs = vs' := by
  intro vs
  induction vs with
  | nil =>
    intro vs' h
    cases vs' with
    | nil => rfl
    | cons w ws => simp [dotted_tail] at h
  | cons v vs ih =>
    intro vs' h
    cases vs' with
    | nil => simp [dotted_tail] at h
    | cons w ws =>
      simp only [dotted_tail, List.cons_append, List.cons.injEq, true_and] at h
      obtain ⟨h1, h2⟩ := fmt_u_append_inj (no_leading_digit_tail vs) (no_leading_digit_tail ws) h
      rw [h1, ih ws h2]

theorem dotted_inj {c1 c2 d1 d2 : Nat} {vs ws : List Nat}
    (h : dotted c1 c2 vs = dotted d1 d2 ws) : c1 = d1 ∧ c2 = d2 ∧ vs = ws := by
  have e1 : dotted c1 c2 vs = fmt_u c1 ++ '.' :: (fmt_u c2 ++ dotted_tail vs) := by
    simp [dotted]
  have e2 : dotted d1 d2 ws = fmt_u d1 ++ '.' :: (fmt_u d2 ++ dotted_tail ws) := by
    simp [dotted]
  rw [e1, e2] at h
  obtain ⟨h1, h2⟩ := fmt_u_append_inj (no_leading_digit_dot _) (no_leading_digit_dot _) h
  simp only [List.cons.injEq, true_and] at h2
  obtain ⟨h3, h4⟩ := fmt_u_append_inj (no_leading_digit_tail vs) (no_leading_digit_tail ws) h2
  exact ⟨h1, h3, dotted_tail_inj vs ws h4⟩

/-- C28: for any two binary OIDs `b1` and `b2` (lists of bytes) whose last byte has
the continuation bit clear and on which `mbedtls_oid_get_numeric_string` succeeds
(returns a non-negative value), if the two texts written are equal then `b1 = b2`,
whatever the two buffer sizes; and two first-subidentifier values with the same split
into first and second component are equal. -/
theorem decode_injective (size1 size2 : Nat) (b1 b2 : List Nat)
    (hbytes1 : ∀ b ∈ b1, b < 256) (hbytes2 : ∀ b ∈ b2, b < 256)
    (hlast1 : ∀ last ∈ b1.getLast?, last &&& 0x80 = 0)
    (hlast2 : ∀ last ∈ b2.getLast?, last &&& 0x80 = 0)
    (hret1 : 0 ≤ (mbedtls_oid_get_numeric_string size1 b1).ret)
    (hret2 : 0 ≤ (mbedtls_oid_get_numeric_string size2 b2).ret)
    (heq : (mbedtls_oid_get_numeric_string size1 b1).buf
      = (mbedtls_oid_get_numeric_string size2 b2).buf) :
    b1 = b2 ∧
      ∀ v w : Nat, first_component v = first_component w →
        second_component v = second_component w → v = w := by
  have hsplit : ∀ v w : Nat, first_component v = first_component w →
      second_component v = second_component w → v = w := by
    intro v w h1 h2
    rw [← components_add v, ← components_add w, h1, h2]
  refine ⟨?_, hsplit⟩
  obtain ⟨v, vs, hb1, _, _, hbuf1⟩ := get_numeric_string_success size1 b1 hbytes1 hlast1 hret1
  obtain ⟨w, ws, hb2, _, _, hbuf2⟩ := get_numeric_string_success size2 b2 hbytes2 hlast2 hret2
  rw [hbuf1, hbuf2, Option.some.injEq] at heq
  obtain ⟨h1, h2, h3⟩ := dotted_inj heq
  rw [hb1, hb2, hsplit v w h1 h2, h3]

/-- Witness of C28 on the bytes `2A 86 48` decoded into buffers of 8 and of 16
characters. -/
theorem decode_injective_witness :
    0 ≤ (mbedtls_oid_get_numeric_string 8 [0x2A, 0x86, 0x48]).ret ∧
    (mbedtls_oid_get_numeric_string 8 [0x2A, 0x86, 0x48]).buf
      = (mbedtls_oid_get_numeric_string 16 [0x2A, 0x86, 0x48]).buf ∧
    [0x2A, 0x86, 0x48] = [0x2A, 0x86, 0x48] :=
  ⟨by decide, by decide,
    (decode_injective 8 16 [0x2A, 0x86, 0x48] [0x2A, 0x86, 0x48] (by decide) (by decide)
      (by decide) (by decide) (by decide) (by decide) (by decide)).1⟩
